import Mathlib

/-!
# Volume-averaged phase-change thermodynamics: `ThermoSystem` and `EnergySystem`

A shallow embedding of `source/fem/volume_average/thermo_system.cpp` (the
point-wise thermodynamic evaluator, the stabilization terms and the
initialization of the thermo system) and of
`source/fem/volume_average/energy_system.cpp` (the temperature to enthalpy
conversion, the blending factor `alpha`, and the assembly of the linear system).

Conventions of the embedding.

* `Number` (a C++ `double`) is modelled by `ℚ`: arithmetic is exact, rounding,
  infinities and NaN are outside the model.  Division is Lean's total division
  (`x / 0 = 0`) where the source has IEEE semantics; the statements about single
  formulas carry the non-zero hypotheses they need, the statements about the
  iteration follow it in exact arithmetic, and none of the concrete evaluations
  below divides by zero.  The one function whose only division is the subject of
  a claim at the divisor zero, `element_length`, returns an `Option`; and
  `density`, whose value is claimed for every stored temperature, is evaluated a
  second time over `ExtendedNumber`, which has the infinities and NaN, so that a
  division by zero in `lever_rule` or in the iteration shows in the result.
* A point `p` enters the source only through the values that the linked systems
  report there: `C = concentration->point_value(0, p)`,
  `h = energy->point_value(0, p)` and the stored temperature
  `T = point_value("temperature", p)`.  These three numbers replace `p`; the
  linked systems are thereby present and initialized, so that the checks
  `valid(...)` and `!energy` at the head of the functions pass.
* `unsigned int` is a 32 bit machine integer: the iteration counter wraps
  modulo `2 ^ 32`.
* A function of the source that may fail to hand back a value (fatal
  `libmesh_error()`, control falling off the end of a value-returning function,
  a loop that does not stop) returns an `Option`; `none` stands for "no value".
-/

/-! # File name handling: `FileParts`

A shallow embedding of `source/common/file_parts/file_parts.cpp`.  A
`std::string` is the list of its characters, and a `const char*` argument is
given by the characters before its terminating NUL, so that the conversion
`std::string str(c_str)` is the identity.  `size_t` is a 64 bit machine
integer.  The members `rfind`, `find` and `substr` of `std::string` follow the
C++ standard, for a needle of one character. -/

namespace SlaughterCommon

/-- The constant `std::string::npos`, the largest `size_t`. -/
def npos : ℕ := 2 ^ 64 - 1

/-- The call `str.rfind(c)` for a one-character needle: the position of the last
occurrence of `c`, or `npos` if there is none. -/
def rfind (str : List Char) (c : Char) : ℕ :=
  let r := str.reverse.indexOf c
  if r < str.length then str.length - 1 - r else npos

/-- The call `str.find(c, pos)` for a one-character needle: the position of the first
occurrence of `c` at or after `pos`, or `npos` if there is none. -/
def find (str : List Char) (c : Char) (pos : ℕ) : ℕ :=
  let rest := str.drop pos
  let i := rest.indexOf c
  if i < rest.length then pos + i else npos

/-- The call `str.substr(pos, count)` for `pos ≤ str.length()` (the source calls it only
so): the characters from `pos` on, at most `count` of them. -/
def substr (str : List Char) (pos count : ℕ) : List Char :=
  (str.drop pos).take count

/-- The class `FileParts`: the public data members. -/
structure FileParts where
  full : List Char
  path : List Char
  name : List Char
  ext : List Char
  exist : Bool
deriving DecidableEq

namespace FileParts

/-- The default constructor `FileParts(){}`: the strings are empty, the flag `exist` is
not set by it and has whatever value `exist` is given here. -/
def fresh (exist : Bool) : FileParts :=
  ⟨[], [], [], [], exist⟩

/-- The function `FileParts::init`.  `file_exists str` tells whether `fopen(str, "r")`
succeeds, a fact of the file system.  The positions are `size_t`: `slash+1` and
`dot - slash - 1` are computed modulo `2 ^ 64`. -/
def init (file_exists : List Char → Bool) (fp : FileParts) (str : List Char) : FileParts :=
  let fp := { fp with full := str }
  let slash := rfind str '/'
  let dot := find str '.' slash
  let fp :=
    if dot > 0 ∧ dot < str.length then
      { fp with ext := substr str dot npos }
    else fp
  let fp :=
    if slash > 0 ∧ slash < str.length then
      { fp with
        name := substr str ((slash + 1) % 2 ^ 64) ((dot + 2 ^ 64 - slash - 1) % 2 ^ 64)
        path := substr str 0 ((slash + 1) % 2 ^ 64) }
    else fp
  { fp with exist := file_exists str }

/-- The constructors `FileParts(std::string str)` and `FileParts(const char* c_str)`: the
members are default-initialized, then `init(str)` runs. -/
def construct (file_exists : List Char → Bool) (exist : Bool) (str : List Char) : FileParts :=
  init file_exists (fresh exist) str

/-- The two overloads of `FileParts::assign`: `init(str)` on the object as it is. -/
def assign (file_exists : List Char → Bool) (fp : FileParts) (str : List Char) : FileParts :=
  init file_exists fp str

/-- The function `FileParts::update`: `full.assign(path)`, `full.append(name)`,
`full.append(ext)`. -/
def update (fp : FileParts) : FileParts :=
  let full := fp.path
  let full := full ++ fp.name
  let full := full ++ fp.ext
  { fp with full := full }

/-- The text that `tss << tstep` adds to the string stream after `tss.width(width)` and
`tss.fill(fill)`: the decimal digits of the `int`, after a minus sign if it is
negative, right-adjusted in a field of `width` characters when they are fewer. -/
def stream_insert (width : ℤ) (fill : Char) (tstep : ℤ) : List Char :=
  let text :=
    if tstep < 0 then '-' :: Nat.toDigits 10 tstep.natAbs else Nat.toDigits 10 tstep.natAbs
  List.replicate (width.toNat - text.length) fill ++ text

/-- The function `FileParts::add_tstep`: the returned string, and the object after the
call. -/
def add_tstep (fp : FileParts) (tstep pad : ℤ) (prfx : List Char) : List Char × FileParts :=
  let tss := stream_insert pad '0' tstep
  let str : List Char := []
  let str := str ++ fp.path
  let str := str ++ fp.name
  let str := str ++ prfx
  let str := str ++ tss
  let str := str ++ fp.ext
  (str, fp)

/-- The digits of the specification for `add_tstep`: the decimal representation of
`tstep`, left-padded with the character `0` to at least `pad` characters. -/
def digits_spec (tstep pad : ℕ) : List Char :=
  List.leftpad pad '0' (Nat.toDigits 10 tstep)

end FileParts

end SlaughterCommon

namespace SlaughterFEM

/-- The named constants kept by `set_constant` / `get_constant`, one field per key
used in `ThermoSystem::set_default_constants`. -/
structure Constants where
  conductivity_solid : ℚ
  conductivity_fluid : ℚ
  specific_heat_solid : ℚ
  specific_heat_fluid : ℚ
  latent_heat : ℚ
  partition_coefficient : ℚ
  thermal_expansion : ℚ
  solute_expansion : ℚ
  density_solid : ℚ
  density_fluid : ℚ
  viscosity : ℚ
  eutectic_temperature : ℚ
  melting_temperature : ℚ
  ambient_temperature : ℚ
  gravity : ℚ
  liquidus_slope : ℚ
  diffusion : ℚ
  dentrite_arm_spacing : ℚ
  dt : ℚ
  temp_max_iter : ℕ
  temp_min_error : ℚ

namespace ThermoSystem

/-- The constants installed by `ThermoSystem::set_default_constants`
(Table I of Samanta and Zabaras, 2005). -/
def set_default_constants : Constants where
  conductivity_solid := 397 / 10000
  conductivity_fluid := 229 / 10000
  specific_heat_solid := 1779 / 10000
  specific_heat_fluid := 1547 / 10000
  latent_heat := 30162 / 1000
  partition_coefficient := 31 / 100
  thermal_expansion := 109 / 1000000
  solute_expansion := 354 / 1000
  density_solid := 10800
  density_fluid := 10000
  viscosity := 23 / 10000
  eutectic_temperature := 183
  melting_temperature := 327
  ambient_temperature := 20
  gravity := 981 / 100
  liquidus_slope := -23263 / 100
  diffusion := 105 / 100000000000
  dentrite_arm_spacing := 1 / 1000
  dt := 1 / 100
  temp_max_iter := 100
  temp_min_error := 1 / 1000

/-- Eq. 11, `ThermoSystem::reference_enthalpy`: `(cs - cf)*Te + hf`. -/
def reference_enthalpy (k : Constants) : ℚ :=
  let cs := k.specific_heat_solid
  let cf := k.specific_heat_fluid
  let hf := k.latent_heat
  let Te := k.eutectic_temperature
  (cs - cf) * Te + hf

/-- Eq. 17, `ThermoSystem::T_liq`: `Tm + m * C`. -/
def T_liq (k : Constants) (C : ℚ) : ℚ :=
  let Tm := k.melting_temperature
  let m := k.liquidus_slope
  Tm + m * C

/-- Eq. 18, `ThermoSystem::T_sol`: `std::max(Tm + m/kp*C, Te)`. -/
def T_sol (k : Constants) (C : ℚ) : ℚ :=
  let Tm := k.melting_temperature
  let Te := k.eutectic_temperature
  let m := k.liquidus_slope
  let kp := k.partition_coefficient
  max (Tm + m / kp * C) Te

/-- Eq. 19, `ThermoSystem::h_liq`: `cf * T_liq(p) + h0`. -/
def h_liq (k : Constants) (C : ℚ) : ℚ :=
  let cf := k.specific_heat_fluid
  let h0 := reference_enthalpy k
  cf * T_liq k C + h0

/-- Eq. 20, `ThermoSystem::h_sol`: `cs * T_sol(p)`. -/
def h_sol (k : Constants) (C : ℚ) : ℚ :=
  let cs := k.specific_heat_solid
  cs * T_sol k C

/-- Eq. 22, `ThermoSystem::lever_rule`:
`1 - 1 / (1-kp) * (T - T_liq(p)) / (T - Tm)`. -/
def lever_rule (k : Constants) (C T : ℚ) : ℚ :=
  let kp := k.partition_coefficient
  let Tm := k.melting_temperature
  1 - 1 / (1 - kp) * (T - T_liq k C) / (T - Tm)

/-- Eq. 21, `ThermoSystem::h_e`: `fe * hf + cs * Te` with `fe = lever_rule(p, Te)`. -/
def h_e (k : Constants) (C : ℚ) : ℚ :=
  let Te := k.eutectic_temperature
  let hf := k.latent_heat
  let cs := k.specific_heat_solid
  let fe := lever_rule k C Te
  fe * hf + cs * Te

/-- One pass through the body of the `while` loop of
`ThermoSystem::temperature_iterative`, up to the new estimate:
`f = lever_rule(p, T)` and `T_new = (h - f*h0) / (f*cf + (1-f)*cs)`. -/
def temperature_update (k : Constants) (C h T : ℚ) : ℚ :=
  let cf := k.specific_heat_fluid
  let cs := k.specific_heat_solid
  let h0 := reference_enthalpy k
  let f := lever_rule k C T
  (h - f * h0) / (f * cf + (1 - f) * cs)

/-- The `while (err > err_min)` loop of `ThermoSystem::temperature_iterative`.
The state is the estimate `T`, the error `err` and the 32 bit counter `cnt`;
every test of the loop condition consumes one unit of `fuel`, and `none` means
that the fuel ran out before the loop stopped.  The result is the returned
temperature together with the final value of `cnt`. -/
def temperature_loop (k : Constants) (C h : ℚ) : ℕ → ℚ → ℚ → ℕ → Option (ℚ × ℕ)
  | 0, _, _, _ => none
  | fuel + 1, T, err, cnt =>
    if err > k.temp_min_error then
      let T_new := temperature_update k C h T
      let err_new := |T_new - T| / T
      let cnt_new := (cnt + 1) % 2 ^ 32
      if cnt_new > k.temp_max_iter then
        some (T_new, cnt_new)
      else
        temperature_loop k C h fuel T_new err_new cnt_new
    else
      some (T, cnt)

/-- The function `ThermoSystem::temperature_iterative`: the loop started from the
stored temperature with `err = 1` and `cnt = 0`.  The budget of
`temp_max_iter + 1` tests of the loop condition is enough for the loop to stop
whenever `temp_max_iter < 2 ^ 32 - 1` (see `temperature_loop_bounded`). -/
def temperature_iterative (k : Constants) (C h T : ℚ) : Option ℚ :=
  (temperature_loop k C h (k.temp_max_iter + 1) T 1 0).map Prod.fst

/-- The function `ThermoSystem::temperature`; `Ts` is the stored temperature
`point_value("temperature", p)` that the iterative solver starts from.  The source has no final `else`: control that
reaches the end returns no value. -/
def temperature (k : Constants) (C h Ts : ℚ) : Option ℚ :=
  let cf := k.specific_heat_fluid
  let cs := k.specific_heat_solid
  let h0 := reference_enthalpy k
  let hliq := h_liq k C
  let hsol := h_sol k C
  let he := h_e k C
  if h > hliq then
    some ((h - h0) / cf)
  else if he < h ∧ h ≤ hliq then
    temperature_iterative k C h Ts
  else if hsol < h ∧ h ≤ he then
    some k.eutectic_temperature
  else if h ≤ hsol then
    some (h / cs)
  else
    none

/-- The mixture formula `1 / (f/pf + (1-f)/ps)` that both mushy branches of
`ThermoSystem::density` return. -/
def density_mixture (pf ps f : ℚ) : ℚ :=
  1 / (f / pf + (1 - f) / ps)

/-- The function `ThermoSystem::density`.  As in the source, both `pf` and `ps` are read
from the constant `"density_fluid"`, and the temperature `T = temperature(p)` is
computed before the branch is chosen; `Ts` is the stored temperature.  The last `else` is the fatal "undefined range" error. -/
def density (k : Constants) (C h Ts : ℚ) : Option ℚ :=
  let hf := k.latent_heat
  let pf := k.density_fluid
  let ps := k.density_fluid
  let hliq := h_liq k C
  let hsol := h_sol k C
  let he := h_e k C
  (temperature k C h Ts).bind fun T =>
    if h > hliq then
      some pf
    else if he < h ∧ h ≤ hliq then
      let f := lever_rule k C T
      some (density_mixture pf ps f)
    else if hsol < h ∧ h ≤ he then
      let f := (h - hsol) / hf
      some (density_mixture pf ps f)
    else if h ≤ hsol then
      some ps
    else
      none

/-- The function `ThermoSystem::epsilon`: `T = temperature(p)` and `rho = density(p)` are
computed first, then the branch is chosen; `Ts` is the stored temperature.  No final `else` in the source. -/
def epsilon (k : Constants) (C h Ts : ℚ) : Option ℚ :=
  let ps := k.density_solid
  let pf := k.density_fluid
  let hliq := h_liq k C
  let hsol := h_sol k C
  let he := h_e k C
  (temperature k C h Ts).bind fun T =>
    (density k C h Ts).bind fun rho =>
      if h > hliq then
        some 1
      else if he < h ∧ h ≤ hliq then
        let f := lever_rule k C T
        some (rho * f / pf)
      else if hsol < h ∧ h ≤ he then
        some ((rho - ps) / (pf - ps))
      else if h ≤ hsol then
        some 0
      else
        none

/-- The function `ThermoSystem::liquid_mass_fraction`; `T` is the stored temperature
`point_value("temperature", p)`. -/
def liquid_mass_fraction (k : Constants) (C h T : ℚ) : ℚ :=
  let hf := k.latent_heat
  let hliq := h_liq k C
  let hsol := h_sol k C
  let he := h_e k C
  if h > hliq then
    1
  else if he < h ∧ h ≤ hliq then
    lever_rule k C T
  else if hsol < h ∧ h ≤ he then
    (h - h_sol k C) / hf
  else if h ≤ hsol then
    0
  else
    0

/-- The eutectic concentration `(Te - Tm) / m`, the value that
`ThermoSystem::fluid_concentration` returns on the eutectic plateau. -/
def eutectic_concentration (k : Constants) : ℚ :=
  (k.eutectic_temperature - k.melting_temperature) / k.liquidus_slope

/-- The default constants with the iteration cap raised to the largest
`unsigned int` and a negative tolerance, as `set_constant` can install them. -/
def uncapped_constants : Constants :=
  { set_default_constants with temp_max_iter := 4294967295, temp_min_error := -1 }

end ThermoSystem

namespace EnergySystem

open ThermoSystem

/-- The conversion at the end of `EnergySystem::temperature_to_enthalpy`: `T` is the
initial temperature at the point, the result is `output(0)`.  The source has no
final `else`: if no branch applies, `output(0)` is left unassigned. -/
def temperature_to_enthalpy (k : Constants) (C T : ℚ) : Option ℚ :=
  let Tliq := T_liq k C
  let Tsol := T_sol k C
  let hsol := h_sol k C
  let Te := k.eutectic_temperature
  let hf := k.latent_heat
  let cf := k.specific_heat_fluid
  let cs := k.specific_heat_solid
  if T > Tliq then
    let f : ℚ := 1
    some (f * ((cf - cs) * (T - Te) + hf) + cs * T)
  else if Te < T ∧ T ≤ Tliq then
    let f := lever_rule k C T
    some (f * ((cf - cs) * (T - Te) + hf) + cs * T)
  else if Tsol < T ∧ T ≤ Te then
    let B := (cf - cs) * (T - Te) + hf
    some ((B * hsol - hf * cs * T) / (B - hf))
  else if T ≤ Tsol then
    some (T * cs)
  else
    none

end EnergySystem


/-! ## Stabilization terms

`VectorValue<Number>` (also `Gradient`, `RealGradient`) is the three-component
vector of libMesh; `s * t` is the dot product, `s * c` the scaling and
`s.size()` the Euclidean length `std::sqrt(s.size_sq())`.  The square root is
the only operation that leaves the field, and is a parameter `sqrt` of the
definitions that use `size`. -/

/-- The class `VectorValue<Number>` of libMesh: the components `(0)`, `(1)`, `(2)`. -/
structure VectorValue (K : Type) where
  x : K
  y : K
  z : K
deriving DecidableEq

namespace VectorValue

/-- The zero vector, the value of a default-constructed `VectorValue`. -/
def zero {K : Type} [LinearOrderedField K] : VectorValue K := ⟨0, 0, 0⟩

/-- The dot product `a * b`. -/
def dot {K : Type} [LinearOrderedField K] (a b : VectorValue K) : K :=
  a.x * b.x + a.y * b.y + a.z * b.z

/-- The product `a * c` with a scalar. -/
def scale {K : Type} [LinearOrderedField K] (a : VectorValue K) (c : K) : VectorValue K :=
  ⟨a.x * c, a.y * c, a.z * c⟩

/-- The squared length `a.size_sq()`. -/
def size_sq {K : Type} [LinearOrderedField K] (a : VectorValue K) : K :=
  a.x * a.x + a.y * a.y + a.z * a.z

/-- The length `a.size()`, the square root of `a.size_sq()`. -/
def size {K : Type} [LinearOrderedField K] (sqrt : K → K) (a : VectorValue K) : K :=
  sqrt (size_sq a)

end VectorValue

namespace ThermoSystem

/-- The body of the loop over the nodes in `ThermoSystem::element_length`: `v` is the
velocity `momentum->point_value(pvec[i])` at node `i`, `B` the gradient `B[i][i]`
of the shape function of node `i` at node `i`, and `h` the sum so far. -/
def element_length_node {K : Type} [LinearOrderedField K] (sqrt : K → K) (h : K)
    (v B : VectorValue K) : K :=
  let s := v
  let norm := VectorValue.size sqrt s
  if norm ≠ 0 then
    let s := s.scale (1 / norm)
    h + |s.dot B|
  else
    h

/-- The value of `h` at the end of the loop of `ThermoSystem::element_length`, started at
`h = 0`; `nodes` lists, node by node, the velocity and the gradient `B[i][i]`. -/
def element_length_sum {K : Type} [LinearOrderedField K] (sqrt : K → K)
    (nodes : List (VectorValue K × VectorValue K)) : K :=
  nodes.foldl (fun h nd => element_length_node sqrt h nd.1 nd.2) 0

/-- The function `ThermoSystem::element_length`: `return 2/h`.  The source does not guard
the division; for `h = 0` the quotient is not a number of the field (the
division of doubles gives `inf`), which is the result `none`. -/
def element_length {K : Type} [LinearOrderedField K] (sqrt : K → K)
    (nodes : List (VectorValue K × VectorValue K)) : Option K :=
  let h := element_length_sum sqrt nodes
  if h = 0 then none else some (2 / h)

/-- The sum in the formula of the specification for the element length: over the nodes
`a` with non-zero velocity `v_a`, of `|(v_a / ‖v_a‖) · grad N_a(x_a)|`. -/
def element_length_sum_spec {K : Type} [LinearOrderedField K] (sqrt : K → K)
    (nodes : List (VectorValue K × VectorValue K)) : K :=
  ((nodes.filter fun nd => decide (nd.1 ≠ VectorValue.zero)).map fun nd =>
    |VectorValue.dot
      ⟨nd.1.x / VectorValue.size sqrt nd.1, nd.1.y / VectorValue.size sqrt nd.1,
        nd.1.z / VectorValue.size sqrt nd.1⟩ nd.2|).sum

/-- Gradient at `(x, y)` of the bilinear (first order Lagrange) shape function
`(1 + xa * x) * (1 + ya * y) / 4` of the node `(xa, ya)` of the square
`[-1, 1] × [-1, 1]`, the `QUAD4` element that `build_square(mesh, 1, 1, -1, 1, -1, 1,
QUAD4)` creates in `test_eqdata.cpp`. -/
def quad4_dphi {K : Type} [LinearOrderedField K] (xa ya x y : K) : VectorValue K :=
  ⟨xa * (1 + ya * y) / 4, ya * (1 + xa * x) / 4, 0⟩

/-- The test element of `test_eqdata.cpp`: nodes `0..3` at `(-1,-1)`, `(1,-1)`, `(1,1)`,
`(-1,1)` with the velocities `(1,2)`, `(1,0)`, `(1,1)`, `(0,0)` of
`initial_velocity`, each with the gradient of its own shape function at the node. -/
def test_element {K : Type} [LinearOrderedField K] : List (VectorValue K × VectorValue K) :=
  [(⟨1, 2, 0⟩, quad4_dphi (-1) (-1) (-1) (-1)),
   (⟨1, 0, 0⟩, quad4_dphi 1 (-1) 1 (-1)),
   (⟨1, 1, 0⟩, quad4_dphi 1 1 1 1),
   (⟨0, 0, 0⟩, quad4_dphi (-1) 1 (-1) 1)]

/-- The test element with the velocity set to zero at every node. -/
def test_element_at_rest {K : Type} [LinearOrderedField K] :
    List (VectorValue K × VectorValue K) :=
  [(⟨0, 0, 0⟩, quad4_dphi (-1) (-1) (-1) (-1)),
   (⟨0, 0, 0⟩, quad4_dphi 1 (-1) 1 (-1)),
   (⟨0, 0, 0⟩, quad4_dphi 1 1 1 1),
   (⟨0, 0, 0⟩, quad4_dphi (-1) 1 (-1) 1)]

/-- The function `ThermoSystem::tau_supg`.  At the point `p` the source reads the velocity
`v = momentum->point_value(p)` and the stored values `rho` and `f` of
`"density"` and `"liquid_mass_fraction"`; `h` is the element length. -/
def tau_supg (sqrt : ℚ → ℚ) (k : Constants) (v : VectorValue ℚ) (rho f h : ℚ) : ℚ :=
  let mu := k.viscosity
  let v_norm := VectorValue.size sqrt v
  let Re := v_norm * h / (2 * mu / rho)
  let zRe := if Re ≥ 0 ∧ Re ≤ 3 then Re / 3 else 1
  f * h / (2 * v_norm) * zRe

/-- Eq. 6, `ThermoSystem::kozeny_carman`:
`(std::pow(d,2)/180 * std::pow(e,3)) / std::pow((1-e),2)`. -/
def kozeny_carman (k : Constants) (e : ℚ) : ℚ :=
  let d := k.dentrite_arm_spacing
  (d ^ 2 / 180 * e ^ 3) / (1 - e) ^ 2

/-- The function `ThermoSystem::tau_K`; `eps` is the stored value of `"epsilon"` at the
point. -/
def tau_K (k : Constants) (eps : ℚ) : ℚ :=
  let mu := k.viscosity
  let pf := k.density_fluid
  let K := kozeny_carman k eps
  (K * pf) / (eps * mu)

/-- Eq. 40, `ThermoSystem::tau_1`: `std::min(tau_supg(p, h), tau_K(p))`. -/
def tau_1 (sqrt : ℚ → ℚ) (k : Constants) (v : VectorValue ℚ) (rho f eps h : ℚ) : ℚ :=
  min (tau_supg sqrt k v rho f h) (tau_K k eps)

/-- The function `z(Re)` of the specification: `Re / 3` for `0 ≤ Re ≤ 3`, else `1`. -/
def z_spec (Re : ℚ) : ℚ :=
  if 0 ≤ Re ∧ Re ≤ 3 then Re / 3 else 1

/-- The SUPG coefficient of the specification: `f * h / (2 * ‖v‖) * z(Re)` with
`Re = ‖v‖ * h / (2 * mu / rho)`. -/
def tau_supg_spec (f h v_norm mu rho : ℚ) : ℚ :=
  f * h / (2 * v_norm) * z_spec (v_norm * h / (2 * mu / rho))

/-- The Kozeny-Carman permeability of the specification:
`K(eps) = d^2 / 180 * eps^3 / (1 - eps)^2`. -/
def kozeny_carman_spec (d eps : ℚ) : ℚ :=
  d ^ 2 / 180 * eps ^ 3 / (1 - eps) ^ 2

/-- The permeability coefficient of the specification: `K(eps) * rho_f / (eps * mu)`. -/
def tau_K_spec (d rho_f mu eps : ℚ) : ℚ :=
  kozeny_carman_spec d eps * rho_f / (eps * mu)

/-- The fatal errors of `ThermoSystem::initialize` and `ThermoSystem::valid`, one for each
message printed before `libmesh_error()`: a linked system is missing (null
pointer), or it is present and reports that it is not initialized. -/
inductive FatalError where
  | velocity_pointer
  | enthalpy_pointer
  | concentration_pointer
  | velocity_not_initialized
  | enthalpy_not_initialized
  | concentration_not_initialized
  | must_exist
  | must_be_initialized
deriving DecidableEq

/-- What `ThermoSystem` uses of a linked system behind a `base_ptr`: the flag that
`initialized()` returns. -/
structure LinkedSystem where
  _initialized : Bool
deriving DecidableEq

/-- The method `SystemBase::initialized`. -/
def LinkedSystem.initialized (x : LinkedSystem) : Bool :=
  x._initialized

/-- The part of a `ThermoSystem` object that `initialize` reads and writes: the three
links (`none` is the null pointer), the current and the old local solution, and
the initialization flag. -/
structure ThermoState (Sol : Type) where
  momentum : Option LinkedSystem
  energy : Option LinkedSystem
  concentration : Option LinkedSystem
  current_local_solution : Sol
  old_local_solution : Sol
  _initialized : Bool

/-- The function `ThermoSystem::valid(x, name, func)`: fatal if the system is not defined
or not initialized. -/
def valid (x : Option LinkedSystem) : Except FatalError Unit :=
  match x with
  | none => Except.error FatalError.must_exist
  | some x =>
    if !x.initialized then Except.error FatalError.must_be_initialized
    else Except.ok ()

/-- The function `ThermoSystem::initialize` (the bare name is a keyword of Lean).
`libmesh_error()` ends the call with a fatal error.  The projection `project_solution(this)` of libMesh is given by the
parameter `project_solution`, the vector it stores as current local solution. -/
def initialize_system {Sol : Type} (project_solution : ThermoState Sol → Sol)
    (s : ThermoState Sol) : Except FatalError (ThermoState Sol) :=
  match s.momentum, s.energy, s.concentration with
  | none, _, _ => Except.error FatalError.velocity_pointer
  | some _, none, _ => Except.error FatalError.enthalpy_pointer
  | some _, some _, none => Except.error FatalError.concentration_pointer
  | some momentum, some energy, some concentration =>
    if !momentum.initialized then
      Except.error FatalError.velocity_not_initialized
    else if !energy.initialized then
      Except.error FatalError.enthalpy_not_initialized
    else if !concentration.initialized then
      Except.error FatalError.concentration_not_initialized
    else
      let projected := project_solution s
      Except.ok { s with
        current_local_solution := projected
        old_local_solution := projected
        _initialized := true }

end ThermoSystem

/-! ## Energy equation: blending factor and assembly

The dense and sparse containers are libMesh's.  `resize` zero-fills a
`DenseMatrix` or `DenseVector`, `A.add(c, B)` adds `c * B` to `A`,
`A.vector_mult(dest, x)` stores `A * x` in `dest`, `G.add_matrix(A, dofs)` adds
`A(i,j)` to the entry `(dofs[i], dofs[j])` of the global matrix `G`,
`g.add_vector(a, dofs)` adds `a(i)` to the entry `dofs[i]` of the global vector
`g`, and `g.add(v)` adds the global vector `v` to `g`. -/

namespace EnergySystem

/-- Eq. 69, `EnergySystem::alpha`: `f` is the liquid mass fraction at the quadrature
point, `cf` and `cs` are read from the constants of the thermo system. -/
def alpha (sqrt : ℚ → ℚ) (k : Constants) (grad_T grad_h : VectorValue ℚ) (f : ℚ) : ℚ :=
  let mag_grad_h := VectorValue.size sqrt grad_h
  if mag_grad_h > 0 then
    (grad_T.dot grad_h) / (mag_grad_h * mag_grad_h)
  else
    let cf := k.specific_heat_fluid
    let cs := k.specific_heat_solid
    1 / (cs + cf * f - cs * f)

/-- The method `SparseMatrix::add_matrix(dm, dof_indices)`. -/
def add_matrix {n m : ℕ} (G : Matrix (Fin n) (Fin n) ℚ) (dm : Matrix (Fin m) (Fin m) ℚ)
    (dof_indices : Fin m → Fin n) : Matrix (Fin n) (Fin n) ℚ :=
  fun a b => G a b + ∑ i, ∑ j, if dof_indices i = a ∧ dof_indices j = b then dm i j else 0

/-- The method `NumericVector::add_vector(dv, dof_indices)`. -/
def add_vector {n m : ℕ} (g : Fin n → ℚ) (dv : Fin m → ℚ) (dof_indices : Fin m → Fin n) :
    Fin n → ℚ :=
  fun a => g a + ∑ i, if dof_indices i = a then dv i else 0

/-- What the quadrature loop of `EnergySystem::assemble` leaves for one element: the
degree-of-freedom indices `dof_indices` of its `m` nodes and the element
operators `Me`, `Ne`, `Ke`, `Fe`, zeroed by `resize` and filled by the loop. -/
structure ElementData (n : ℕ) where
  m : ℕ
  dof_indices : Fin m → Fin n
  Me : Matrix (Fin m) (Fin m) ℚ
  Ne : Matrix (Fin m) (Fin m) ℚ
  Ke : Matrix (Fin m) (Fin m) ℚ
  Fe : Fin m → ℚ

/-- The global data of an `EnergySystem` with `n` degrees of freedom that `assemble`,
`update_rhs` and `solve` read and write: the matrices `"M"`, `"N"`, `"K"`, the
vector `"F"`, the system matrix and right-hand side, the vector `"h_dot"`, the old
solution, and the constants `"gamma"` and `"dt"`. -/
structure GlobalData (n : ℕ) where
  M : Matrix (Fin n) (Fin n) ℚ
  N : Matrix (Fin n) (Fin n) ℚ
  K : Matrix (Fin n) (Fin n) ℚ
  F : Fin n → ℚ
  matrix : Matrix (Fin n) (Fin n) ℚ
  rhs : Fin n → ℚ
  h_dot : Fin n → ℚ
  old_solution : Fin n → ℚ
  gamma : ℚ
  dt : ℚ

/-- The element operator `Mstar` of `EnergySystem::assemble` (Eq. 125): `resize`, then
`Mstar.add(1,Me)`, `Mstar.add(gamma*dt,Ke)`, `Mstar.add(gamma*dt,Ne)`. -/
def element_Mstar {n : ℕ} (gamma dt : ℚ) (e : ElementData n) :
    Matrix (Fin e.m) (Fin e.m) ℚ :=
  let Mstar : Matrix (Fin e.m) (Fin e.m) ℚ := 0
  let Mstar := Mstar + (1 : ℚ) • e.Me
  let Mstar := Mstar + (gamma * dt) • e.Ke
  let Mstar := Mstar + (gamma * dt) • e.Ne
  Mstar

/-- The element vector `R` of `EnergySystem::assemble` (Eq. 126): `resize`, `R.add(1,Fe)`,
`Me.vector_mult(a, h_dot)`, `R.add(-1, a)`, then `B.add(1,Ne)`, `B.add(1,Ke)`,
`B.vector_mult(b, h)` and `R.add(-1,b)`. -/
def element_R {n : ℕ} (e : ElementData n) (h h_dot : Fin e.m → ℚ) : Fin e.m → ℚ :=
  let R : Fin e.m → ℚ := 0
  let R := R + (1 : ℚ) • e.Fe
  let a := e.Me.mulVec h_dot
  let R := R + (-1 : ℚ) • a
  let B : Matrix (Fin e.m) (Fin e.m) ℚ := 0
  let B := B + (1 : ℚ) • e.Ne
  let B := B + (1 : ℚ) • e.Ke
  let b := B.mulVec h
  let R := R + (-1 : ℚ) • b
  R

/-- The part of the body of the element loop of `EnergySystem::assemble` that follows the
quadrature loop: gather `h` and `h_dot`, add the element operators to the global
`"M"`, `"N"`, `"K"`, `"F"`, and add `Mstar` and `R` to the system matrix and
right-hand side. -/
def assemble_element {n : ℕ} (s : GlobalData n) (e : ElementData n) : GlobalData n :=
  let h : Fin e.m → ℚ := fun i => s.old_solution (e.dof_indices i)
  let h_dot : Fin e.m → ℚ := fun i => s.h_dot (e.dof_indices i)
  let Mstar := element_Mstar s.gamma s.dt e
  let R := element_R e h h_dot
  { s with
    M := add_matrix s.M e.Me e.dof_indices
    N := add_matrix s.N e.Ne e.dof_indices
    K := add_matrix s.K e.Ke e.dof_indices
    F := add_vector s.F e.Fe e.dof_indices
    matrix := add_matrix s.matrix Mstar e.dof_indices
    rhs := add_vector s.rhs R e.dof_indices }

/-- The function `EnergySystem::assemble`: the loop over the elements of the mesh.  Nothing
in it resets the global matrices and vectors. -/
def assemble {n : ℕ} (s : GlobalData n) (elems : List (ElementData n)) : GlobalData n :=
  elems.foldl assemble_element s

/-- The function `EnergySystem::update_rhs`: `this->rhs->add(this->get_vector("F"))`. -/
def update_rhs {n : ℕ} (s : GlobalData n) : GlobalData n :=
  { s with rhs := s.rhs + s.F }

/-- The linear system that `EnergySystem::solve` hands to `solver.solve`: the system
matrix and the right-hand side after `assemble()` and `update_rhs()`. -/
def solve_system {n : ℕ} (s : GlobalData n) (elems : List (ElementData n)) :
    Matrix (Fin n) (Fin n) ℚ × (Fin n → ℚ) :=
  let s := assemble s elems
  let s := update_rhs s
  (s.matrix, s.rhs)

/-- The element operator of the specification, `M* = M_e + gamma * dt * (K_e + N_e)`. -/
def Mstar_spec {n : ℕ} (gamma dt : ℚ) (e : ElementData n) : Matrix (Fin e.m) (Fin e.m) ℚ :=
  e.Me + (gamma * dt) • (e.Ke + e.Ne)

/-- The element residual of the specification,
`R = F_e - M_e * h_dot_old - (N_e + K_e) * h_old`. -/
def R_spec {n : ℕ} (e : ElementData n) (h_old h_dot_old : Fin e.m → ℚ) : Fin e.m → ℚ :=
  e.Fe - e.Me.mulVec h_dot_old - (e.Ne + e.Ke).mulVec h_old

/-- The assembled sum over the elements of an element matrix `op`: every element adds its
entries at its degree-of-freedom indices to a zero global matrix. -/
def assembled_matrix {n : ℕ} (elems : List (ElementData n))
    (op : (e : ElementData n) → Matrix (Fin e.m) (Fin e.m) ℚ) : Matrix (Fin n) (Fin n) ℚ :=
  (elems.map fun e => add_matrix 0 (op e) e.dof_indices).sum

/-- The assembled sum over the elements of an element vector `op`. -/
def assembled_vector {n : ℕ} (elems : List (ElementData n))
    (op : (e : ElementData n) → Fin e.m → ℚ) : Fin n → ℚ :=
  (elems.map fun e => add_vector 0 (op e) e.dof_indices).sum

/-- A mesh of one element with one degree of freedom: `Me = 1`, `Ne = Ke = 0`, `Fe = 1`. -/
def unit_element : ElementData 1 where
  m := 1
  dof_indices := fun i => i
  Me := fun _ _ => 1
  Ne := fun _ _ => 0
  Ke := fun _ _ => 0
  Fe := fun _ => 1

/-- Zeroed global operators and vectors on one degree of freedom, with the constants
`gamma = 0.5` of the constructor and `dt = 0.01` of the default constants. -/
def zeroed_globals : GlobalData 1 where
  M := 0
  N := 0
  K := 0
  F := 0
  matrix := 0
  rhs := 0
  h_dot := 0
  old_solution := 0
  gamma := 1 / 2
  dt := 1 / 100

end EnergySystem

namespace ThermoSystem

/-- The function `ThermoSystem::fluid_concentration`: `T = temperature(p)` and
`rho = density(p)` are computed first, then the branch is chosen; `C` is
`concentration->point_value(0, p)` and `Ts` the stored temperature.  No final
`else` in the source. -/
def fluid_concentration (k : Constants) (C h Ts : ℚ) : Option ℚ :=
  let m := k.liquidus_slope
  let Tm := k.melting_temperature
  let Te := k.eutectic_temperature
  let hliq := h_liq k C
  let hsol := h_sol k C
  let he := h_e k C
  (temperature k C h Ts).bind fun T =>
    (density k C h Ts).bind fun _rho =>
      if h > hliq then
        some C
      else if he < h ∧ h ≤ hliq then
        some ((T - Tm) / m)
      else if hsol < h ∧ h ≤ he then
        some ((Te - Tm) / m)
      else if h ≤ hsol then
        some 0
      else
        none

/-- The four regimes of the enthalpy. -/
inductive Regime where
  | liquid
  | liquidus
  | eutectic
  | solid
deriving DecidableEq

/-- The regime that the chain `if (h > hliq) ... else if (he < h && h <= hliq) ... else if
(hsol < h && h <= he) ... else if (h <= hsol) ...` selects, `none` if control
passes all four tests. -/
def regime (h hsol he hliq : ℚ) : Option Regime :=
  if h > hliq then
    some Regime.liquid
  else if he < h ∧ h ≤ hliq then
    some Regime.liquidus
  else if hsol < h ∧ h ≤ he then
    some Regime.eutectic
  else if h ≤ hsol then
    some Regime.solid
  else
    none

end ThermoSystem

/-! ## The evaluator with the values of a `double` that are not finite

Where a divisor of the source can be zero at a regular input, the value is
`±inf` or `NaN` and is carried through the rest of the computation.  The
definitions below repeat the threshold functions, `lever_rule`, the temperature
functions and `density` over `ExtendedNumber`, operation by operation. -/

/-- A `Number` with the values of a `double` that are not finite: a finite value
(exact; the one zero is read as the positive zero), `+inf`, `-inf` or `NaN`. -/
inductive ExtendedNumber where
  | finite (x : ℚ)
  | pos_inf
  | neg_inf
  | nan
deriving DecidableEq

namespace ExtendedNumber

/-- Unary minus. -/
def neg : ExtendedNumber → ExtendedNumber
  | finite x => finite (-x)
  | pos_inf => neg_inf
  | neg_inf => pos_inf
  | nan => nan

/-- Addition: `inf + (-inf)` is `NaN`. -/
def add : ExtendedNumber → ExtendedNumber → ExtendedNumber
  | finite x, finite y => finite (x + y)
  | finite _, pos_inf => pos_inf
  | finite _, neg_inf => neg_inf
  | finite _, nan => nan
  | pos_inf, finite _ => pos_inf
  | pos_inf, pos_inf => pos_inf
  | pos_inf, neg_inf => nan
  | pos_inf, nan => nan
  | neg_inf, finite _ => neg_inf
  | neg_inf, pos_inf => nan
  | neg_inf, neg_inf => neg_inf
  | neg_inf, nan => nan
  | nan, _ => nan

/-- The infinity with the sign of `x` times the sign given by `positive`, `NaN` for
`x = 0`: the product of an infinity and a finite value. -/
def signed_inf (positive : Bool) (x : ℚ) : ExtendedNumber :=
  if x = 0 then nan
  else if decide (0 < x) = positive then pos_inf
  else neg_inf

/-- Multiplication: `inf * 0` is `NaN`. -/
def mul : ExtendedNumber → ExtendedNumber → ExtendedNumber
  | finite x, finite y => finite (x * y)
  | finite x, pos_inf => signed_inf true x
  | finite x, neg_inf => signed_inf false x
  | finite _, nan => nan
  | pos_inf, finite y => signed_inf true y
  | pos_inf, pos_inf => pos_inf
  | pos_inf, neg_inf => neg_inf
  | pos_inf, nan => nan
  | neg_inf, finite y => signed_inf false y
  | neg_inf, pos_inf => neg_inf
  | neg_inf, neg_inf => pos_inf
  | neg_inf, nan => nan
  | nan, _ => nan

/-- Division: `x / 0` is `+inf` or `-inf` with the sign of `x` and `0 / 0` is `NaN`; a
finite value divided by an infinity is `0`, and `inf / inf` is `NaN`. -/
def div : ExtendedNumber → ExtendedNumber → ExtendedNumber
  | finite x, finite y => if y = 0 then signed_inf true x else finite (x / y)
  | finite _, pos_inf => finite 0
  | finite _, neg_inf => finite 0
  | finite _, nan => nan
  | pos_inf, finite y => if 0 ≤ y then pos_inf else neg_inf
  | pos_inf, pos_inf => nan
  | pos_inf, neg_inf => nan
  | pos_inf, nan => nan
  | neg_inf, finite y => if 0 ≤ y then neg_inf else pos_inf
  | neg_inf, pos_inf => nan
  | neg_inf, neg_inf => nan
  | neg_inf, nan => nan
  | nan, _ => nan

/-- The function `std::abs`. -/
def abs : ExtendedNumber → ExtendedNumber
  | finite x => finite |x|
  | pos_inf => pos_inf
  | neg_inf => pos_inf
  | nan => nan

/-- The comparison `a < b`: false as soon as one side is `NaN`. -/
def lt : ExtendedNumber → ExtendedNumber → Bool
  | finite x, finite y => decide (x < y)
  | finite _, pos_inf => true
  | finite _, neg_inf => false
  | finite _, nan => false
  | pos_inf, _ => false
  | neg_inf, finite _ => true
  | neg_inf, pos_inf => true
  | neg_inf, neg_inf => false
  | neg_inf, nan => false
  | nan, _ => false

/-- The comparison `a <= b`: false as soon as one side is `NaN`. -/
def le : ExtendedNumber → ExtendedNumber → Bool
  | finite x, finite y => decide (x ≤ y)
  | finite _, pos_inf => true
  | finite _, neg_inf => false
  | finite _, nan => false
  | pos_inf, finite _ => false
  | pos_inf, pos_inf => true
  | pos_inf, neg_inf => false
  | pos_inf, nan => false
  | neg_inf, finite _ => true
  | neg_inf, pos_inf => true
  | neg_inf, neg_inf => true
  | neg_inf, nan => false
  | nan, _ => false

instance : Neg ExtendedNumber := ⟨neg⟩

instance : Add ExtendedNumber := ⟨add⟩

instance : Sub ExtendedNumber := ⟨fun a b => add a (neg b)⟩

instance : Mul ExtendedNumber := ⟨mul⟩

instance : Div ExtendedNumber := ⟨div⟩

instance : LT ExtendedNumber := ⟨fun a b => lt a b = true⟩

instance : LE ExtendedNumber := ⟨fun a b => le a b = true⟩

instance (a b : ExtendedNumber) : Decidable (a < b) :=
  inferInstanceAs (Decidable (lt a b = true))

instance (a b : ExtendedNumber) : Decidable (a ≤ b) :=
  inferInstanceAs (Decidable (le a b = true))

/-- The function `std::max(a, b)`: `(a < b) ? b : a`. -/
def max (a b : ExtendedNumber) : ExtendedNumber :=
  if a < b then b else a

end ExtendedNumber

namespace ThermoSystem

namespace Extended

open ExtendedNumber

/-- Eq. 11, `ThermoSystem::reference_enthalpy`: `(cs - cf)*Te + hf`. -/
def reference_enthalpy (k : Constants) : ExtendedNumber :=
  let cs := finite k.specific_heat_solid
  let cf := finite k.specific_heat_fluid
  let hf := finite k.latent_heat
  let Te := finite k.eutectic_temperature
  (cs - cf) * Te + hf

/-- Eq. 17, `ThermoSystem::T_liq`: `Tm + m * C`. -/
def T_liq (k : Constants) (C : ℚ) : ExtendedNumber :=
  let Tm := finite k.melting_temperature
  let m := finite k.liquidus_slope
  Tm + m * finite C

/-- Eq. 18, `ThermoSystem::T_sol`: `std::max(Tm + m/kp*C, Te)`. -/
def T_sol (k : Constants) (C : ℚ) : ExtendedNumber :=
  let Tm := finite k.melting_temperature
  let Te := finite k.eutectic_temperature
  let m := finite k.liquidus_slope
  let kp := finite k.partition_coefficient
  ExtendedNumber.max (Tm + m / kp * finite C) Te

/-- Eq. 19, `ThermoSystem::h_liq`: `cf * T_liq(p) + h0`. -/
def h_liq (k : Constants) (C : ℚ) : ExtendedNumber :=
  let cf := finite k.specific_heat_fluid
  let h0 := reference_enthalpy k
  cf * T_liq k C + h0

/-- Eq. 20, `ThermoSystem::h_sol`: `cs * T_sol(p)`. -/
def h_sol (k : Constants) (C : ℚ) : ExtendedNumber :=
  let cs := finite k.specific_heat_solid
  cs * T_sol k C

/-- Eq. 22, `ThermoSystem::lever_rule`:
`1 - 1 / (1-kp) * (T - T_liq(p)) / (T - Tm)`. -/
def lever_rule (k : Constants) (C : ℚ) (T : ExtendedNumber) : ExtendedNumber :=
  let kp := finite k.partition_coefficient
  let Tm := finite k.melting_temperature
  finite 1 - finite 1 / (finite 1 - kp) * (T - T_liq k C) / (T - Tm)

/-- Eq. 21, `ThermoSystem::h_e`: `fe * hf + cs * Te` with `fe = lever_rule(p, Te)`. -/
def h_e (k : Constants) (C : ℚ) : ExtendedNumber :=
  let Te := finite k.eutectic_temperature
  let hf := finite k.latent_heat
  let cs := finite k.specific_heat_solid
  let fe := lever_rule k C Te
  fe * hf + cs * Te

/-- One pass through the body of the `while` loop of
`ThermoSystem::temperature_iterative`, up to the new estimate:
`f = lever_rule(p, T)` and `T_new = (h - f*h0) / (f*cf + (1-f)*cs)`. -/
def temperature_update (k : Constants) (C h : ℚ) (T : ExtendedNumber) : ExtendedNumber :=
  let cf := finite k.specific_heat_fluid
  let cs := finite k.specific_heat_solid
  let h0 := reference_enthalpy k
  let f := lever_rule k C T
  (finite h - f * h0) / (f * cf + (finite 1 - f) * cs)

/-- The `while` loop of `ThermoSystem::temperature_iterative`, with every operation on
`ExtendedNumber`: the state is the estimate `T`, the error `err` and the
`unsigned int` counter `cnt`; `none` means that the fuel ran out before the loop
stopped. -/
def temperature_loop (k : Constants) (C h : ℚ) :
    ℕ → ExtendedNumber → ExtendedNumber → ℕ → Option ExtendedNumber
  | 0, _, _, _ => none
  | fuel + 1, T, err, cnt =>
    if err > finite k.temp_min_error then
      let T_new := temperature_update k C h T
      let err_new := ExtendedNumber.abs (T_new - T) / T
      let cnt_new := (cnt + 1) % 2 ^ 32
      if cnt_new > k.temp_max_iter then
        some T_new
      else
        temperature_loop k C h fuel T_new err_new cnt_new
    else
      some T

/-- The function `ThermoSystem::temperature_iterative`: the loop started from the
stored temperature with `err = 1` and `cnt = 0`. -/
def temperature_iterative (k : Constants) (C h T : ℚ) : Option ExtendedNumber :=
  temperature_loop k C h (k.temp_max_iter + 1) (finite T) (finite 1) 0

/-- The function `ThermoSystem::temperature`; `Ts` is the stored temperature.  Control
that reaches the end returns no value. -/
def temperature (k : Constants) (C h Ts : ℚ) : Option ExtendedNumber :=
  let cf := finite k.specific_heat_fluid
  let cs := finite k.specific_heat_solid
  let h0 := reference_enthalpy k
  let hliq := h_liq k C
  let hsol := h_sol k C
  let he := h_e k C
  if finite h > hliq then
    some ((finite h - h0) / cf)
  else if he < finite h ∧ finite h ≤ hliq then
    temperature_iterative k C h Ts
  else if hsol < finite h ∧ finite h ≤ he then
    some (finite k.eutectic_temperature)
  else if finite h ≤ hsol then
    some (finite h / cs)
  else
    none

/-- The function `ThermoSystem::density`: `pf` and `ps` are both read from the constant
`"density_fluid"`, and `T = temperature(p)` is computed before the branch is
chosen.  The last `else` is the fatal "undefined range" error. -/
def density (k : Constants) (C h Ts : ℚ) : Option ExtendedNumber :=
  let hf := finite k.latent_heat
  let pf := finite k.density_fluid
  let ps := finite k.density_fluid
  let hliq := h_liq k C
  let hsol := h_sol k C
  let he := h_e k C
  (temperature k C h Ts).bind fun T =>
    if finite h > hliq then
      some pf
    else if he < finite h ∧ finite h ≤ hliq then
      let f := lever_rule k C T
      some (finite 1 / (f / pf + (finite 1 - f) / ps))
    else if hsol < finite h ∧ finite h ≤ he then
      let f := (finite h - hsol) / hf
      some (finite 1 / (f / pf + (finite 1 - f) / ps))
    else if finite h ≤ hsol then
      some ps
    else
      none

end Extended

end ThermoSystem
/-! ## Properties of the thermodynamic evaluator -/

namespace ThermoSystem

/-! ### The iteration of `temperature_iterative` -/

theorem temperature_loop_stop (k : Constants) (C h : ℚ) (fuel : ℕ) (T err : ℚ) (cnt : ℕ)
    (herr : ¬ err > k.temp_min_error) :
    temperature_loop k C h (fuel + 1) T err cnt = some (T, cnt) := by
  simp only [temperature_loop, if_neg herr]

theorem temperature_loop_break (k : Constants) (C h : ℚ) (fuel : ℕ) (T err : ℚ) (cnt : ℕ)
    (herr : err > k.temp_min_error) (hcnt : (cnt + 1) % 2 ^ 32 > k.temp_max_iter) :
    temperature_loop k C h (fuel + 1) T err cnt
      = some (temperature_update k C h T, (cnt + 1) % 2 ^ 32) := by
  simp only [temperature_loop, if_pos herr, if_pos hcnt]

theorem temperature_loop_step (k : Constants) (C h : ℚ) (fuel : ℕ) (T err : ℚ) (cnt : ℕ)
    (herr : err > k.temp_min_error) (hcnt : ¬ (cnt + 1) % 2 ^ 32 > k.temp_max_iter) :
    temperature_loop k C h (fuel + 1) T err cnt
      = temperature_loop k C h fuel (temperature_update k C h T)
          (|temperature_update k C h T - T| / T) ((cnt + 1) % 2 ^ 32) := by
  simp only [temperature_loop, if_pos herr, if_neg hcnt]

/-- With a cap below the largest `unsigned int`, the loop entered with counter
`cnt ≤ temp_max_iter` stops after `n ≤ temp_max_iter + 1 - cnt` further updates,
whatever budget of at least that many condition tests it is given. -/
theorem temperature_loop_bounded (k : Constants) (C h : ℚ)
    (hmax : k.temp_max_iter + 1 < 2 ^ 32) :
    ∀ (j : ℕ) (T err : ℚ) (cnt : ℕ), cnt ≤ k.temp_max_iter →
      k.temp_max_iter + 1 - cnt ≤ j →
      ∃ n, n ≤ k.temp_max_iter + 1 - cnt ∧ ∀ fuel, j ≤ fuel →
        temperature_loop k C h fuel T err cnt
          = some ((temperature_update k C h)^[n] T, cnt + n) := by
  intro j
  induction j with
  | zero =>
    intro T err cnt hc hj
    omega
  | succ j ih =>
    intro T err cnt hc hj
    have hmod : (cnt + 1) % 2 ^ 32 = cnt + 1 := Nat.mod_eq_of_lt (by omega)
    by_cases herr : err > k.temp_min_error
    · by_cases hcnt : (cnt + 1) % 2 ^ 32 > k.temp_max_iter
      · refine ⟨1, by omega, ?_⟩
        intro fuel hfuel
        obtain ⟨f, rfl⟩ : ∃ f, fuel = f + 1 := ⟨fuel - 1, by omega⟩
        rw [temperature_loop_break k C h f T err cnt herr hcnt, hmod]
        rfl
      · rw [hmod] at hcnt
        obtain ⟨n, hn, hloop⟩ := ih (temperature_update k C h T)
          (|temperature_update k C h T - T| / T) (cnt + 1) (by omega) (by omega)
        refine ⟨n + 1, by omega, ?_⟩
        intro fuel hfuel
        obtain ⟨f, rfl⟩ : ∃ f, fuel = f + 1 := ⟨fuel - 1, by omega⟩
        have hcnt2 : ¬ (cnt + 1) % 2 ^ 32 > k.temp_max_iter := by rw [hmod]; exact hcnt
        rw [temperature_loop_step k C h f T err cnt herr hcnt2, hmod, hloop f (by omega),
          Function.iterate_succ_apply]
        congr 2
        omega
    · refine ⟨0, by omega, ?_⟩
      intro fuel hfuel
      obtain ⟨f, rfl⟩ : ∃ f, fuel = f + 1 := ⟨fuel - 1, by omega⟩
      rw [temperature_loop_stop k C h f T err cnt herr]
      rfl

/-- With a cap below the largest `unsigned int`, `temperature_iterative` returns a value. -/
theorem temperature_iterative_isSome (k : Constants) (C h T : ℚ)
    (hmax : k.temp_max_iter + 1 < 2 ^ 32) :
    ∃ n, n ≤ k.temp_max_iter + 1 ∧
      temperature_iterative k C h T = some ((temperature_update k C h)^[n] T) := by
  obtain ⟨n, hn, hloop⟩ := temperature_loop_bounded k C h hmax
    (k.temp_max_iter + 1) T 1 0 (Nat.zero_le _) (by omega)
  refine ⟨n, by omega, ?_⟩
  rw [temperature_iterative, hloop _ le_rfl]
  rfl

/-! ### The four regimes of `temperature`, `density` and `epsilon` -/

theorem temperature_liquid (k : Constants) (C h T : ℚ) (h1 : h > h_liq k C) :
    temperature k C h T = some ((h - reference_enthalpy k) / k.specific_heat_fluid) := by
  simp only [temperature, if_pos h1]

theorem temperature_liquidus (k : Constants) (C h T : ℚ)
    (h1 : h_e k C < h) (h2 : h ≤ h_liq k C) :
    temperature k C h T = temperature_iterative k C h T := by
  have h0 : ¬ h > h_liq k C := not_lt.mpr h2
  simp only [temperature, if_neg h0, if_pos (And.intro h1 h2)]

theorem temperature_eutectic (k : Constants) (C h T : ℚ)
    (h1 : h_sol k C < h) (h2 : h ≤ h_e k C) (h3 : h ≤ h_liq k C) :
    temperature k C h T = some k.eutectic_temperature := by
  have h0 : ¬ h > h_liq k C := not_lt.mpr h3
  have h4 : ¬ (h_e k C < h ∧ h ≤ h_liq k C) := fun hc => absurd hc.1 (not_lt.mpr h2)
  simp only [temperature, if_neg h0, if_neg h4, if_pos (And.intro h1 h2)]

theorem temperature_solid (k : Constants) (C h T : ℚ)
    (h1 : h ≤ h_sol k C) (h2 : h ≤ h_e k C) (h3 : h ≤ h_liq k C) :
    temperature k C h T = some (h / k.specific_heat_solid) := by
  have h0 : ¬ h > h_liq k C := not_lt.mpr h3
  have h4 : ¬ (h_e k C < h ∧ h ≤ h_liq k C) := fun hc => absurd hc.1 (not_lt.mpr h2)
  have h5 : ¬ (h_sol k C < h ∧ h ≤ h_e k C) := fun hc => absurd hc.1 (not_lt.mpr h1)
  simp only [temperature, if_neg h0, if_neg h4, if_neg h5, if_pos h1]

theorem density_liquid (k : Constants) (C h T : ℚ) (h1 : h > h_liq k C) :
    density k C h T = some k.density_fluid := by
  simp only [density, temperature_liquid k C h T h1, Option.some_bind, if_pos h1]

theorem density_liquidus (k : Constants) (C h T : ℚ)
    (h1 : h_e k C < h) (h2 : h ≤ h_liq k C) :
    density k C h T = (temperature_iterative k C h T).bind fun T1 =>
      some (density_mixture k.density_fluid k.density_fluid (lever_rule k C T1)) := by
  have h0 : ¬ h > h_liq k C := not_lt.mpr h2
  simp only [density, temperature_liquidus k C h T h1 h2, if_neg h0, if_pos (And.intro h1 h2)]

theorem density_eutectic (k : Constants) (C h T : ℚ)
    (h1 : h_sol k C < h) (h2 : h ≤ h_e k C) (h3 : h ≤ h_liq k C) :
    density k C h T = some (density_mixture k.density_fluid k.density_fluid
      ((h - h_sol k C) / k.latent_heat)) := by
  have h0 : ¬ h > h_liq k C := not_lt.mpr h3
  have h4 : ¬ (h_e k C < h ∧ h ≤ h_liq k C) := fun hc => absurd hc.1 (not_lt.mpr h2)
  simp only [density, temperature_eutectic k C h T h1 h2 h3, Option.some_bind, if_neg h0,
    if_neg h4, if_pos (And.intro h1 h2)]

theorem density_solid (k : Constants) (C h T : ℚ)
    (h1 : h ≤ h_sol k C) (h2 : h ≤ h_e k C) (h3 : h ≤ h_liq k C) :
    density k C h T = some k.density_fluid := by
  have h0 : ¬ h > h_liq k C := not_lt.mpr h3
  have h4 : ¬ (h_e k C < h ∧ h ≤ h_liq k C) := fun hc => absurd hc.1 (not_lt.mpr h2)
  have h5 : ¬ (h_sol k C < h ∧ h ≤ h_e k C) := fun hc => absurd hc.1 (not_lt.mpr h1)
  simp only [density, temperature_solid k C h T h1 h2 h3, Option.some_bind, if_neg h0,
    if_neg h4, if_neg h5, if_pos h1]

/-- Both densities being read from `"density_fluid"`, the mixture formula of
`density` collapses to that constant. -/
theorem density_mixture_self (p f : ℚ) (hp : p ≠ 0) : density_mixture p p f = p := by
  unfold density_mixture
  field_simp

theorem epsilon_liquid (k : Constants) (C h T : ℚ) (h1 : h > h_liq k C) :
    epsilon k C h T = some 1 := by
  unfold epsilon
  rw [temperature_liquid k C h T h1, density_liquid k C h T h1]
  simp only [Option.some_bind, if_pos h1]

theorem epsilon_liquidus (k : Constants) (C h T : ℚ)
    (h1 : h_e k C < h) (h2 : h ≤ h_liq k C) :
    epsilon k C h T = (temperature_iterative k C h T).bind fun T1 =>
      some (density_mixture k.density_fluid k.density_fluid (lever_rule k C T1)
        * lever_rule k C T1 / k.density_fluid) := by
  have h0 : ¬ h > h_liq k C := not_lt.mpr h2
  unfold epsilon
  rw [temperature_liquidus k C h T h1 h2, density_liquidus k C h T h1 h2]
  cases temperature_iterative k C h T with
  | none => rfl
  | some T1 => simp only [Option.some_bind, if_neg h0, if_pos (And.intro h1 h2)]

theorem epsilon_eutectic (k : Constants) (C h T : ℚ)
    (h1 : h_sol k C < h) (h2 : h ≤ h_e k C) (h3 : h ≤ h_liq k C) :
    epsilon k C h T = some ((density_mixture k.density_fluid k.density_fluid
      ((h - h_sol k C) / k.latent_heat) - k.density_solid)
        / (k.density_fluid - k.density_solid)) := by
  have h0 : ¬ h > h_liq k C := not_lt.mpr h3
  have h4 : ¬ (h_e k C < h ∧ h ≤ h_liq k C) := fun hc => absurd hc.1 (not_lt.mpr h2)
  unfold epsilon
  rw [temperature_eutectic k C h T h1 h2 h3, density_eutectic k C h T h1 h2 h3]
  simp only [Option.some_bind, if_neg h0, if_neg h4, if_pos (And.intro h1 h2)]

theorem epsilon_solid (k : Constants) (C h T : ℚ)
    (h1 : h ≤ h_sol k C) (h2 : h ≤ h_e k C) (h3 : h ≤ h_liq k C) :
    epsilon k C h T = some 0 := by
  have h0 : ¬ h > h_liq k C := not_lt.mpr h3
  have h4 : ¬ (h_e k C < h ∧ h ≤ h_liq k C) := fun hc => absurd hc.1 (not_lt.mpr h2)
  have h5 : ¬ (h_sol k C < h ∧ h ≤ h_e k C) := fun hc => absurd hc.1 (not_lt.mpr h1)
  unfold epsilon
  rw [temperature_solid k C h T h1 h2 h3, density_solid k C h T h1 h2 h3]
  simp only [Option.some_bind, if_neg h0, if_neg h4, if_neg h5, if_pos h1]


/-! ### The enthalpy thresholds -/

/-- With the default constants the solidus temperature is the eutectic temperature
from `kappa_p * C_e` on. -/
theorem T_sol_default_of_ge (C : ℚ)
    (hC : set_default_constants.partition_coefficient
      * eutectic_concentration set_default_constants ≤ C) :
    T_sol set_default_constants C = 183 := by
  have h : (4464 : ℚ) / 23263 ≤ C := by
    norm_num [eutectic_concentration, set_default_constants] at hC
    linarith
  simp only [T_sol, set_default_constants]
  apply max_eq_right
  linarith

/-- C1 (amended): with the default constants, for every concentration `C` with
`kappa_p * C_e ≤ C ≤ C_e`, where `C_e = (T_e - T_m) / m`, the thresholds satisfy
`h_sol C ≤ h_e C ≤ h_liq C`, and each inequality is strict when the
corresponding bound on `C` is strict. -/
theorem threshold_order_of_mem_range (C : ℚ)
    (h1 : set_default_constants.partition_coefficient
      * eutectic_concentration set_default_constants ≤ C)
    (h2 : C ≤ eutectic_concentration set_default_constants) :
    h_sol set_default_constants C ≤ h_e set_default_constants C ∧
    h_e set_default_constants C ≤ h_liq set_default_constants C ∧
    (set_default_constants.partition_coefficient
        * eutectic_concentration set_default_constants < C →
      h_sol set_default_constants C < h_e set_default_constants C) ∧
    (C < eutectic_concentration set_default_constants →
      h_e set_default_constants C < h_liq set_default_constants C) := by
  have hs := T_sol_default_of_ge C h1
  norm_num [eutectic_concentration, set_default_constants] at h1 h2
  refine ⟨?_, ?_, ?_, ?_⟩
  · simp only [h_sol, hs, h_e, lever_rule, T_liq]
    norm_num [set_default_constants]
    linarith
  · simp only [h_e, lever_rule, T_liq, h_liq, reference_enthalpy]
    norm_num [set_default_constants]
    linarith
  · intro h3
    norm_num [eutectic_concentration, set_default_constants] at h3
    simp only [h_sol, hs, h_e, lever_rule, T_liq]
    norm_num [set_default_constants]
    linarith
  · intro h3
    norm_num [eutectic_concentration, set_default_constants] at h3
    simp only [h_e, lever_rule, T_liq, h_liq, reference_enthalpy]
    norm_num [set_default_constants]
    linarith

/-- C1, witness: the concentration `0.192` of the repository's test data lies in the
range, and there both inequalities are strict. -/
theorem threshold_order_of_mem_range_witness :
    (set_default_constants.partition_coefficient
        * eutectic_concentration set_default_constants ≤ 24 / 125 ∧
      (24 / 125 : ℚ) ≤ eutectic_concentration set_default_constants) ∧
    h_sol set_default_constants (24 / 125) < h_e set_default_constants (24 / 125) ∧
    h_e set_default_constants (24 / 125) < h_liq set_default_constants (24 / 125) :=
  have ha : set_default_constants.partition_coefficient
      * eutectic_concentration set_default_constants ≤ 24 / 125 := by
    norm_num [eutectic_concentration, set_default_constants]
  have hb : (24 / 125 : ℚ) ≤ eutectic_concentration set_default_constants := by
    norm_num [eutectic_concentration, set_default_constants]
  have t := threshold_order_of_mem_range (24 / 125) ha hb
  ⟨⟨ha, hb⟩,
    t.2.2.1 (by norm_num [eutectic_concentration, set_default_constants]),
    t.2.2.2 (by norm_num [eutectic_concentration, set_default_constants])⟩

/-- C1, counterexample: at the concentration `C = 19.2` of the reference scenario the
thresholds are not ordered (`h_liq < h_sol < h_e` there). -/
theorem threshold_order_fails_at_reference_concentration :
    ¬ (h_sol set_default_constants (96 / 5) ≤ h_e set_default_constants (96 / 5) ∧
      h_e set_default_constants (96 / 5) ≤ h_liq set_default_constants (96 / 5)) := by
  norm_num [h_e, lever_rule, T_liq, h_liq, reference_enthalpy, set_default_constants]

/-- The thresholds at `C = 0.3` with the default constants. -/
theorem thresholds_at_three_tenths :
    h_sol set_default_constants (3 / 10) = 325557 / 10000 ∧
    h_e set_default_constants (3 / 10) = 44369761 / 1104000 ∧
    h_liq set_default_constants (3 / 10) = 741981417 / 10000000 := by
  refine ⟨?_, ?_, ?_⟩
  · norm_num [h_sol, T_sol, set_default_constants]
  · norm_num [h_e, lever_rule, T_liq, set_default_constants]
  · norm_num [h_liq, T_liq, reference_enthalpy, set_default_constants]

/-- C2, evaluation at the failing input: default constants, `C = 0.3` (ordered
thresholds), enthalpy `h = 0` below `h_sol`.  `density` returns the fluid density
`10000`, not the constant `density_solid = 10800`. -/
theorem density_below_solidus_is_density_fluid :
    (h_sol set_default_constants (3 / 10) ≤ h_e set_default_constants (3 / 10) ∧
      h_e set_default_constants (3 / 10) ≤ h_liq set_default_constants (3 / 10)) ∧
    (0 : ℚ) ≤ h_sol set_default_constants (3 / 10) ∧
    density set_default_constants (3 / 10) 0 287 = some 10000 ∧
    set_default_constants.density_solid = 10800 := by
  obtain ⟨hs, he, hl⟩ := thresholds_at_three_tenths
  refine ⟨⟨?_, ?_⟩, ?_, ?_, rfl⟩
  · rw [hs, he]; norm_num
  · rw [he, hl]; norm_num
  · rw [hs]; norm_num
  · rw [density_solid _ _ _ _ (by rw [hs]; norm_num) (by rw [he]; norm_num)
      (by rw [hl]; norm_num)]
    rfl


/-! ### Termination of the temperature iteration -/

/-- C5 (amended): for every enthalpy, concentration, starting estimate and tolerance,
and every iteration cap `temp_max_iter < 2 ^ 32 - 1`, the loop of
`temperature_iterative` stops after `n ≤ temp_max_iter + 1` updates of `T` and
returns the estimate reached after these `n` updates (the counter then reads `n`);
in particular after `temp_max_iter + 1` updates it returns the last computed
estimate, and no error is raised. -/
theorem temperature_iterative_terminates (k : Constants) (C h T : ℚ)
    (hmax : k.temp_max_iter < 2 ^ 32 - 1) :
    ∃ n, n ≤ k.temp_max_iter + 1 ∧
      (∀ fuel, k.temp_max_iter + 1 ≤ fuel →
        temperature_loop k C h fuel T 1 0 = some ((temperature_update k C h)^[n] T, n)) ∧
      temperature_iterative k C h T = some ((temperature_update k C h)^[n] T) := by
  obtain ⟨n, hn, hloop⟩ := temperature_loop_bounded k C h (by omega)
    (k.temp_max_iter + 1) T 1 0 (Nat.zero_le _) (by omega)
  refine ⟨n, by omega, ?_, ?_⟩
  · intro fuel hfuel
    rw [hloop fuel hfuel, Nat.zero_add]
  · rw [temperature_iterative, hloop _ le_rfl]
    rfl

/-- C5, witness: the default cap `100` at `C = 0.3`, `h = 50`, stored temperature `287`. -/
theorem temperature_iterative_terminates_witness :
    set_default_constants.temp_max_iter < 2 ^ 32 - 1 ∧
    ∃ n, n ≤ set_default_constants.temp_max_iter + 1 ∧
      (∀ fuel, set_default_constants.temp_max_iter + 1 ≤ fuel →
        temperature_loop set_default_constants (3 / 10) 50 fuel 287 1 0
          = some ((temperature_update set_default_constants (3 / 10) 50)^[n] 287, n)) ∧
      temperature_iterative set_default_constants (3 / 10) 50 287
        = some ((temperature_update set_default_constants (3 / 10) 50)^[n] 287) :=
  ⟨by norm_num [set_default_constants],
    temperature_iterative_terminates set_default_constants (3 / 10) 50 287
      (by norm_num [set_default_constants])⟩

/-- The liquidus temperature `257.211` is a fixed point of the update at the liquidus
enthalpy `74.1981417` (default material constants, `C = 0.3`). -/
theorem temperature_update_uncapped_fixed :
    temperature_update uncapped_constants (3 / 10) (741981417 / 10000000) (257211 / 1000)
      = 257211 / 1000 := by
  norm_num [temperature_update, lever_rule, T_liq, reference_enthalpy, uncapped_constants,
    set_default_constants]

/-- At a fixed point of the update, with tolerance `-1` and cap `2 ^ 32 - 1`, the loop
never stops: the error stays `0 > -1` and the wrapping counter never exceeds the cap. -/
theorem temperature_loop_uncapped (fuel : ℕ) :
    ∀ (err : ℚ) (cnt : ℕ), err > -1 →
      temperature_loop uncapped_constants (3 / 10) (741981417 / 10000000) fuel
        (257211 / 1000) err cnt = none := by
  induction fuel with
  | zero =>
    intro err cnt _
    rfl
  | succ fuel ih =>
    intro err cnt herr
    have hlt : (cnt + 1) % 2 ^ 32 < 2 ^ 32 := Nat.mod_lt _ (by norm_num)
    have hcnt : ¬ (cnt + 1) % 2 ^ 32 > uncapped_constants.temp_max_iter := by
      have h2 : uncapped_constants.temp_max_iter = 4294967295 := rfl
      rw [h2]
      omega
    have herr2 : err > uncapped_constants.temp_min_error := herr
    rw [temperature_loop_step _ _ _ _ _ _ _ herr2 hcnt, temperature_update_uncapped_fixed]
    apply ih
    norm_num

/-- C5, counterexample: with the cap `temp_max_iter = 2 ^ 32 - 1`, tolerance `-1`, the
default material constants, `C = 0.3`, `h = 74.1981417` and starting estimate
`257.211`, the loop of `temperature_iterative` stops after no number of steps. -/
theorem temperature_loop_runs_forever_at_largest_cap :
    ¬ ∃ fuel r, temperature_loop uncapped_constants (3 / 10) (741981417 / 10000000) fuel
      (257211 / 1000) 1 0 = some r := by
  rintro ⟨fuel, r, hr⟩
  rw [temperature_loop_uncapped fuel 1 0 (by norm_num)] at hr
  exact Option.noConfusion hr

/-! ### Regime selection -/

/-- C6: when the thresholds are ordered, `h_sol ≤ h_e ≤ h_liq`, `temperature` returns
`(h - h0) / c_f` for `h > h_liq`, the result of `temperature_iterative` for
`h_e < h ≤ h_liq`, the eutectic temperature `T_e` for `h_sol < h ≤ h_e`, and
`h / c_s` for `h ≤ h_sol`, with `h0 = (c_s - c_f) * T_e + h_f`. -/
theorem temperature_regimes (k : Constants) (C h Ts : ℚ)
    (hse : h_sol k C ≤ h_e k C) (hel : h_e k C ≤ h_liq k C) :
    (h > h_liq k C → temperature k C h Ts
      = some ((h - ((k.specific_heat_solid - k.specific_heat_fluid) * k.eutectic_temperature
          + k.latent_heat)) / k.specific_heat_fluid)) ∧
    (h_e k C < h → h ≤ h_liq k C → temperature k C h Ts = temperature_iterative k C h Ts) ∧
    (h_sol k C < h → h ≤ h_e k C → temperature k C h Ts = some k.eutectic_temperature) ∧
    (h ≤ h_sol k C → temperature k C h Ts = some (h / k.specific_heat_solid)) := by
  refine ⟨?_, ?_, ?_, ?_⟩
  · intro h1
    exact temperature_liquid k C h Ts h1
  · intro h1 h2
    exact temperature_liquidus k C h Ts h1 h2
  · intro h1 h2
    exact temperature_eutectic k C h Ts h1 h2 (le_trans h2 hel)
  · intro h1
    exact temperature_solid k C h Ts h1 (le_trans h1 hse) (le_trans (le_trans h1 hse) hel)

/-- C6, witness: default constants, `C = 0.3`; the enthalpy `35` lies on the eutectic
plateau and the temperature there is `T_e = 183`. -/
theorem temperature_regimes_witness :
    (h_sol set_default_constants (3 / 10) ≤ h_e set_default_constants (3 / 10) ∧
      h_e set_default_constants (3 / 10) ≤ h_liq set_default_constants (3 / 10)) ∧
    temperature set_default_constants (3 / 10) 35 287 = some 183 :=
  have hs := thresholds_at_three_tenths.1
  have he := thresholds_at_three_tenths.2.1
  have hl := thresholds_at_three_tenths.2.2
  have hse : h_sol set_default_constants (3 / 10) ≤ h_e set_default_constants (3 / 10) := by
    rw [hs, he]; norm_num
  have hel : h_e set_default_constants (3 / 10) ≤ h_liq set_default_constants (3 / 10) := by
    rw [he, hl]; norm_num
  ⟨⟨hse, hel⟩,
    (temperature_regimes set_default_constants (3 / 10) 35 287 hse hel).2.2.1
      (by rw [hs]; norm_num) (by rw [he]; norm_num)⟩

/-- C7 (amended): `epsilon` returns exactly `1` when `h > h_liq`, and exactly `0` when
`h` is at most each of `h_sol`, `h_e` and `h_liq`, which is the case for every
`h ≤ h_sol` when the thresholds are ordered `h_sol ≤ h_e ≤ h_liq`. -/
theorem epsilon_pure_phases (k : Constants) (C h Ts : ℚ) :
    (h > h_liq k C → epsilon k C h Ts = some 1) ∧
    (h ≤ h_sol k C → h ≤ h_e k C → h ≤ h_liq k C → epsilon k C h Ts = some 0) ∧
    (h_sol k C ≤ h_e k C → h_e k C ≤ h_liq k C → h ≤ h_sol k C →
      epsilon k C h Ts = some 0) := by
  refine ⟨?_, ?_, ?_⟩
  · intro h1
    exact epsilon_liquid k C h Ts h1
  · intro h1 h2 h3
    exact epsilon_solid k C h Ts h1 h2 h3
  · intro hse hel h1
    exact epsilon_solid k C h Ts h1 (le_trans h1 hse) (le_trans (le_trans h1 hse) hel)

/-- C7, witness: default constants, `C = 0.3`; `epsilon` is `1` at `h = 80 > h_liq` and
`0` at `h = 0 ≤ h_sol`. -/
theorem epsilon_pure_phases_witness :
    (80 > h_liq set_default_constants (3 / 10) ∧
      (0 : ℚ) ≤ h_sol set_default_constants (3 / 10) ∧
      (0 : ℚ) ≤ h_e set_default_constants (3 / 10) ∧
      (0 : ℚ) ≤ h_liq set_default_constants (3 / 10)) ∧
    epsilon set_default_constants (3 / 10) 80 287 = some 1 ∧
    epsilon set_default_constants (3 / 10) 0 287 = some 0 :=
  have hs := thresholds_at_three_tenths.1
  have he := thresholds_at_three_tenths.2.1
  have hl := thresholds_at_three_tenths.2.2
  have h1 : 80 > h_liq set_default_constants (3 / 10) := by rw [hl]; norm_num
  have h2 : (0 : ℚ) ≤ h_sol set_default_constants (3 / 10) := by rw [hs]; norm_num
  have h3 : (0 : ℚ) ≤ h_e set_default_constants (3 / 10) := by rw [he]; norm_num
  have h4 : (0 : ℚ) ≤ h_liq set_default_constants (3 / 10) := by rw [hl]; norm_num
  ⟨⟨h1, h2, h3, h4⟩,
    (epsilon_pure_phases set_default_constants (3 / 10) 80 287).1 h1,
    (epsilon_pure_phases set_default_constants (3 / 10) 0 287).2.1 h2 h3 h4⟩

/-- C7, counterexample: default constants, `C = 19.2`, `h = 0`.  The enthalpy is below
`h_sol = 32.5557`, yet above `h_liq = -605.9724312`, so `epsilon` returns `1`, not `0`. -/
theorem epsilon_below_solidus_not_zero :
    (0 : ℚ) ≤ h_sol set_default_constants (96 / 5) ∧
    epsilon set_default_constants (96 / 5) 0 287 = some 1 ∧
    epsilon set_default_constants (96 / 5) 0 287 ≠ some 0 := by
  have hl : (0 : ℚ) > h_liq set_default_constants (96 / 5) := by
    norm_num [h_liq, T_liq, reference_enthalpy, set_default_constants]
  have he := epsilon_liquid set_default_constants (96 / 5) 0 287 hl
  refine ⟨?_, he, ?_⟩
  · norm_num [h_sol, T_sol, set_default_constants]
  · rw [he]
    norm_num


/-! ### Round trip and continuity of the temperature -/

/-- The enthalpy that the mushy branch of `temperature_to_enthalpy` assigns to a
temperature is one that the update of `temperature_iterative` maps back to that
temperature. -/
theorem temperature_update_mushy_enthalpy (k : Constants) (T f : ℚ)
    (hden : f * k.specific_heat_fluid + (1 - f) * k.specific_heat_solid ≠ 0) :
    (f * ((k.specific_heat_fluid - k.specific_heat_solid) * (T - k.eutectic_temperature)
          + k.latent_heat) + k.specific_heat_solid * T - f * reference_enthalpy k)
      / (f * k.specific_heat_fluid + (1 - f) * k.specific_heat_solid) = T := by
  rw [div_eq_iff hden]
  simp only [reference_enthalpy]
  ring

/-- The loop started at a fixed point of the update returns that fixed point, provided
it stops: the tolerance is not negative, or the cap is below the largest
`unsigned int`. -/
theorem temperature_iterative_fixed (k : Constants) (C h T : ℚ)
    (hstop : 0 ≤ k.temp_min_error ∨ k.temp_max_iter < 2 ^ 32 - 1)
    (hfix : temperature_update k C h T = T) :
    temperature_iterative k C h T = some T := by
  rcases hstop with htol | hmax
  · unfold temperature_iterative
    by_cases herr : (1 : ℚ) > k.temp_min_error
    · by_cases hcnt : (0 + 1) % 2 ^ 32 > k.temp_max_iter
      · rw [temperature_loop_break k C h _ T 1 0 herr hcnt, hfix]
        rfl
      · have hpos : k.temp_max_iter = (k.temp_max_iter - 1) + 1 := by
          have : (0 + 1) % 2 ^ 32 = 1 := by norm_num
          omega
        rw [temperature_loop_step k C h _ T 1 0 herr hcnt, hfix, hpos]
        have h0 : ¬ |T - T| / T > k.temp_min_error := by
          rw [sub_self, abs_zero, zero_div]
          exact not_lt.mpr htol
        rw [temperature_loop_stop k C h _ T _ _ h0]
        rfl
    · rw [temperature_loop_stop k C h _ T 1 0 herr]
      rfl
  · obtain ⟨n, _, hn⟩ := temperature_iterative_isSome k C h T (by omega)
    rw [hn, Function.iterate_fixed hfix]

/-- C4: for every concentration `C` and temperature `T` with `T_e < T ≤ T_liq`,
`T ≠ T_m`, the conversion `temperature_to_enthalpy` assigns to `T` the enthalpy
`h = f * ((c_f - c_s) * (T - T_e) + h_f) + c_s * T` with `f = lever_rule T`; if
`f * c_f + (1 - f) * c_s ≠ 0`, one update of `temperature_iterative` at `T` with
this `h` gives `T` again with relative error `0`, so that the solver started at
`T` returns `T` (its loop stops: the tolerance is not negative or the cap is
below `2 ^ 32 - 1`, as with the defaults `0.001` and `100`), and converting the
returned temperature gives `h` back. -/
theorem mushy_round_trip (k : Constants) (C T : ℚ)
    (hTe : k.eutectic_temperature < T) (hTl : T ≤ T_liq k C)
    (_hTm : T ≠ k.melting_temperature)
    (hden : lever_rule k C T * k.specific_heat_fluid
      + (1 - lever_rule k C T) * k.specific_heat_solid ≠ 0)
    (hstop : 0 ≤ k.temp_min_error ∨ k.temp_max_iter < 2 ^ 32 - 1) :
    ∃ h, EnergySystem.temperature_to_enthalpy k C T = some h ∧
      h = lever_rule k C T * ((k.specific_heat_fluid - k.specific_heat_solid)
          * (T - k.eutectic_temperature) + k.latent_heat) + k.specific_heat_solid * T ∧
      temperature_update k C h T = T ∧
      |temperature_update k C h T - T| / T = 0 ∧
      temperature_iterative k C h T = some T ∧
      (temperature_iterative k C h T).bind (EnergySystem.temperature_to_enthalpy k C)
        = some h := by
  have hconv : EnergySystem.temperature_to_enthalpy k C T
      = some (lever_rule k C T * ((k.specific_heat_fluid - k.specific_heat_solid)
          * (T - k.eutectic_temperature) + k.latent_heat) + k.specific_heat_solid * T) := by
    have h0 : ¬ T > T_liq k C := not_lt.mpr hTl
    simp only [EnergySystem.temperature_to_enthalpy, if_neg h0, if_pos (And.intro hTe hTl)]
  have hfix : temperature_update k C
      (lever_rule k C T * ((k.specific_heat_fluid - k.specific_heat_solid)
          * (T - k.eutectic_temperature) + k.latent_heat) + k.specific_heat_solid * T) T
        = T := by
    simp only [temperature_update]
    exact temperature_update_mushy_enthalpy k T (lever_rule k C T) hden
  have hit := temperature_iterative_fixed k C _ T hstop hfix
  refine ⟨_, hconv, rfl, hfix, ?_, hit, ?_⟩
  · rw [hfix, sub_self, abs_zero, zero_div]
  · rw [hit, Option.some_bind, hconv]

/-- C4, witness: default constants, `C = 0.3`, `T = 200` (between `T_e = 183` and
`T_liq = 257.211`). -/
theorem mushy_round_trip_witness :
    (set_default_constants.eutectic_temperature < 200 ∧
      (200 : ℚ) ≤ T_liq set_default_constants (3 / 10) ∧
      (200 : ℚ) ≠ set_default_constants.melting_temperature ∧
      lever_rule set_default_constants (3 / 10) 200 * set_default_constants.specific_heat_fluid
        + (1 - lever_rule set_default_constants (3 / 10) 200)
          * set_default_constants.specific_heat_solid ≠ 0 ∧
      (0 ≤ set_default_constants.temp_min_error
        ∨ set_default_constants.temp_max_iter < 2 ^ 32 - 1)) ∧
    ∃ h, EnergySystem.temperature_to_enthalpy set_default_constants (3 / 10) 200 = some h ∧
      h = lever_rule set_default_constants (3 / 10) 200
          * ((set_default_constants.specific_heat_fluid
              - set_default_constants.specific_heat_solid)
            * (200 - set_default_constants.eutectic_temperature)
            + set_default_constants.latent_heat)
          + set_default_constants.specific_heat_solid * 200 ∧
      temperature_update set_default_constants (3 / 10) h 200 = 200 ∧
      |temperature_update set_default_constants (3 / 10) h 200 - 200| / 200 = 0 ∧
      temperature_iterative set_default_constants (3 / 10) h 200 = some 200 ∧
      (temperature_iterative set_default_constants (3 / 10) h 200).bind
        (EnergySystem.temperature_to_enthalpy set_default_constants (3 / 10)) = some h :=
  have h1 : set_default_constants.eutectic_temperature < 200 := by
    norm_num [set_default_constants]
  have h2 : (200 : ℚ) ≤ T_liq set_default_constants (3 / 10) := by
    norm_num [T_liq, set_default_constants]
  have h3 : (200 : ℚ) ≠ set_default_constants.melting_temperature := by
    norm_num [set_default_constants]
  have h4 : lever_rule set_default_constants (3 / 10) 200
        * set_default_constants.specific_heat_fluid
      + (1 - lever_rule set_default_constants (3 / 10) 200)
        * set_default_constants.specific_heat_solid ≠ 0 := by
    norm_num [lever_rule, T_liq, set_default_constants]
  have h5 : 0 ≤ set_default_constants.temp_min_error := by
    norm_num [set_default_constants]
  ⟨⟨h1, h2, h3, h4, Or.inl h5⟩,
    mushy_round_trip set_default_constants (3 / 10) 200 h1 h2 h3 h4 (Or.inl h5)⟩


/-- The lever rule gives `f = 1` at the liquidus temperature. -/
theorem lever_rule_T_liq (k : Constants) (C : ℚ) : lever_rule k C (T_liq k C) = 1 := by
  simp [lever_rule]

/-- C10: for every concentration `C` with `T_liq ≠ T_m` (and `c_f ≠ 0`, the divisor of
the liquid formula and the denominator of the update at `f = 1`), at `h = h_liq`
the liquid formula `(h - h0) / c_f` equals `T_liq`, and `T_liq` is a fixed point of
the mushy update `T ↦ (h - f * h0) / (f * c_f + (1 - f) * c_s)`, `f = lever_rule T`;
at `h = h_e` the plateau value `T_e` is a fixed point of the same update whenever
the denominator of the update is not zero. -/
theorem temperature_continuous_at_liquidus_and_eutectic (k : Constants) (C : ℚ)
    (_hTm : T_liq k C ≠ k.melting_temperature) (hcf : k.specific_heat_fluid ≠ 0) :
    (h_liq k C - reference_enthalpy k) / k.specific_heat_fluid = T_liq k C ∧
    temperature_update k C (h_liq k C) (T_liq k C) = T_liq k C ∧
    (lever_rule k C k.eutectic_temperature * k.specific_heat_fluid
        + (1 - lever_rule k C k.eutectic_temperature) * k.specific_heat_solid ≠ 0 →
      temperature_update k C (h_e k C) k.eutectic_temperature = k.eutectic_temperature) := by
  refine ⟨?_, ?_, ?_⟩
  · simp only [h_liq]
    field_simp
  · simp only [temperature_update, lever_rule_T_liq, h_liq]
    field_simp
  · intro hden
    simp only [temperature_update, h_e]
    rw [div_eq_iff hden]
    simp only [reference_enthalpy]
    ring

/-- C10, witness: default constants, `C = 0.3`. -/
theorem temperature_continuous_at_liquidus_and_eutectic_witness :
    (T_liq set_default_constants (3 / 10) ≠ set_default_constants.melting_temperature ∧
      set_default_constants.specific_heat_fluid ≠ 0 ∧
      lever_rule set_default_constants (3 / 10) set_default_constants.eutectic_temperature
          * set_default_constants.specific_heat_fluid
        + (1 - lever_rule set_default_constants (3 / 10)
            set_default_constants.eutectic_temperature)
          * set_default_constants.specific_heat_solid ≠ 0) ∧
    (h_liq set_default_constants (3 / 10) - reference_enthalpy set_default_constants)
        / set_default_constants.specific_heat_fluid = T_liq set_default_constants (3 / 10) ∧
    temperature_update set_default_constants (3 / 10) (h_liq set_default_constants (3 / 10))
        (T_liq set_default_constants (3 / 10)) = T_liq set_default_constants (3 / 10) ∧
    temperature_update set_default_constants (3 / 10) (h_e set_default_constants (3 / 10))
        set_default_constants.eutectic_temperature
      = set_default_constants.eutectic_temperature :=
  have h1 : T_liq set_default_constants (3 / 10) ≠ set_default_constants.melting_temperature := by
    norm_num [T_liq, set_default_constants]
  have h2 : set_default_constants.specific_heat_fluid ≠ 0 := by
    norm_num [set_default_constants]
  have h3 : lever_rule set_default_constants (3 / 10) set_default_constants.eutectic_temperature
          * set_default_constants.specific_heat_fluid
        + (1 - lever_rule set_default_constants (3 / 10)
            set_default_constants.eutectic_temperature)
          * set_default_constants.specific_heat_solid ≠ 0 := by
    norm_num [lever_rule, T_liq, set_default_constants]
  have t := temperature_continuous_at_liquidus_and_eutectic set_default_constants (3 / 10) h1 h2
  ⟨⟨h1, h2, h3⟩, t.1, t.2.1, t.2.2 h3⟩


/-! ### Liquid mass fraction and fluid volume fraction -/

/-- Between the solidus line `T_m + m / kappa_p * C` and the liquidus line `T_liq` the
lever rule gives a fraction in `[0, 1]` (for `m * C < 0` and `0 < kappa_p < 1`). -/
theorem lever_rule_mem_unit (k : Constants) (C T : ℚ)
    (hkp0 : 0 < k.partition_coefficient) (hkp1 : k.partition_coefficient < 1)
    (hmC : k.liquidus_slope * C < 0)
    (hlo : k.melting_temperature + k.liquidus_slope / k.partition_coefficient * C ≤ T)
    (hhi : T ≤ T_liq k C) :
    0 ≤ lever_rule k C T ∧ lever_rule k C T ≤ 1 := by
  have hD : T - k.melting_temperature < 0 := by
    simp only [T_liq] at hhi
    linarith
  have hN : T - T_liq k C ≤ 0 := by linarith
  have hk : 0 < 1 - k.partition_coefficient := by linarith
  have hlo2 : k.liquidus_slope * C ≤ k.partition_coefficient * (T - k.melting_temperature) := by
    have h1 : k.liquidus_slope / k.partition_coefficient * C
        = k.liquidus_slope * C / k.partition_coefficient := by ring
    have h2 : k.liquidus_slope * C / k.partition_coefficient ≤ T - k.melting_temperature := by
      linarith
    rw [div_le_iff₀ hkp0] at h2
    linarith
  have hX : 1 / (1 - k.partition_coefficient) * (T - T_liq k C)
      = (T - T_liq k C) / (1 - k.partition_coefficient) := by ring
  simp only [lever_rule]
  constructor
  · rw [sub_nonneg, div_le_iff_of_neg hD, hX, le_div_iff₀ hk]
    simp only [T_liq]
    linarith
  · rw [sub_le_self_iff]
    apply div_nonneg_of_nonpos _ (le_of_lt hD)
    rw [hX]
    exact div_nonpos_of_nonpos_of_nonneg hN (le_of_lt hk)

/-- On the eutectic branch, reached only for `h ≤ h_liq` and `h ≤ h_e`, the enthalpy
exceeds `h_sol` by at most the latent heat. -/
theorem eutectic_excess_le_latent_heat (k : Constants) (C h : ℚ)
    (hkp1 : k.partition_coefficient < 1)
    (hTe : k.eutectic_temperature < k.melting_temperature)
    (hcs : 0 < k.specific_heat_solid) (hcf : 0 < k.specific_heat_fluid)
    (hhf : 0 < k.latent_heat)
    (h2 : h ≤ h_e k C) (h3 : h ≤ h_liq k C) :
    h - h_sol k C ≤ k.latent_heat := by
  have hsol : k.specific_heat_solid * k.eutectic_temperature ≤ h_sol k C := by
    simp only [h_sol, T_sol]
    exact mul_le_mul_of_nonneg_left (le_max_right _ _) (le_of_lt hcs)
  by_cases hx : T_liq k C ≤ k.eutectic_temperature
  · have : h_liq k C ≤ k.specific_heat_solid * k.eutectic_temperature + k.latent_heat := by
      simp only [h_liq, reference_enthalpy]
      nlinarith
    linarith
  · have hx2 : k.eutectic_temperature - T_liq k C < 0 := by linarith
    have hD : k.eutectic_temperature - k.melting_temperature < 0 := by linarith
    have hk : 0 < 1 - k.partition_coefficient := by linarith
    have hfe : lever_rule k C k.eutectic_temperature ≤ 1 := by
      simp only [lever_rule]
      rw [sub_le_self_iff]
      apply div_nonneg_of_nonpos _ (le_of_lt hD)
      have hX : 1 / (1 - k.partition_coefficient) * (k.eutectic_temperature - T_liq k C)
          = (k.eutectic_temperature - T_liq k C) / (1 - k.partition_coefficient) := by ring
      rw [hX]
      exact div_nonpos_of_nonpos_of_nonneg (le_of_lt hx2) (le_of_lt hk)
    have : h_e k C ≤ k.latent_heat + k.specific_heat_solid * k.eutectic_temperature := by
      simp only [h_e]
      nlinarith
    linarith


/-- C3 (amended): with the default constants, for every enthalpy `h`, concentration `C`
and stored temperature `Ts`: `liquid_mass_fraction` returns a value in `[0, 1]`
provided that, in the liquidus regime `h_e < h ≤ h_liq`, `C > 0` and the stored
temperature lies between `T_m + m / kappa_p * C` and `T_liq`; and `epsilon`
returns a value in `[0, 1]` provided that, in the liquidus regime, `C > 0` and the
temperature computed by `temperature` lies between the same bounds. -/
theorem fractions_mem_unit_interval (C h Ts : ℚ) :
    ((h_e set_default_constants C < h → h ≤ h_liq set_default_constants C →
        0 < C ∧
        set_default_constants.melting_temperature
          + set_default_constants.liquidus_slope / set_default_constants.partition_coefficient * C
            ≤ Ts ∧
        Ts ≤ T_liq set_default_constants C) →
      0 ≤ liquid_mass_fraction set_default_constants C h Ts ∧
      liquid_mass_fraction set_default_constants C h Ts ≤ 1) ∧
    ((∀ T, temperature set_default_constants C h Ts = some T →
        h_e set_default_constants C < h → h ≤ h_liq set_default_constants C →
        0 < C ∧
        set_default_constants.melting_temperature
          + set_default_constants.liquidus_slope / set_default_constants.partition_coefficient * C
            ≤ T ∧
        T ≤ T_liq set_default_constants C) →
      ∃ e, epsilon set_default_constants C h Ts = some e ∧ 0 ≤ e ∧ e ≤ 1) := by
  have hkp0 : 0 < set_default_constants.partition_coefficient := by
    norm_num [set_default_constants]
  have hkp1 : set_default_constants.partition_coefficient < 1 := by
    norm_num [set_default_constants]
  have hm : set_default_constants.liquidus_slope < 0 := by norm_num [set_default_constants]
  have hhf : 0 < set_default_constants.latent_heat := by norm_num [set_default_constants]
  constructor
  · intro hT
    unfold liquid_mass_fraction
    by_cases h1 : h > h_liq set_default_constants C
    · simp only [if_pos h1]
      norm_num
    · by_cases h2 : h_e set_default_constants C < h
      · have h3 := not_lt.mp h1
        obtain ⟨hC, hlo, hhi⟩ := hT h2 h3
        simp only [if_neg h1, if_pos (And.intro h2 h3)]
        exact lever_rule_mem_unit set_default_constants C Ts hkp0 hkp1
          (mul_neg_of_neg_of_pos hm hC) hlo hhi
      · have h4 : ¬ (h_e set_default_constants C < h ∧ h ≤ h_liq set_default_constants C) :=
          fun hc => h2 hc.1
        by_cases h5 : h_sol set_default_constants C < h
        · have h6 := not_lt.mp h2
          simp only [if_neg h1, if_neg h4, if_pos (And.intro h5 h6)]
          have hle := eutectic_excess_le_latent_heat set_default_constants C h hkp1
            (by norm_num [set_default_constants]) (by norm_num [set_default_constants])
            (by norm_num [set_default_constants]) hhf h6 (not_lt.mp h1)
          constructor
          · exact div_nonneg (by linarith) (le_of_lt hhf)
          · rw [div_le_one hhf]
            exact hle
        · have h7 : ¬ (h_sol set_default_constants C < h ∧ h ≤ h_e set_default_constants C) :=
            fun hc => h5 hc.1
          simp only [if_neg h1, if_neg h4, if_neg h7]
          split <;> norm_num
  · intro hT
    have hpf : set_default_constants.density_fluid ≠ 0 := by norm_num [set_default_constants]
    by_cases h1 : h > h_liq set_default_constants C
    · exact ⟨1, epsilon_liquid set_default_constants C h Ts h1, by norm_num, le_rfl⟩
    · have h3 := not_lt.mp h1
      by_cases h2 : h_e set_default_constants C < h
      · obtain ⟨n, _, hn⟩ := temperature_iterative_isSome set_default_constants C h Ts
          (by norm_num [set_default_constants])
        have htemp := temperature_liquidus set_default_constants C h Ts h2 h3
        rw [hn] at htemp
        obtain ⟨hC, hlo, hhi⟩ := hT _ htemp h2 h3
        have hf := lever_rule_mem_unit set_default_constants C _ hkp0 hkp1
          (mul_neg_of_neg_of_pos hm hC) hlo hhi
        refine ⟨lever_rule set_default_constants C
          ((temperature_update set_default_constants C h)^[n] Ts), ?_, hf⟩
        rw [epsilon_liquidus set_default_constants C h Ts h2 h3, hn, Option.some_bind,
          density_mixture_self _ _ hpf, mul_div_assoc, mul_div_cancel₀ _ hpf]
      · have h6 := not_lt.mp h2
        by_cases h5 : h_sol set_default_constants C < h
        · refine ⟨1, ?_, by norm_num, le_rfl⟩
          rw [epsilon_eutectic set_default_constants C h Ts h5 h6 h3,
            density_mixture_self _ _ hpf]
          norm_num [set_default_constants]
        · exact ⟨0, epsilon_solid set_default_constants C h Ts (not_lt.mp h5) h6 h3,
            le_rfl, by norm_num⟩


/-- C3, witness: default constants, `C = 0.3`, stored temperature `200` and the mushy
enthalpy `h = 10058440061 / 219075000` that belongs to it.  The point is in the
liquidus regime, the solver returns `200`, and `200` lies between the solidus line
`31581 / 310` and `T_liq = 257.211`; both fractions are in `[0, 1]`. -/
theorem fractions_mem_unit_interval_witness :
    (h_e set_default_constants (3 / 10) < 10058440061 / 219075000 ∧
      (10058440061 / 219075000 : ℚ) ≤ h_liq set_default_constants (3 / 10) ∧
      temperature set_default_constants (3 / 10) (10058440061 / 219075000) 200 = some 200 ∧
      set_default_constants.melting_temperature
        + set_default_constants.liquidus_slope / set_default_constants.partition_coefficient
          * (3 / 10) ≤ 200 ∧
      (200 : ℚ) ≤ T_liq set_default_constants (3 / 10)) ∧
    (0 ≤ liquid_mass_fraction set_default_constants (3 / 10) (10058440061 / 219075000) 200 ∧
      liquid_mass_fraction set_default_constants (3 / 10) (10058440061 / 219075000) 200 ≤ 1) ∧
    ∃ e, epsilon set_default_constants (3 / 10) (10058440061 / 219075000) 200 = some e ∧
      0 ≤ e ∧ e ≤ 1 :=
  have he : h_e set_default_constants (3 / 10) < 10058440061 / 219075000 := by
    rw [thresholds_at_three_tenths.2.1]
    norm_num
  have hl : (10058440061 / 219075000 : ℚ) ≤ h_liq set_default_constants (3 / 10) := by
    rw [thresholds_at_three_tenths.2.2]
    norm_num
  have hfix : temperature_update set_default_constants (3 / 10) (10058440061 / 219075000) 200
      = 200 := by
    norm_num [temperature_update, lever_rule, T_liq, reference_enthalpy, set_default_constants]
  have htemp : temperature set_default_constants (3 / 10) (10058440061 / 219075000) 200
      = some 200 := by
    rw [temperature_liquidus _ _ _ _ he hl]
    exact temperature_iterative_fixed _ _ _ _
      (Or.inl (by norm_num [set_default_constants])) hfix
  have hlo : set_default_constants.melting_temperature
      + set_default_constants.liquidus_slope / set_default_constants.partition_coefficient
        * (3 / 10) ≤ 200 := by
    norm_num [set_default_constants]
  have hhi : (200 : ℚ) ≤ T_liq set_default_constants (3 / 10) := by
    norm_num [T_liq, set_default_constants]
  have t := fractions_mem_unit_interval (3 / 10) (10058440061 / 219075000) 200
  ⟨⟨he, hl, htemp, hlo, hhi⟩,
    t.1 (fun _ _ => ⟨by norm_num, hlo, hhi⟩),
    t.2 (fun T hT _ _ => by
      rw [htemp] at hT
      cases hT
      exact ⟨by norm_num, hlo, hhi⟩)⟩

/-- The first two updates of the iteration for `C = 0.3`, `h = 50`, started at `287`. -/
theorem temperature_update_from_287 :
    temperature_update set_default_constants (3 / 10) 50 287 = -1486544391 / 8946538 ∧
    temperature_update set_default_constants (3 / 10) 50 (-1486544391 / 8946538)
      = 98774281188710216 / 310461795021527 := by
  constructor <;>
    norm_num [temperature_update, lever_rule, T_liq, reference_enthalpy, set_default_constants]

/-- For `C = 0.3`, `h = 50` and stored temperature `287` the solver stops after two
updates, at `318.15...`: the first update gives a negative estimate, which makes
the next error measure negative. -/
theorem temperature_iterative_from_287 :
    temperature_iterative set_default_constants (3 / 10) 50 287
      = some (98774281188710216 / 310461795021527) := by
  unfold temperature_iterative
  have hmax : set_default_constants.temp_max_iter + 1 = 99 + 1 + 1 := rfl
  have htol : set_default_constants.temp_min_error = 1 / 1000 := rfl
  rw [hmax,
    temperature_loop_step _ _ _ _ _ _ _ (by rw [htol]; norm_num)
      (by norm_num [set_default_constants]),
    temperature_update_from_287.1,
    temperature_loop_step _ _ _ _ _ _ _ (by rw [htol]; norm_num [abs_of_neg])
      (by norm_num [set_default_constants]),
    temperature_update_from_287.2,
    temperature_loop_stop _ _ _ _ _ _ _ (by rw [htol]; norm_num [abs_of_pos])]
  rfl

/-- C3, counterexample: default constants, `C = 0.3`, `h = 50` (liquidus regime,
`h_e = 40.19 < 50 ≤ h_liq = 74.198`), stored temperature `287`.  Then
`liquid_mass_fraction` returns `57389 / 27600 > 1` and `epsilon` returns
`20815333219925322773 / 1895240790497087970 > 1`. -/
theorem fractions_leave_unit_interval :
    liquid_mass_fraction set_default_constants (3 / 10) 50 287 = 57389 / 27600 ∧
    epsilon set_default_constants (3 / 10) 50 287
      = some (20815333219925322773 / 1895240790497087970) ∧
    ¬ ((57389 / 27600 : ℚ) ≤ 1) ∧
    ¬ ((20815333219925322773 / 1895240790497087970 : ℚ) ≤ 1) := by
  have he : h_e set_default_constants (3 / 10) < 50 := by
    rw [thresholds_at_three_tenths.2.1]
    norm_num
  have hl : (50 : ℚ) ≤ h_liq set_default_constants (3 / 10) := by
    rw [thresholds_at_three_tenths.2.2]
    norm_num
  refine ⟨?_, ?_, by norm_num, by norm_num⟩
  · unfold liquid_mass_fraction
    simp only [if_neg (not_lt.mpr hl), if_pos (And.intro he hl)]
    norm_num [lever_rule, T_liq, set_default_constants]
  · rw [epsilon_liquidus _ _ _ _ he hl, temperature_iterative_from_287, Option.some_bind,
      density_mixture_self _ _ (by norm_num [set_default_constants])]
    norm_num [lever_rule, T_liq, set_default_constants]


/-- C8, evaluation at the failing input: default constants, `C = 0.3`, where
`h_sol = 32.5557`.  The liquidus-branch expressions at `f = 1` give the liquid
values `rho_f` and `1`; but the eutectic-branch expression of `density` at
`h = h_sol` (`f = 0`) gives `10000 = rho_f`, not `rho_s = 10800`, and just above
`h_sol`, at `h = 32.5558`, `density` returns `10000` and `epsilon` returns `1`,
while `epsilon` returns `0` at `h = h_sol`. -/
theorem eutectic_branch_misses_solid_limit :
    (density_mixture set_default_constants.density_fluid set_default_constants.density_fluid
        (lever_rule set_default_constants (3 / 10) (T_liq set_default_constants (3 / 10)))
      = set_default_constants.density_fluid ∧
      set_default_constants.density_fluid
        * lever_rule set_default_constants (3 / 10) (T_liq set_default_constants (3 / 10))
        / set_default_constants.density_fluid = 1) ∧
    density_mixture set_default_constants.density_fluid set_default_constants.density_fluid
        ((h_sol set_default_constants (3 / 10) - h_sol set_default_constants (3 / 10))
          / set_default_constants.latent_heat) = 10000 ∧
    set_default_constants.density_solid = 10800 ∧
    density set_default_constants (3 / 10) (325558 / 10000) 287 = some 10000 ∧
    epsilon set_default_constants (3 / 10) (325558 / 10000) 287 = some 1 ∧
    epsilon set_default_constants (3 / 10) (h_sol set_default_constants (3 / 10)) 287
      = some 0 := by
  have hpf : set_default_constants.density_fluid ≠ 0 := by norm_num [set_default_constants]
  have hpf2 : set_default_constants.density_fluid = 10000 := rfl
  obtain ⟨hs, he, hl⟩ := thresholds_at_three_tenths
  have h1 : h_sol set_default_constants (3 / 10) < 325558 / 10000 := by rw [hs]; norm_num
  have h2 : (325558 / 10000 : ℚ) ≤ h_e set_default_constants (3 / 10) := by rw [he]; norm_num
  have h3 : (325558 / 10000 : ℚ) ≤ h_liq set_default_constants (3 / 10) := by
    rw [hl]; norm_num
  refine ⟨⟨?_, ?_⟩, ?_, rfl, ?_, ?_, ?_⟩
  · rw [density_mixture_self _ _ hpf]
  · rw [lever_rule_T_liq, hpf2]
    norm_num
  · rw [density_mixture_self _ _ hpf, hpf2]
  · rw [density_eutectic _ _ _ _ h1 h2 h3, density_mixture_self _ _ hpf, hpf2]
  · rw [epsilon_eutectic _ _ _ _ h1 h2 h3, density_mixture_self _ _ hpf]
    norm_num [set_default_constants]
  · exact epsilon_solid _ _ _ _ le_rfl (by rw [hs, he]; norm_num) (by rw [hs, hl]; norm_num)

end ThermoSystem

namespace ThermoSystem

/-! ### The test enthalpies and the liquid round trip -/

/-- C11 (amended): with the default constants and `C = 19.2`, `temperature` applied to
`h = 0.9 * 3.8002` and to `h = 0.9 * 2.8499` takes the liquid branch (both exceed
`h_liq = -605.97...`) and returns `(h - h0) / c_f`, that is `-1549371 / 7735` and
`-3184269 / 15470` (about `-200.31` and `-205.84`); each value `T` satisfies
`T_liq ≤ T ≤ T_sol`, with `T_liq = -4139.496` and `T_sol = 183`. -/
theorem temperature_at_test_enthalpies (Ts : ℚ) :
    (temperature set_default_constants (96 / 5) (9 / 10 * (38002 / 10000)) Ts
        = some (-1549371 / 7735) ∧
      T_liq set_default_constants (96 / 5) ≤ -1549371 / 7735 ∧
      (-1549371 / 7735 : ℚ) ≤ T_sol set_default_constants (96 / 5)) ∧
    (temperature set_default_constants (96 / 5) (9 / 10 * (28499 / 10000)) Ts
        = some (-3184269 / 15470) ∧
      T_liq set_default_constants (96 / 5) ≤ -3184269 / 15470 ∧
      (-3184269 / 15470 : ℚ) ≤ T_sol set_default_constants (96 / 5)) ∧
    T_liq set_default_constants (96 / 5) = -517437 / 125 ∧
    T_sol set_default_constants (96 / 5) = 183 := by
  have hl : h_liq set_default_constants (96 / 5) = -757465539 / 1250000 := by
    norm_num [h_liq, T_liq, reference_enthalpy, set_default_constants]
  have hTl : T_liq set_default_constants (96 / 5) = -517437 / 125 := by
    norm_num [T_liq, set_default_constants]
  have hTs : T_sol set_default_constants (96 / 5) = 183 := by
    norm_num [T_sol, set_default_constants]
  refine ⟨⟨?_, ?_, ?_⟩, ⟨?_, ?_, ?_⟩, hTl, hTs⟩
  · rw [temperature_liquid _ _ _ _ (by rw [hl]; norm_num)]
    norm_num [reference_enthalpy, set_default_constants]
  · rw [hTl]; norm_num
  · rw [hTs]; norm_num
  · rw [temperature_liquid _ _ _ _ (by rw [hl]; norm_num)]
    norm_num [reference_enthalpy, set_default_constants]
  · rw [hTl]; norm_num
  · rw [hTs]; norm_num

/-- C11, counterexample: default constants, `C = 19.2`, `h = 0.9 * 3.8002`.  The
temperature returned is `-1549371 / 7735`, about `-200.31`, which is below
`T_sol = 183` and so outside the bracket `T_sol ≤ T ≤ T_liq` (the bracket is empty
at this concentration, `T_liq = -4139.496`). -/
theorem temperature_at_test_enthalpy_outside_bracket :
    temperature set_default_constants (96 / 5) (9 / 10 * (38002 / 10000)) 287
      = some (-1549371 / 7735) ∧
    ¬ (T_sol set_default_constants (96 / 5) ≤ -1549371 / 7735 ∧
      (-1549371 / 7735 : ℚ) ≤ T_liq set_default_constants (96 / 5)) := by
  have hl : h_liq set_default_constants (96 / 5) = -757465539 / 1250000 := by
    norm_num [h_liq, T_liq, reference_enthalpy, set_default_constants]
  constructor
  · rw [temperature_liquid _ _ _ _ (by rw [hl]; norm_num)]
    norm_num [reference_enthalpy, set_default_constants]
  · norm_num [T_sol, T_liq, set_default_constants]

/-- C12: for every concentration `C` and every temperature `T > T_liq C`, with
`c_f > 0`, `temperature_to_enthalpy` maps `T` to `h = c_f * T + h0`, this `h` is
strictly greater than `h_liq C`, and `temperature` maps it back to exactly `T`. -/
theorem liquid_round_trip (k : Constants) (C T Ts : ℚ)
    (hcf : 0 < k.specific_heat_fluid) (hT : T > T_liq k C) :
    EnergySystem.temperature_to_enthalpy k C T
      = some (k.specific_heat_fluid * T + reference_enthalpy k) ∧
    k.specific_heat_fluid * T + reference_enthalpy k > h_liq k C ∧
    temperature k C (k.specific_heat_fluid * T + reference_enthalpy k) Ts = some T := by
  have hgt : k.specific_heat_fluid * T + reference_enthalpy k > h_liq k C := by
    simp only [h_liq]
    have := mul_lt_mul_of_pos_left hT hcf
    linarith
  refine ⟨?_, hgt, ?_⟩
  · simp only [EnergySystem.temperature_to_enthalpy, if_pos hT, reference_enthalpy]
    congr 1
    ring
  · rw [temperature_liquid k C _ Ts hgt]
    congr 1
    field_simp

/-- C12, witness: the initial state of the test, `T = 287` and `C = 0.192`, with the
default constants (`T_liq = 282.33504`). -/
theorem liquid_round_trip_witness :
    (0 < set_default_constants.specific_heat_fluid ∧
      287 > T_liq set_default_constants (24 / 125)) ∧
    EnergySystem.temperature_to_enthalpy set_default_constants (24 / 125) 287
      = some (set_default_constants.specific_heat_fluid * 287
          + reference_enthalpy set_default_constants) ∧
    set_default_constants.specific_heat_fluid * 287 + reference_enthalpy set_default_constants
      > h_liq set_default_constants (24 / 125) ∧
    temperature set_default_constants (24 / 125)
        (set_default_constants.specific_heat_fluid * 287
          + reference_enthalpy set_default_constants) 287 = some 287 :=
  have h1 : 0 < set_default_constants.specific_heat_fluid := by
    norm_num [set_default_constants]
  have h2 : 287 > T_liq set_default_constants (24 / 125) := by
    norm_num [T_liq, set_default_constants]
  ⟨⟨h1, h2⟩, liquid_round_trip set_default_constants (24 / 125) 287 287 h1 h2⟩

end ThermoSystem

namespace VectorValue

theorem eq_zero_iff {K : Type} [LinearOrderedField K] (v : VectorValue K) :
    v = zero ↔ v.x = 0 ∧ v.y = 0 ∧ v.z = 0 := by
  cases v
  simp [zero]

theorem size_sq_zero {K : Type} [LinearOrderedField K] :
    size_sq (zero : VectorValue K) = 0 := by
  simp [size_sq, zero]

/-- With the real square root, only the zero vector has length zero. -/
theorem size_real_eq_zero_iff (v : VectorValue ℝ) : size Real.sqrt v = 0 ↔ v = zero := by
  rw [eq_zero_iff, size, size_sq, Real.sqrt_eq_zero']
  constructor
  · intro h
    have hx := mul_self_nonneg v.x
    have hy := mul_self_nonneg v.y
    have hz := mul_self_nonneg v.z
    refine ⟨?_, ?_, ?_⟩ <;> apply mul_self_eq_zero.mp <;> linarith
  · rintro ⟨hx, hy, hz⟩
    simp [hx, hy, hz]

end VectorValue

namespace ThermoSystem

/-! ### The element length -/

theorem element_length_node_of_zero {K : Type} [LinearOrderedField K] (sqrt : K → K)
    (hs : sqrt 0 = 0) (h : K) (B : VectorValue K) :
    element_length_node sqrt h VectorValue.zero B = h := by
  simp [element_length_node, VectorValue.size, VectorValue.size_sq_zero, hs]

/-- If the velocity is zero at every node, the loop of `element_length` leaves the sum
where it started. -/
theorem element_length_foldl_at_rest {K : Type} [LinearOrderedField K] (sqrt : K → K)
    (hs : sqrt 0 = 0) (nodes : List (VectorValue K × VectorValue K))
    (hv : ∀ nd ∈ nodes, nd.1 = VectorValue.zero) (h : K) :
    nodes.foldl (fun h nd => element_length_node sqrt h nd.1 nd.2) h = h := by
  induction nodes generalizing h with
  | nil => rfl
  | cons nd rest ih =>
    rw [List.foldl_cons, hv nd (List.mem_cons_self _ _), element_length_node_of_zero sqrt hs]
    exact ih (fun x hx => hv x (List.mem_cons_of_mem _ hx)) h

/-- C16 (amended): if the velocity is zero at every node of the element (and the square
root of `0` is `0`), every node is skipped, the sum of the nodal contributions is
`0`, and `element_length` returns the quotient `2 / 0`, which is not a number:
the result is `none`, not `0`. -/
theorem element_length_at_rest {K : Type} [LinearOrderedField K] (sqrt : K → K)
    (hs : sqrt 0 = 0) (nodes : List (VectorValue K × VectorValue K))
    (hv : ∀ nd ∈ nodes, nd.1 = VectorValue.zero) :
    element_length_sum sqrt nodes = 0 ∧ element_length sqrt nodes = none := by
  have h0 : element_length_sum sqrt nodes = 0 :=
    element_length_foldl_at_rest sqrt hs nodes hv 0
  refine ⟨h0, ?_⟩
  simp [element_length, h0]

theorem test_element_at_rest_velocity {K : Type} [LinearOrderedField K] :
    ∀ nd ∈ (test_element_at_rest : List (VectorValue K × VectorValue K)),
      nd.1 = VectorValue.zero := by
  intro nd hnd
  simp only [test_element_at_rest, List.mem_cons, List.mem_singleton, List.not_mem_nil,
    or_false] at hnd
  rcases hnd with h | h | h | h <;> rw [h] <;> rfl

/-- C16, witness: the test element with zero velocity at its four nodes, in real
arithmetic. -/
theorem element_length_at_rest_witness :
    (Real.sqrt 0 = 0 ∧
      ∀ nd ∈ (test_element_at_rest : List (VectorValue ℝ × VectorValue ℝ)),
        nd.1 = VectorValue.zero) ∧
    element_length_sum Real.sqrt (test_element_at_rest : List (VectorValue ℝ × VectorValue ℝ))
      = 0 ∧
    element_length Real.sqrt (test_element_at_rest : List (VectorValue ℝ × VectorValue ℝ))
      = none :=
  ⟨⟨Real.sqrt_zero, test_element_at_rest_velocity⟩,
    element_length_at_rest Real.sqrt Real.sqrt_zero test_element_at_rest
      test_element_at_rest_velocity⟩

/-- C16, counterexample: for the test element with zero velocity at its four nodes
`element_length` does not return `0`; the sum is `0` and the function divides `2` by
it. -/
theorem element_length_at_rest_not_zero :
    element_length_sum Real.sqrt (test_element_at_rest : List (VectorValue ℝ × VectorValue ℝ))
      = 0 ∧
    element_length Real.sqrt (test_element_at_rest : List (VectorValue ℝ × VectorValue ℝ))
      ≠ some 0 := by
  have h0 : element_length_sum Real.sqrt
      (test_element_at_rest : List (VectorValue ℝ × VectorValue ℝ)) = 0 :=
    element_length_foldl_at_rest Real.sqrt Real.sqrt_zero _ test_element_at_rest_velocity 0
  refine ⟨h0, ?_⟩
  simp [element_length, h0]

end ThermoSystem
namespace ThermoSystem

/-- The loop of `element_length` adds up the sum of the specification, when exactly the
zero vector has length zero. -/
theorem element_length_foldl_eq_spec {K : Type} [LinearOrderedField K] (sqrt : K → K)
    (hz : ∀ v : VectorValue K, VectorValue.size sqrt v = 0 ↔ v = VectorValue.zero)
    (nodes : List (VectorValue K × VectorValue K)) (h : K) :
    nodes.foldl (fun h nd => element_length_node sqrt h nd.1 nd.2) h
      = h + element_length_sum_spec sqrt nodes := by
  induction nodes generalizing h with
  | nil => simp [element_length_sum_spec]
  | cons nd rest ih =>
    obtain ⟨v, B⟩ := nd
    rw [List.foldl_cons, ih]
    by_cases hv : v = VectorValue.zero
    · subst hv
      have hn : VectorValue.size sqrt (VectorValue.zero : VectorValue K) = 0 := (hz _).mpr rfl
      simp [element_length_node, element_length_sum_spec, hn, List.filter_cons]
    · have hn : VectorValue.size sqrt v ≠ 0 := fun hc => hv ((hz v).mp hc)
      simp only [element_length_node, element_length_sum_spec, List.filter_cons, hn, hv,
        ne_eq, not_false_eq_true, decide_True, if_true, List.map_cons, List.sum_cons,
        VectorValue.scale, mul_one_div]
      ring

theorem element_length_sum_test_element :
    element_length_sum Real.sqrt (test_element : List (VectorValue ℝ × VectorValue ℝ))
      = 3 / (2 * Real.sqrt 5) + 1 / 2 + 1 / Real.sqrt 2 := by
  have h5 : Real.sqrt 5 ≠ 0 := by positivity
  have h2 : Real.sqrt 2 ≠ 0 := by positivity
  have h5p : 0 < Real.sqrt 5 := by positivity
  have h2p : 0 < Real.sqrt 2 := by positivity
  have s0 : VectorValue.size Real.sqrt (⟨1, 2, 0⟩ : VectorValue ℝ) = Real.sqrt 5 := by
    simp only [VectorValue.size, VectorValue.size_sq]
    norm_num
  have s1 : VectorValue.size Real.sqrt (⟨1, 0, 0⟩ : VectorValue ℝ) = 1 := by
    simp only [VectorValue.size, VectorValue.size_sq]
    norm_num
  have s2 : VectorValue.size Real.sqrt (⟨1, 1, 0⟩ : VectorValue ℝ) = Real.sqrt 2 := by
    simp only [VectorValue.size, VectorValue.size_sq]
    norm_num
  have s3 : VectorValue.size Real.sqrt (⟨0, 0, 0⟩ : VectorValue ℝ) = 0 := by
    simp only [VectorValue.size, VectorValue.size_sq]
    norm_num
  have n0 : ∀ h : ℝ, element_length_node Real.sqrt h ⟨1, 2, 0⟩ (quad4_dphi (-1) (-1) (-1) (-1))
      = h + 3 / (2 * Real.sqrt 5) := by
    intro h
    have hd : VectorValue.dot ((⟨1, 2, 0⟩ : VectorValue ℝ).scale (1 / Real.sqrt 5))
        (quad4_dphi (-1) (-1) (-1) (-1)) = -(3 / (2 * Real.sqrt 5)) := by
      simp only [VectorValue.dot, VectorValue.scale, quad4_dphi]
      field_simp
      ring
    simp only [element_length_node, s0, ne_eq, h5, not_false_eq_true, if_true, hd, abs_neg]
    rw [abs_of_pos (by positivity)]
  have n1 : ∀ h : ℝ, element_length_node Real.sqrt h ⟨1, 0, 0⟩ (quad4_dphi 1 (-1) 1 (-1))
      = h + 1 / 2 := by
    intro h
    have hd : VectorValue.dot ((⟨1, 0, 0⟩ : VectorValue ℝ).scale (1 / 1))
        (quad4_dphi 1 (-1) 1 (-1)) = 1 / 2 := by
      simp only [VectorValue.dot, VectorValue.scale, quad4_dphi]
      norm_num
    simp only [element_length_node, s1, ne_eq, one_ne_zero, not_false_eq_true, if_true, hd]
    rw [abs_of_pos (by positivity)]
  have n2 : ∀ h : ℝ, element_length_node Real.sqrt h ⟨1, 1, 0⟩ (quad4_dphi 1 1 1 1)
      = h + 1 / Real.sqrt 2 := by
    intro h
    have hd : VectorValue.dot ((⟨1, 1, 0⟩ : VectorValue ℝ).scale (1 / Real.sqrt 2))
        (quad4_dphi 1 1 1 1) = 1 / Real.sqrt 2 := by
      simp only [VectorValue.dot, VectorValue.scale, quad4_dphi]
      field_simp
      ring
    simp only [element_length_node, s2, ne_eq, h2, not_false_eq_true, if_true, hd]
    rw [abs_of_pos (by positivity)]
  have n3 : ∀ h : ℝ, element_length_node Real.sqrt h ⟨0, 0, 0⟩ (quad4_dphi (-1) 1 (-1) 1)
      = h := by
    intro h
    simp [element_length_node, s3]
  simp only [element_length_sum, test_element, List.foldl_cons, List.foldl_nil, n0, n1, n2, n3]
  ring

theorem sqrt_five_bounds : (223606797 / 100000000 : ℝ) < Real.sqrt 5 ∧
    Real.sqrt 5 < 223606798 / 100000000 := by
  constructor
  · rw [Real.lt_sqrt (by norm_num)]
    norm_num
  · rw [Real.sqrt_lt' (by norm_num)]
    norm_num

theorem sqrt_two_bounds : (141421356 / 100000000 : ℝ) < Real.sqrt 2 ∧
    Real.sqrt 2 < 141421357 / 100000000 := by
  constructor
  · rw [Real.lt_sqrt (by norm_num)]
    norm_num
  · rw [Real.sqrt_lt' (by norm_num)]
    norm_num

theorem test_element_sum_bounds :
    (18779271 / 10000000 : ℝ) < 3 / (2 * Real.sqrt 5) + 1 / 2 + 1 / Real.sqrt 2 ∧
    3 / (2 * Real.sqrt 5) + 1 / 2 + 1 / Real.sqrt 2 < 18779272 / 10000000 := by
  obtain ⟨a1, a2⟩ := sqrt_five_bounds
  obtain ⟨b1, b2⟩ := sqrt_two_bounds
  have h5p : 0 < Real.sqrt 5 := by positivity
  have h2p : 0 < Real.sqrt 2 := by positivity
  have c1 : (67082039 / 100000000 : ℝ) < 3 / (2 * Real.sqrt 5) := by
    rw [lt_div_iff₀ (by positivity)]
    linarith
  have c2 : 3 / (2 * Real.sqrt 5) < (67082040 / 100000000 : ℝ) := by
    rw [div_lt_iff₀ (by positivity)]
    linarith
  have d1 : (70710677 / 100000000 : ℝ) < 1 / Real.sqrt 2 := by
    rw [lt_div_iff₀ h2p]
    linarith
  have d2 : 1 / Real.sqrt 2 < (70710679 / 100000000 : ℝ) := by
    rw [div_lt_iff₀ h2p]
    linarith
  constructor <;> linarith

/-- C17: in real arithmetic `element_length` returns `2 / S`, where `S` is the sum over
the element nodes `a` with non-zero velocity `v_a` of `|(v_a / ‖v_a‖) · grad N_a(x_a)|`
(the quotient exists when `S ≠ 0`); for the test element of `test_eqdata.cpp` this
is `2 / (3 / (2 * sqrt 5) + 1 / 2 + 1 / sqrt 2)`, within `10⁻⁶` of `1.065004`. -/
theorem element_length_eq_spec :
    (∀ nodes : List (VectorValue ℝ × VectorValue ℝ),
      element_length_sum Real.sqrt nodes = element_length_sum_spec Real.sqrt nodes ∧
      (element_length_sum_spec Real.sqrt nodes ≠ 0 →
        element_length Real.sqrt nodes
          = some (2 / element_length_sum_spec Real.sqrt nodes)) ∧
      (element_length_sum_spec Real.sqrt nodes = 0 →
        element_length Real.sqrt nodes = none)) ∧
    element_length Real.sqrt (test_element : List (VectorValue ℝ × VectorValue ℝ))
      = some (2 / (3 / (2 * Real.sqrt 5) + 1 / 2 + 1 / Real.sqrt 2)) ∧
    |2 / (3 / (2 * Real.sqrt 5) + 1 / 2 + 1 / Real.sqrt 2) - 1065004 / 1000000|
      < 1 / 1000000 := by
  refine ⟨?_, ?_, ?_⟩
  · intro nodes
    have hsum : element_length_sum Real.sqrt nodes = element_length_sum_spec Real.sqrt nodes := by
      rw [element_length_sum,
        element_length_foldl_eq_spec Real.sqrt VectorValue.size_real_eq_zero_iff, zero_add]
    refine ⟨hsum, ?_, ?_⟩
    · intro hne
      simp [element_length, hsum, hne]
    · intro h0
      simp [element_length, hsum, h0]
  · obtain ⟨l, _⟩ := test_element_sum_bounds
    have hne : 3 / (2 * Real.sqrt 5) + 1 / 2 + 1 / Real.sqrt 2 ≠ 0 := by
      intro hc
      rw [hc] at l
      norm_num at l
    simp only [element_length, element_length_sum_test_element, if_neg hne]
  · obtain ⟨l, u⟩ := test_element_sum_bounds
    have hpos : 0 < 3 / (2 * Real.sqrt 5) + 1 / 2 + 1 / Real.sqrt 2 := by linarith
    rw [abs_lt]
    constructor
    · rw [lt_sub_iff_add_lt, lt_div_iff₀ hpos]
      linarith
    · rw [sub_lt_iff_lt_add, div_lt_iff₀ hpos]
      linarith

end ThermoSystem
namespace EnergySystem

/-! ### The blending factor `alpha` -/

/-- C18: `alpha` returns `(grad_T · grad_h) / ‖grad_h‖²` when `‖grad_h‖ > 0`, and the
fallback `1 / (c_s + c_f * f - c_s * f)` when `grad_h = 0` (whose length is
`sqrt 0 = 0`); for `0 ≤ f ≤ 1` and positive `c_s`, `c_f` the denominator of the
fallback is not zero and its value lies between `1 / max c_s c_f` and
`1 / min c_s c_f`. -/
theorem alpha_cases (sqrt : ℚ → ℚ) (k : Constants) (grad_T grad_h : VectorValue ℚ) (f : ℚ) :
    (VectorValue.size sqrt grad_h > 0 →
      alpha sqrt k grad_T grad_h f
        = grad_T.dot grad_h / (VectorValue.size sqrt grad_h) ^ 2) ∧
    (sqrt 0 = 0 →
      alpha sqrt k grad_T VectorValue.zero f
        = 1 / (k.specific_heat_solid + k.specific_heat_fluid * f
            - k.specific_heat_solid * f)) ∧
    (0 ≤ f → f ≤ 1 → 0 < k.specific_heat_solid → 0 < k.specific_heat_fluid →
      k.specific_heat_solid + k.specific_heat_fluid * f - k.specific_heat_solid * f ≠ 0 ∧
      1 / max k.specific_heat_solid k.specific_heat_fluid
        ≤ 1 / (k.specific_heat_solid + k.specific_heat_fluid * f
            - k.specific_heat_solid * f) ∧
      1 / (k.specific_heat_solid + k.specific_heat_fluid * f - k.specific_heat_solid * f)
        ≤ 1 / min k.specific_heat_solid k.specific_heat_fluid) := by
  refine ⟨?_, ?_, ?_⟩
  · intro hpos
    simp only [alpha, if_pos hpos, pow_two]
  · intro hs
    have h0 : ¬ VectorValue.size sqrt (VectorValue.zero : VectorValue ℚ) > 0 := by
      simp [VectorValue.size, VectorValue.size_sq_zero, hs]
    simp only [alpha, if_neg h0]
  · intro hf0 hf1 hcs hcf
    have hmin : 0 < min k.specific_heat_solid k.specific_heat_fluid := lt_min hcs hcf
    have hlo : min k.specific_heat_solid k.specific_heat_fluid
        ≤ k.specific_heat_solid + k.specific_heat_fluid * f - k.specific_heat_solid * f := by
      have h1 := min_le_left k.specific_heat_solid k.specific_heat_fluid
      have h2 := min_le_right k.specific_heat_solid k.specific_heat_fluid
      nlinarith [mul_le_mul_of_nonneg_right h2 hf0,
        mul_le_mul_of_nonneg_right h1 (sub_nonneg.mpr hf1)]
    have hhi : k.specific_heat_solid + k.specific_heat_fluid * f - k.specific_heat_solid * f
        ≤ max k.specific_heat_solid k.specific_heat_fluid := by
      have h1 := le_max_left k.specific_heat_solid k.specific_heat_fluid
      have h2 := le_max_right k.specific_heat_solid k.specific_heat_fluid
      nlinarith [mul_le_mul_of_nonneg_right h2 hf0,
        mul_le_mul_of_nonneg_right h1 (sub_nonneg.mpr hf1)]
    have hden : 0 < k.specific_heat_solid + k.specific_heat_fluid * f
        - k.specific_heat_solid * f := lt_of_lt_of_le hmin hlo
    exact ⟨ne_of_gt hden, one_div_le_one_div_of_le hden hhi,
      one_div_le_one_div_of_le hmin hlo⟩

/-- C18, witness: with the integer square root on perfect squares, `grad_h = (3, 4, 0)`
has length `5` and `alpha` is `3 / 25` for `grad_T = (1, 0, 0)`; for
`grad_h = 0`, `f = 1/2` and the default constants the fallback is
`1 / 0.1663`. -/
theorem alpha_cases_witness :
    (VectorValue.size Rat.sqrt (⟨3, 4, 0⟩ : VectorValue ℚ) > 0 ∧ Rat.sqrt 0 = 0 ∧
      (0 : ℚ) ≤ 1 / 2 ∧ (1 / 2 : ℚ) ≤ 1 ∧
      0 < ThermoSystem.set_default_constants.specific_heat_solid ∧
      0 < ThermoSystem.set_default_constants.specific_heat_fluid) ∧
    alpha Rat.sqrt ThermoSystem.set_default_constants ⟨1, 0, 0⟩ ⟨3, 4, 0⟩ (1 / 2) = 3 / 25 ∧
    alpha Rat.sqrt ThermoSystem.set_default_constants ⟨1, 0, 0⟩ VectorValue.zero (1 / 2)
      = 10000 / 1663 :=
  have hsize : VectorValue.size Rat.sqrt (⟨3, 4, 0⟩ : VectorValue ℚ) = 5 := by
    have h25 : VectorValue.size_sq (⟨3, 4, 0⟩ : VectorValue ℚ) = 5 * 5 := by
      norm_num [VectorValue.size_sq]
    rw [VectorValue.size, h25, Rat.sqrt_eq]
    norm_num
  have h1 : VectorValue.size Rat.sqrt (⟨3, 4, 0⟩ : VectorValue ℚ) > 0 := by
    rw [hsize]
    norm_num
  have h2 : Rat.sqrt 0 = 0 := by
    have h := Rat.sqrt_eq 0
    rw [mul_zero, abs_zero] at h
    exact h
  have t := alpha_cases Rat.sqrt ThermoSystem.set_default_constants ⟨1, 0, 0⟩ ⟨3, 4, 0⟩ (1 / 2)
  ⟨⟨h1, h2, by norm_num, by norm_num, by norm_num [ThermoSystem.set_default_constants],
      by norm_num [ThermoSystem.set_default_constants]⟩,
    by
      rw [t.1 h1, hsize]
      norm_num [VectorValue.dot],
    by
      rw [t.2.1 h2]
      norm_num [ThermoSystem.set_default_constants]⟩

end EnergySystem

namespace ThermoSystem

/-! ### The stabilization coefficient `tau_1` -/

/-- C19: `tau_1` is the minimum of the SUPG coefficient `f * h / (2 * ‖v‖) * z(Re)`, with
`Re = ‖v‖ * h / (2 * mu / rho)` and `z(Re) = Re / 3` for `0 ≤ Re ≤ 3`, else `1`, and
of the permeability coefficient `K(eps) * rho_f / (eps * mu)` with
`K(eps) = d^2 / 180 * eps^3 / (1 - eps)^2`; `tau_supg`, `tau_K` and
`kozeny_carman` are these three formulas. -/
theorem tau_1_eq_spec (sqrt : ℚ → ℚ) (k : Constants) (v : VectorValue ℚ)
    (rho f eps h : ℚ) :
    tau_1 sqrt k v rho f eps h
      = min (tau_supg_spec f h (VectorValue.size sqrt v) k.viscosity rho)
          (tau_K_spec k.dentrite_arm_spacing k.density_fluid k.viscosity eps) ∧
    tau_supg sqrt k v rho f h = tau_supg_spec f h (VectorValue.size sqrt v) k.viscosity rho ∧
    tau_K k eps = tau_K_spec k.dentrite_arm_spacing k.density_fluid k.viscosity eps ∧
    kozeny_carman k eps = kozeny_carman_spec k.dentrite_arm_spacing eps := by
  have h1 : tau_supg sqrt k v rho f h
      = tau_supg_spec f h (VectorValue.size sqrt v) k.viscosity rho := by
    simp only [tau_supg, tau_supg_spec, z_spec, ge_iff_le]
  have h2 : kozeny_carman k eps = kozeny_carman_spec k.dentrite_arm_spacing eps := by
    simp only [kozeny_carman, kozeny_carman_spec]
  have h3 : tau_K k eps
      = tau_K_spec k.dentrite_arm_spacing k.density_fluid k.viscosity eps := by
    simp only [tau_K, tau_K_spec, h2]
  exact ⟨by rw [tau_1, h1, h3], h1, h3, h2⟩

/-! ### Initialization of the thermo system -/

/-- C20: `initialize` ends in a fatal error if and only if one of the three linked
systems (momentum, energy, concentration) is missing or reports that it is not
initialized, which is when `valid` fails on one of them; when all three are
present and initialized it completes, stores the projected solution as current
and as old solution, and sets the flag `_initialized`. -/
theorem initialize_system_fatal_iff {Sol : Type} (project_solution : ThermoState Sol → Sol)
    (s : ThermoState Sol) :
    ((∃ err, initialize_system project_solution s = Except.error err) ↔
      ((s.momentum = none ∨ ∃ x, s.momentum = some x ∧ x.initialized = false) ∨
        (s.energy = none ∨ ∃ x, s.energy = some x ∧ x.initialized = false) ∨
        (s.concentration = none ∨
          ∃ x, s.concentration = some x ∧ x.initialized = false))) ∧
    ((∃ err, initialize_system project_solution s = Except.error err) ↔
      ((∃ err, valid s.momentum = Except.error err) ∨
        (∃ err, valid s.energy = Except.error err) ∨
        (∃ err, valid s.concentration = Except.error err))) ∧
    (∀ m e c, s.momentum = some m → s.energy = some e → s.concentration = some c →
      m.initialized = true → e.initialized = true → c.initialized = true →
      ∃ s1, initialize_system project_solution s = Except.ok s1 ∧
        s1.current_local_solution = project_solution s ∧
        s1.old_local_solution = s1.current_local_solution ∧
        s1._initialized = true ∧
        s1.momentum = s.momentum ∧ s1.energy = s.energy ∧
        s1.concentration = s.concentration) := by
  obtain ⟨mo, en, co, cur, old, ini⟩ := s
  rcases mo with _ | ⟨⟨mi⟩⟩ <;> rcases en with _ | ⟨⟨ei⟩⟩ <;> rcases co with _ | ⟨⟨ci⟩⟩
  all_goals (try cases mi)
  all_goals (try cases ei)
  all_goals (try cases ci)
  all_goals simp [initialize_system, valid, LinkedSystem.initialized]

/-- C20, witness: three linked systems, present and initialized; the solution is a list
of nodal values and the projection returns `[1, 2]`. -/
theorem initialize_system_fatal_iff_witness :
    ∃ s1, initialize_system (fun _ => [(1 : ℚ), 2])
        { momentum := some ⟨true⟩, energy := some ⟨true⟩, concentration := some ⟨true⟩,
          current_local_solution := [], old_local_solution := [], _initialized := false }
        = Except.ok s1 ∧
      s1.current_local_solution = [1, 2] ∧
      s1.old_local_solution = s1.current_local_solution ∧
      s1._initialized = true ∧
      s1.momentum = some ⟨true⟩ ∧ s1.energy = some ⟨true⟩ ∧
      s1.concentration = some ⟨true⟩ :=
  (initialize_system_fatal_iff (fun _ => [(1 : ℚ), 2])
    { momentum := some ⟨true⟩, energy := some ⟨true⟩, concentration := some ⟨true⟩,
      current_local_solution := [], old_local_solution := [], _initialized := false }).2.2
    ⟨true⟩ ⟨true⟩ ⟨true⟩ rfl rfl rfl rfl rfl rfl

end ThermoSystem
namespace EnergySystem

/-! ### Assembly of the energy equation -/

theorem add_matrix_eq_add {n m : ℕ} (G : Matrix (Fin n) (Fin n) ℚ)
    (dm : Matrix (Fin m) (Fin m) ℚ) (dof_indices : Fin m → Fin n) :
    add_matrix G dm dof_indices = G + add_matrix 0 dm dof_indices := by
  funext a b
  simp [add_matrix]

theorem add_vector_eq_add {n m : ℕ} (g : Fin n → ℚ) (dv : Fin m → ℚ)
    (dof_indices : Fin m → Fin n) :
    add_vector g dv dof_indices = g + add_vector 0 dv dof_indices := by
  funext a
  simp [add_vector]

/-- The sequence of `add` calls that builds `Mstar` gives `M_e + gamma*dt*(K_e + N_e)`. -/
theorem element_Mstar_eq_spec {n : ℕ} (gamma dt : ℚ) (e : ElementData n) :
    element_Mstar gamma dt e = Mstar_spec gamma dt e := by
  simp only [element_Mstar, Mstar_spec, zero_add, one_smul, smul_add]
  abel

/-- The sequence of `add` and `vector_mult` calls that builds `R` gives
`F_e - M_e*h_dot - (N_e + K_e)*h`. -/
theorem element_R_eq_spec {n : ℕ} (e : ElementData n) (h h_dot : Fin e.m → ℚ) :
    element_R e h h_dot = R_spec e h h_dot := by
  simp only [element_R, R_spec, zero_add, one_smul, neg_smul, sub_eq_add_neg]

/-- After the loop over the elements every global operator holds its initial value plus
the assembled element contributions; the gathered vectors and the constants are
not touched. -/
theorem assemble_fields {n : ℕ} (elems : List (ElementData n)) (s : GlobalData n) :
    (assemble s elems).M = s.M + assembled_matrix elems (fun e => e.Me) ∧
    (assemble s elems).N = s.N + assembled_matrix elems (fun e => e.Ne) ∧
    (assemble s elems).K = s.K + assembled_matrix elems (fun e => e.Ke) ∧
    (assemble s elems).F = s.F + assembled_vector elems (fun e => e.Fe) ∧
    (assemble s elems).matrix
      = s.matrix + assembled_matrix elems (fun e => element_Mstar s.gamma s.dt e) ∧
    (assemble s elems).rhs
      = s.rhs + assembled_vector elems (fun e => element_R e
          (fun i => s.old_solution (e.dof_indices i)) (fun i => s.h_dot (e.dof_indices i))) ∧
    (assemble s elems).h_dot = s.h_dot ∧
    (assemble s elems).old_solution = s.old_solution ∧
    (assemble s elems).gamma = s.gamma ∧
    (assemble s elems).dt = s.dt := by
  induction elems generalizing s with
  | nil => simp [assemble, assembled_matrix, assembled_vector]
  | cons e rest ih =>
    obtain ⟨h1, h2, h3, h4, h5, h6, h7, h8, h9, h10⟩ := ih (assemble_element s e)
    have hstep : assemble s (e :: rest) = assemble (assemble_element s e) rest := rfl
    rw [hstep]
    refine ⟨?_, ?_, ?_, ?_, ?_, ?_, ?_, ?_, ?_, ?_⟩
    · rw [h1]
      simp only [assemble_element, assembled_matrix, List.map_cons, List.sum_cons]
      rw [add_matrix_eq_add, add_assoc]
    · rw [h2]
      simp only [assemble_element, assembled_matrix, List.map_cons, List.sum_cons]
      rw [add_matrix_eq_add, add_assoc]
    · rw [h3]
      simp only [assemble_element, assembled_matrix, List.map_cons, List.sum_cons]
      rw [add_matrix_eq_add, add_assoc]
    · rw [h4]
      simp only [assemble_element, assembled_vector, List.map_cons, List.sum_cons]
      rw [add_vector_eq_add, add_assoc]
    · rw [h5]
      simp only [assemble_element, assembled_matrix, List.map_cons, List.sum_cons]
      rw [add_matrix_eq_add, add_assoc]
    · rw [h6]
      simp only [assemble_element, assembled_vector, List.map_cons, List.sum_cons]
      rw [add_vector_eq_add, add_assoc]
    · rw [h7]; rfl
    · rw [h8]; rfl
    · rw [h9]; rfl
    · rw [h10]; rfl

/-- Started from zeroed global operators, `solve` hands the solver the assembled `M*`
as matrix and, as right-hand side, the assembled residual plus the assembled
force vector `F`, which `update_rhs` adds once more. -/
theorem solve_system_of_zeroed {n : ℕ} (elems : List (ElementData n)) (s : GlobalData n)
    (hF : s.F = 0) (hm : s.matrix = 0) (hr : s.rhs = 0) :
    (solve_system s elems).1 = assembled_matrix elems (fun e => Mstar_spec s.gamma s.dt e) ∧
    (solve_system s elems).2
      = assembled_vector elems (fun e => R_spec e
          (fun i => s.old_solution (e.dof_indices i)) (fun i => s.h_dot (e.dof_indices i)))
        + assembled_vector elems (fun e => e.Fe) := by
  obtain ⟨_, _, _, h4, h5, h6, _⟩ := assemble_fields elems s
  have hMs : (fun e : ElementData n => element_Mstar s.gamma s.dt e)
      = fun e => Mstar_spec s.gamma s.dt e := by
    funext e
    exact element_Mstar_eq_spec _ _ e
  have hRs : (fun e : ElementData n => element_R e
        (fun i => s.old_solution (e.dof_indices i)) (fun i => s.h_dot (e.dof_indices i)))
      = fun e => R_spec e (fun i => s.old_solution (e.dof_indices i))
          (fun i => s.h_dot (e.dof_indices i)) := by
    funext e
    exact element_R_eq_spec e _ _
  constructor
  · simp only [solve_system, update_rhs, h5, hm, zero_add, hMs]
  · simp only [solve_system, update_rhs, h4, h6, hF, hr, zero_add, hRs]

/-- The assembled operators of the mesh `[unit_element]`. -/
theorem unit_element_assembled :
    assembled_matrix [unit_element] (fun e => e.Me) = (fun _ _ => 1) ∧
    assembled_vector [unit_element] (fun e => e.Fe) = (fun _ => 1) ∧
    assembled_matrix [unit_element]
        (fun e => Mstar_spec zeroed_globals.gamma zeroed_globals.dt e) = (fun _ _ => 1) ∧
    assembled_vector [unit_element] (fun e => R_spec e
        (fun i => zeroed_globals.old_solution (e.dof_indices i))
        (fun i => zeroed_globals.h_dot (e.dof_indices i))) = (fun _ => 1) := by
  refine ⟨?_, ?_, ?_, ?_⟩
  · funext a b
    have ha : a = 0 := Subsingleton.elim _ _
    have hb : b = 0 := Subsingleton.elim _ _
    subst ha hb
    simp [assembled_matrix, add_matrix, unit_element]
    rfl
  · funext a
    simp [assembled_vector, add_vector, unit_element, Subsingleton.elim _ a]
  · funext a b
    have ha : a = 0 := Subsingleton.elim _ _
    have hb : b = 0 := Subsingleton.elim _ _
    subst ha hb
    simp [assembled_matrix, add_matrix, Mstar_spec, unit_element, zeroed_globals]
    rfl
  · funext a
    simp [assembled_vector, add_vector, R_spec, unit_element, zeroed_globals,
      Matrix.mulVec, Matrix.dotProduct, Subsingleton.elim _ a]

/-- C13, evaluation at the failing input: one element with one degree of freedom,
`Me = 1`, `Ne = Ke = 0`, `Fe = 1`, zeroed global operators, `h = h_dot = 0`.  The
matrix handed to the solver is the assembled `M* = 1`, and the assembled residual
is `R = 1`, but the right-hand side handed to the solver is `2`. -/
theorem solve_system_counts_force_twice :
    (solve_system zeroed_globals [unit_element]).1
      = assembled_matrix [unit_element]
          (fun e => Mstar_spec zeroed_globals.gamma zeroed_globals.dt e) ∧
    assembled_vector [unit_element] (fun e => R_spec e
        (fun i => zeroed_globals.old_solution (e.dof_indices i))
        (fun i => zeroed_globals.h_dot (e.dof_indices i))) = (fun _ => 1) ∧
    (solve_system zeroed_globals [unit_element]).2 = (fun _ => 2) := by
  obtain ⟨h1, h2⟩ := solve_system_of_zeroed [unit_element] zeroed_globals rfl rfl rfl
  obtain ⟨_, hFe, _, hR⟩ := unit_element_assembled
  refine ⟨h1, hR, ?_⟩
  rw [h2, hR, hFe]
  funext a
  simp only [Pi.add_apply]
  norm_num

/-- C14: for every element, `assemble` adds to the system matrix the element operator
`M* = M_e + gamma*dt*(K_e + N_e)` and to the system right-hand side the element
residual `R = F_e - M_e*h_dot_old - (N_e + K_e)*h_old`, where `h_old` and
`h_dot_old` are the values of the old solution and of `"h_dot"` at the
degree-of-freedom indices of the element. -/
theorem assemble_element_adds_spec {n : ℕ} (s : GlobalData n) (e : ElementData n) :
    (assemble_element s e).matrix
      = add_matrix s.matrix (Mstar_spec s.gamma s.dt e) e.dof_indices ∧
    (assemble_element s e).rhs
      = add_vector s.rhs (R_spec e (fun i => s.old_solution (e.dof_indices i))
          (fun i => s.h_dot (e.dof_indices i))) e.dof_indices ∧
    (∀ a b, (assemble_element s e).matrix a b
      = s.matrix a b + ∑ i, ∑ j,
          if e.dof_indices i = a ∧ e.dof_indices j = b
          then (e.Me + (s.gamma * s.dt) • (e.Ke + e.Ne)) i j else 0) ∧
    (∀ a, (assemble_element s e).rhs a
      = s.rhs a + ∑ i,
          if e.dof_indices i = a
          then (e.Fe - e.Me.mulVec (fun i => s.h_dot (e.dof_indices i))
            - (e.Ne + e.Ke).mulVec (fun i => s.old_solution (e.dof_indices i))) i
          else 0) := by
  have hM : (assemble_element s e).matrix
      = add_matrix s.matrix (Mstar_spec s.gamma s.dt e) e.dof_indices := by
    simp only [assemble_element, element_Mstar_eq_spec]
  have hR : (assemble_element s e).rhs
      = add_vector s.rhs (R_spec e (fun i => s.old_solution (e.dof_indices i))
          (fun i => s.h_dot (e.dof_indices i))) e.dof_indices := by
    simp only [assemble_element, element_R_eq_spec]
  refine ⟨hM, hR, ?_, ?_⟩
  · intro a b
    rw [hM]
    rfl
  · intro a
    rw [hR]
    rfl

/-- C15 (amended): `assemble` resets only the element operators; the global `M`, `N`,
`K`, `F`, the system matrix and the system right-hand side are accumulated.  One
call adds the assembled element contributions to each of them, and a second call
on unchanged fields adds the same contributions once more. -/
theorem assemble_twice {n : ℕ} (elems : List (ElementData n)) (s : GlobalData n) :
    ((assemble s elems).M = s.M + assembled_matrix elems (fun e => e.Me) ∧
      (assemble (assemble s elems) elems).M
        = s.M + (2 : ℚ) • assembled_matrix elems (fun e => e.Me)) ∧
    ((assemble s elems).N = s.N + assembled_matrix elems (fun e => e.Ne) ∧
      (assemble (assemble s elems) elems).N
        = s.N + (2 : ℚ) • assembled_matrix elems (fun e => e.Ne)) ∧
    ((assemble s elems).K = s.K + assembled_matrix elems (fun e => e.Ke) ∧
      (assemble (assemble s elems) elems).K
        = s.K + (2 : ℚ) • assembled_matrix elems (fun e => e.Ke)) ∧
    ((assemble s elems).F = s.F + assembled_vector elems (fun e => e.Fe) ∧
      (assemble (assemble s elems) elems).F
        = s.F + (2 : ℚ) • assembled_vector elems (fun e => e.Fe)) ∧
    ((assemble s elems).matrix
        = s.matrix + assembled_matrix elems (fun e => Mstar_spec s.gamma s.dt e) ∧
      (assemble (assemble s elems) elems).matrix
        = s.matrix + (2 : ℚ) • assembled_matrix elems (fun e => Mstar_spec s.gamma s.dt e)) ∧
    ((assemble s elems).rhs
        = s.rhs + assembled_vector elems (fun e => R_spec e
            (fun i => s.old_solution (e.dof_indices i))
            (fun i => s.h_dot (e.dof_indices i))) ∧
      (assemble (assemble s elems) elems).rhs
        = s.rhs + (2 : ℚ) • assembled_vector elems (fun e => R_spec e
            (fun i => s.old_solution (e.dof_indices i))
            (fun i => s.h_dot (e.dof_indices i)))) := by
  obtain ⟨a1, a2, a3, a4, a5, a6, a7, a8, a9, a10⟩ := assemble_fields elems s
  obtain ⟨b1, b2, b3, b4, b5, b6, _⟩ := assemble_fields elems (assemble s elems)
  have hMs : (fun e : ElementData n => element_Mstar s.gamma s.dt e)
      = fun e => Mstar_spec s.gamma s.dt e := by
    funext e
    exact element_Mstar_eq_spec _ _ e
  have hRs : (fun e : ElementData n => element_R e
        (fun i => s.old_solution (e.dof_indices i)) (fun i => s.h_dot (e.dof_indices i)))
      = fun e => R_spec e (fun i => s.old_solution (e.dof_indices i))
          (fun i => s.h_dot (e.dof_indices i)) := by
    funext e
    exact element_R_eq_spec e _ _
  rw [a9, a10, hMs] at b5
  rw [a7, a8, hRs] at b6
  rw [hMs] at a5
  rw [hRs] at a6
  refine ⟨⟨a1, ?_⟩, ⟨a2, ?_⟩, ⟨a3, ?_⟩, ⟨a4, ?_⟩, ⟨a5, ?_⟩, ⟨a6, ?_⟩⟩
  · rw [b1, a1, add_assoc, two_smul]
  · rw [b2, a2, add_assoc, two_smul]
  · rw [b3, a3, add_assoc, two_smul]
  · rw [b4, a4, add_assoc, two_smul]
  · rw [b5, a5, add_assoc, two_smul]
  · rw [b6, a6, add_assoc, two_smul]

/-- C15, counterexample: one element with one degree of freedom (`Me = 1`, `Fe = 1`) and
zeroed globals.  After one call of `assemble` the entry of `M` is `1`, after two
calls it is `2`; the same holds for `F`, the system matrix and the right-hand
side. -/
theorem assemble_twice_differs :
    (assemble zeroed_globals [unit_element]).M 0 0 = 1 ∧
    (assemble (assemble zeroed_globals [unit_element]) [unit_element]).M 0 0 = 2 ∧
    (assemble (assemble zeroed_globals [unit_element]) [unit_element]).M
      ≠ (assemble zeroed_globals [unit_element]).M ∧
    (assemble zeroed_globals [unit_element]).matrix 0 0 = 1 ∧
    (assemble (assemble zeroed_globals [unit_element]) [unit_element]).matrix 0 0 = 2 ∧
    (assemble zeroed_globals [unit_element]).rhs 0 = 1 ∧
    (assemble (assemble zeroed_globals [unit_element]) [unit_element]).rhs 0 = 2 := by
  obtain ⟨uM, _, uS, uR⟩ := unit_element_assembled
  obtain ⟨a1, _, _, _, a5, a6, a7, a8, a9, a10⟩ := assemble_fields [unit_element] zeroed_globals
  obtain ⟨b1, _, _, _, b5, b6, _⟩ :=
    assemble_fields [unit_element] (assemble zeroed_globals [unit_element])
  have hMs : (fun e : ElementData 1 => element_Mstar zeroed_globals.gamma zeroed_globals.dt e)
      = fun e => Mstar_spec zeroed_globals.gamma zeroed_globals.dt e := by
    funext e
    exact element_Mstar_eq_spec _ _ e
  have hRs : (fun e : ElementData 1 => element_R e
        (fun i => zeroed_globals.old_solution (e.dof_indices i))
        (fun i => zeroed_globals.h_dot (e.dof_indices i)))
      = fun e => R_spec e (fun i => zeroed_globals.old_solution (e.dof_indices i))
          (fun i => zeroed_globals.h_dot (e.dof_indices i)) := by
    funext e
    exact element_R_eq_spec e _ _
  rw [a9, a10, hMs, uS] at b5
  rw [a7, a8, hRs, uR] at b6
  rw [hMs, uS] at a5
  rw [hRs, uR] at a6
  rw [uM] at a1 b1
  have z1 : zeroed_globals.M = 0 := rfl
  have z2 : zeroed_globals.matrix = 0 := rfl
  have z3 : zeroed_globals.rhs = 0 := rfl
  have hM1 : (assemble zeroed_globals [unit_element]).M 0 0 = 1 := by
    rw [a1, z1]
    simp
  have hM2 : (assemble (assemble zeroed_globals [unit_element]) [unit_element]).M 0 0 = 2 := by
    rw [b1, a1, z1]
    simp
    norm_num
  refine ⟨hM1, hM2, ?_, ?_, ?_, ?_, ?_⟩
  · intro hc
    have := congrFun (congrFun hc 0) 0
    rw [hM1, hM2] at this
    norm_num at this
  · rw [a5, z2]
    simp
  · rw [b5, a5, z2]
    simp
    norm_num
  · rw [a6, z3]
    simp
  · rw [b6, a6, z3]
    simp
    norm_num

end EnergySystem

namespace ThermoSystem

/-! ### The threshold ordering in terms of the concentration -/

/-- The lever-rule fraction at the eutectic temperature is non-negative exactly when
`m * C ≤ kappa_p * (T_e - T_m)`. -/
theorem lever_rule_eutectic_nonneg_iff (k : Constants) (C : ℚ)
    (hkp1 : k.partition_coefficient < 1)
    (hTe : k.eutectic_temperature < k.melting_temperature) :
    0 ≤ lever_rule k C k.eutectic_temperature ↔
      k.liquidus_slope * C
        ≤ k.partition_coefficient * (k.eutectic_temperature - k.melting_temperature) := by
  have hD : k.eutectic_temperature - k.melting_temperature < 0 := by linarith
  have hK : 0 < 1 - k.partition_coefficient := by linarith
  have hX : 1 / (1 - k.partition_coefficient) * (k.eutectic_temperature - T_liq k C)
      = (k.eutectic_temperature - T_liq k C) / (1 - k.partition_coefficient) := by ring
  simp only [lever_rule]
  rw [sub_nonneg, div_le_iff_of_neg hD, hX, le_div_iff₀ hK]
  simp only [T_liq]
  constructor <;> intro h <;> linarith

/-- The difference `h_liq - h_e` is a negative multiple of `T_e - T_liq`. -/
theorem h_liq_sub_h_e (k : Constants) (C : ℚ)
    (hkp1 : k.partition_coefficient < 1)
    (hTe : k.eutectic_temperature < k.melting_temperature) :
    h_liq k C - h_e k C
      = (k.eutectic_temperature - T_liq k C)
        * (-k.specific_heat_fluid + k.latent_heat
            / ((1 - k.partition_coefficient)
              * (k.eutectic_temperature - k.melting_temperature))) := by
  have hD : k.eutectic_temperature - k.melting_temperature ≠ 0 := by
    intro h
    linarith
  have hK : 1 - k.partition_coefficient ≠ 0 := by
    intro h
    linarith
  simp only [h_liq, h_e, lever_rule, reference_enthalpy]
  field_simp
  ring

/-- C24: given `m < 0`, `0 < kappa_p < 1`, `T_e < T_m` and positive `c_s`, `c_f`, `h_f`,
with `C_e = (T_e - T_m) / m`: `h_sol ≤ h_e` holds if and only if
`kappa_p * C_e ≤ C`, `h_e ≤ h_liq` holds if and only if `C ≤ C_e`, and so the
ordering `h_sol ≤ h_e ≤ h_liq` holds if and only if `kappa_p * C_e ≤ C ≤ C_e`. -/
theorem threshold_order_iff (k : Constants) (C : ℚ)
    (hm : k.liquidus_slope < 0)
    (hkp0 : 0 < k.partition_coefficient) (hkp1 : k.partition_coefficient < 1)
    (hTe : k.eutectic_temperature < k.melting_temperature)
    (hcs : 0 < k.specific_heat_solid) (hcf : 0 < k.specific_heat_fluid)
    (hhf : 0 < k.latent_heat) :
    (h_sol k C ≤ h_e k C ↔ k.partition_coefficient * eutectic_concentration k ≤ C) ∧
    (h_e k C ≤ h_liq k C ↔ C ≤ eutectic_concentration k) ∧
    ((h_sol k C ≤ h_e k C ∧ h_e k C ≤ h_liq k C) ↔
      (k.partition_coefficient * eutectic_concentration k ≤ C ∧
        C ≤ eutectic_concentration k)) := by
  have hD : k.eutectic_temperature - k.melting_temperature < 0 := by linarith
  have hK : 0 < 1 - k.partition_coefficient := by linarith
  -- the two conditions on `C`, cleared of the division by `m`
  have hP : k.partition_coefficient * eutectic_concentration k ≤ C ↔
      k.liquidus_slope * C
        ≤ k.partition_coefficient * (k.eutectic_temperature - k.melting_temperature) := by
    simp only [eutectic_concentration]
    rw [← mul_div_assoc, div_le_iff_of_neg hm]
    constructor <;> intro h <;> linarith
  have hQ : C ≤ eutectic_concentration k ↔
      k.eutectic_temperature - k.melting_temperature ≤ k.liquidus_slope * C := by
    simp only [eutectic_concentration]
    rw [le_div_iff_of_neg hm]
    constructor <;> intro h <;> linarith
  have hA : h_sol k C ≤ h_e k C ↔ k.partition_coefficient * eutectic_concentration k ≤ C := by
    rw [hP]
    have hfe := lever_rule_eutectic_nonneg_iff k C hkp1 hTe
    have hsolid : k.melting_temperature + k.liquidus_slope / k.partition_coefficient * C
          ≤ k.eutectic_temperature ↔
        k.liquidus_slope * C
          ≤ k.partition_coefficient * (k.eutectic_temperature - k.melting_temperature) := by
      have h1 : k.liquidus_slope / k.partition_coefficient * C
          = k.liquidus_slope * C / k.partition_coefficient := by ring
      rw [h1]
      constructor
      · intro h
        have h2 : k.liquidus_slope * C / k.partition_coefficient
            ≤ k.eutectic_temperature - k.melting_temperature := by linarith
        rw [div_le_iff₀ hkp0] at h2
        linarith
      · intro h
        have h2 : k.liquidus_slope * C / k.partition_coefficient
            ≤ k.eutectic_temperature - k.melting_temperature := by
          rw [div_le_iff₀ hkp0]
          linarith
        linarith
    constructor
    · intro hle
      by_contra hn
      have hfneg : lever_rule k C k.eutectic_temperature < 0 := by
        by_contra hc
        exact hn (hfe.mp (not_lt.mp hc))
      have hTs : k.eutectic_temperature ≤ T_sol k C := by
        simp only [T_sol]
        exact le_max_right _ _
      have h1 : h_e k C < k.specific_heat_solid * k.eutectic_temperature := by
        simp only [h_e]
        nlinarith
      have h2 : k.specific_heat_solid * k.eutectic_temperature ≤ h_sol k C := by
        simp only [h_sol]
        exact mul_le_mul_of_nonneg_left hTs (le_of_lt hcs)
      linarith
    · intro hc
      have hfpos := hfe.mpr hc
      have hTs : T_sol k C = k.eutectic_temperature := by
        simp only [T_sol]
        exact max_eq_right (hsolid.mpr hc)
      simp only [h_sol, hTs, h_e]
      nlinarith
  have hB : h_e k C ≤ h_liq k C ↔ C ≤ eutectic_concentration k := by
    rw [hQ, ← sub_nonneg, h_liq_sub_h_e k C hkp1 hTe]
    have hcoef : -k.specific_heat_fluid + k.latent_heat
        / ((1 - k.partition_coefficient)
          * (k.eutectic_temperature - k.melting_temperature)) < 0 := by
      have : k.latent_heat / ((1 - k.partition_coefficient)
          * (k.eutectic_temperature - k.melting_temperature)) < 0 :=
        div_neg_of_pos_of_neg hhf (mul_neg_of_pos_of_neg hK hD)
      linarith
    have hx : 0 ≤ (k.eutectic_temperature - T_liq k C)
          * (-k.specific_heat_fluid + k.latent_heat
            / ((1 - k.partition_coefficient)
              * (k.eutectic_temperature - k.melting_temperature))) ↔
        k.eutectic_temperature - T_liq k C ≤ 0 := by
      constructor
      · intro h
        by_contra hn
        have := mul_neg_of_pos_of_neg (not_le.mp hn) hcoef
        linarith
      · intro h
        exact mul_nonneg_of_nonpos_of_nonpos h (le_of_lt hcoef)
    rw [hx]
    simp only [T_liq]
    constructor <;> intro h <;> linarith
  exact ⟨hA, hB, by rw [hA, hB]⟩

/-- C24, witness: the default constants, for which `C_e = 14400 / 23263` (about
`0.619`), at `C = 0.3`. -/
theorem threshold_order_iff_witness :
    (set_default_constants.liquidus_slope < 0 ∧
      0 < set_default_constants.partition_coefficient ∧
      set_default_constants.partition_coefficient < 1 ∧
      set_default_constants.eutectic_temperature < set_default_constants.melting_temperature ∧
      0 < set_default_constants.specific_heat_solid ∧
      0 < set_default_constants.specific_heat_fluid ∧
      0 < set_default_constants.latent_heat) ∧
    eutectic_concentration set_default_constants = 14400 / 23263 ∧
    (h_sol set_default_constants (3 / 10) ≤ h_e set_default_constants (3 / 10) ∧
      h_e set_default_constants (3 / 10) ≤ h_liq set_default_constants (3 / 10)) :=
  have h1 : set_default_constants.liquidus_slope < 0 := by norm_num [set_default_constants]
  have h2 : 0 < set_default_constants.partition_coefficient := by
    norm_num [set_default_constants]
  have h3 : set_default_constants.partition_coefficient < 1 := by
    norm_num [set_default_constants]
  have h4 : set_default_constants.eutectic_temperature
      < set_default_constants.melting_temperature := by norm_num [set_default_constants]
  have h5 : 0 < set_default_constants.specific_heat_solid := by
    norm_num [set_default_constants]
  have h6 : 0 < set_default_constants.specific_heat_fluid := by
    norm_num [set_default_constants]
  have h7 : 0 < set_default_constants.latent_heat := by norm_num [set_default_constants]
  ⟨⟨h1, h2, h3, h4, h5, h6, h7⟩,
    by norm_num [eutectic_concentration, set_default_constants],
    (threshold_order_iff set_default_constants (3 / 10) h1 h2 h3 h4 h5 h6 h7).2.2.mpr
      ⟨by norm_num [eutectic_concentration, set_default_constants],
        by norm_num [eutectic_concentration, set_default_constants]⟩⟩

end ThermoSystem

namespace ThermoSystem

/-! ### Further properties of the evaluator -/

/-- After an update from a negative estimate the error measure is not positive. -/
theorem error_nonpos_of_neg (Tnew T : ℚ) (hT : T < 0) : |Tnew - T| / T ≤ 0 :=
  div_nonpos_of_nonneg_of_nonpos (abs_nonneg _) (le_of_lt hT)

/-- C26: in the loop of `temperature_iterative`, whenever an update is made from a
negative estimate `T` and the tolerance is not negative, the loop stops right
after that update and returns the new estimate `T_new`, whatever it is: the error
measure `|T_new - T| / T` is then at most `0` and does not exceed the tolerance.
In particular `temperature_iterative` started at a negative stored temperature
(tolerance in `[0, 1)`) returns the result of one update. -/
theorem temperature_loop_stops_after_negative (k : Constants) (C h T err : ℚ)
    (cnt fuel : ℕ) (hT : T < 0) (htol : 0 ≤ k.temp_min_error)
    (herr : err > k.temp_min_error) :
    |temperature_update k C h T - T| / T ≤ 0 ∧
    ¬ (|temperature_update k C h T - T| / T > k.temp_min_error) ∧
    temperature_loop k C h (fuel + 2) T err cnt
      = some (temperature_update k C h T, (cnt + 1) % 2 ^ 32) ∧
    (k.temp_min_error < 1 →
      temperature_iterative k C h T = some (temperature_update k C h T)) := by
  have hle := error_nonpos_of_neg (temperature_update k C h T) T hT
  have hnot : ¬ (|temperature_update k C h T - T| / T > k.temp_min_error) := by
    intro hc
    linarith
  have hloop : ∀ (f : ℕ) (e : ℚ) (c : ℕ), e > k.temp_min_error →
      ((c + 1) % 2 ^ 32 > k.temp_max_iter ∨ 1 ≤ f) →
      temperature_loop k C h (f + 1) T e c
        = some (temperature_update k C h T, (c + 1) % 2 ^ 32) := by
    intro f e c he hor
    by_cases hcnt : (c + 1) % 2 ^ 32 > k.temp_max_iter
    · exact temperature_loop_break k C h f T e c he hcnt
    · rcases hor with hb | hf
      · exact absurd hb hcnt
      · obtain ⟨g, rfl⟩ : ∃ g, f = g + 1 := ⟨f - 1, by omega⟩
        rw [temperature_loop_step k C h _ T e c he hcnt,
          temperature_loop_stop k C h g _ _ _ hnot]
  refine ⟨hle, hnot, hloop (fuel + 1) err cnt herr (Or.inr (by omega)), ?_⟩
  intro h1
  unfold temperature_iterative
  by_cases hcnt : (0 + 1) % 2 ^ 32 > k.temp_max_iter
  · rw [hloop k.temp_max_iter 1 0 h1 (Or.inl hcnt)]
    rfl
  · have hpos : 1 ≤ k.temp_max_iter := by
      have : (0 + 1) % 2 ^ 32 = 1 := by norm_num
      omega
    rw [hloop k.temp_max_iter 1 0 h1 (Or.inr hpos)]
    rfl

/-- C26, witness: default constants, `C = 0.3`, `h = 50`, stored temperature `-1`: one
update, to `419301000 / 1385003` (about `302.7`), and the loop stops. -/
theorem temperature_loop_stops_after_negative_witness :
    ((-1 : ℚ) < 0 ∧ 0 ≤ set_default_constants.temp_min_error ∧
      (1 : ℚ) > set_default_constants.temp_min_error) ∧
    temperature_loop set_default_constants (3 / 10) 50 (99 + 2) (-1) 1 0
      = some (temperature_update set_default_constants (3 / 10) 50 (-1), (0 + 1) % 2 ^ 32) ∧
    temperature_iterative set_default_constants (3 / 10) 50 (-1)
      = some (temperature_update set_default_constants (3 / 10) 50 (-1)) :=
  have h1 : (-1 : ℚ) < 0 := by norm_num
  have h2 : 0 ≤ set_default_constants.temp_min_error := by norm_num [set_default_constants]
  have h3 : (1 : ℚ) > set_default_constants.temp_min_error := by
    norm_num [set_default_constants]
  have t := temperature_loop_stops_after_negative set_default_constants (3 / 10) 50 (-1) 1
    0 99 h1 h2 h3
  ⟨⟨h1, h2, h3⟩, t.2.2.1, t.2.2.2 h3⟩

/-- C28: for `m * C ≠ 0` and `kappa_p` neither `0` nor `1`, `lever_rule` returns `1` at the
liquidus `T_liq = T_m + m * C` and `0` at the solidus `T_m + m * C / kappa_p` (which
is the expression `Tm + m/kp*C` of `T_sol`); for `m * C < 0` and `0 < kappa_p < 1`,
every `T` between the solidus and the liquidus gives `0 ≤ f ≤ 1`. -/
theorem lever_rule_at_phase_lines (k : Constants) (C : ℚ) :
    (k.liquidus_slope * C ≠ 0 → k.partition_coefficient ≠ 0 → k.partition_coefficient ≠ 1 →
      T_liq k C = k.melting_temperature + k.liquidus_slope * C ∧
      lever_rule k C (T_liq k C) = 1 ∧
      lever_rule k C (k.melting_temperature + k.liquidus_slope * C / k.partition_coefficient)
        = 0 ∧
      k.melting_temperature + k.liquidus_slope * C / k.partition_coefficient
        = k.melting_temperature + k.liquidus_slope / k.partition_coefficient * C) ∧
    (k.liquidus_slope * C < 0 → 0 < k.partition_coefficient → k.partition_coefficient < 1 →
      ∀ T, k.melting_temperature + k.liquidus_slope * C / k.partition_coefficient ≤ T →
        T ≤ T_liq k C → 0 ≤ lever_rule k C T ∧ lever_rule k C T ≤ 1) := by
  constructor
  · intro hmC hkp0 hkp1
    have hK : 1 - k.partition_coefficient ≠ 0 := fun h => hkp1 (by linarith)
    refine ⟨rfl, lever_rule_T_liq k C, ?_, by ring⟩
    simp only [lever_rule, T_liq]
    have hnum : k.melting_temperature + k.liquidus_slope * C / k.partition_coefficient
        - (k.melting_temperature + k.liquidus_slope * C)
        = (1 - k.partition_coefficient)
          * (k.liquidus_slope * C / k.partition_coefficient) := by
      field_simp
      ring
    have hden : k.melting_temperature + k.liquidus_slope * C / k.partition_coefficient
        - k.melting_temperature = k.liquidus_slope * C / k.partition_coefficient := by ring
    have hq : k.liquidus_slope * C / k.partition_coefficient ≠ 0 := div_ne_zero hmC hkp0
    rw [hnum, hden]
    field_simp
  · intro hmC hkp0 hkp1 T hlo hhi
    have hlo2 : k.melting_temperature + k.liquidus_slope / k.partition_coefficient * C
        ≤ T := by
      have : k.liquidus_slope / k.partition_coefficient * C
          = k.liquidus_slope * C / k.partition_coefficient := by ring
      linarith
    exact lever_rule_mem_unit k C T hkp0 hkp1 hmC hlo2 hhi

/-- C28, witness: default constants, `C = 0.3`, and `T = 200` between the solidus
`31581 / 310` and the liquidus `257.211`. -/
theorem lever_rule_at_phase_lines_witness :
    (set_default_constants.liquidus_slope * (3 / 10) < 0 ∧
      0 < set_default_constants.partition_coefficient ∧
      set_default_constants.partition_coefficient < 1 ∧
      set_default_constants.melting_temperature
        + set_default_constants.liquidus_slope * (3 / 10)
          / set_default_constants.partition_coefficient ≤ 200 ∧
      (200 : ℚ) ≤ T_liq set_default_constants (3 / 10)) ∧
    lever_rule set_default_constants (3 / 10) (T_liq set_default_constants (3 / 10)) = 1 ∧
    lever_rule set_default_constants (3 / 10)
      (set_default_constants.melting_temperature
        + set_default_constants.liquidus_slope * (3 / 10)
          / set_default_constants.partition_coefficient) = 0 ∧
    (0 ≤ lever_rule set_default_constants (3 / 10) 200 ∧
      lever_rule set_default_constants (3 / 10) 200 ≤ 1) :=
  have h1 : set_default_constants.liquidus_slope * (3 / 10) < 0 := by
    norm_num [set_default_constants]
  have h2 : 0 < set_default_constants.partition_coefficient := by
    norm_num [set_default_constants]
  have h3 : set_default_constants.partition_coefficient < 1 := by
    norm_num [set_default_constants]
  have h4 : set_default_constants.melting_temperature
      + set_default_constants.liquidus_slope * (3 / 10)
        / set_default_constants.partition_coefficient ≤ 200 := by
    norm_num [set_default_constants]
  have h5 : (200 : ℚ) ≤ T_liq set_default_constants (3 / 10) := by
    norm_num [T_liq, set_default_constants]
  have t := lever_rule_at_phase_lines set_default_constants (3 / 10)
  have t1 := t.1 (ne_of_lt h1) (ne_of_gt h2) (ne_of_lt h3)
  ⟨⟨h1, h2, h3, h4, h5⟩, t1.2.1, t1.2.2.1, t.2 h1 h2 h3 200 h4 h5⟩

/-- C29: whenever `liquid_mass_fraction` takes its eutectic branch (`h ≤ h_liq` and
`h_sol < h ≤ h_e`), its result is `f = (h - h_sol) / h_f` and satisfies `0 < f ≤ 1`,
for every concentration, given `0 < kappa_p < 1`, `T_e < T_m` and positive `c_s`,
`c_f`, `h_f`. -/
theorem liquid_mass_fraction_eutectic (k : Constants) (C h T : ℚ)
    (_hkp0 : 0 < k.partition_coefficient) (hkp1 : k.partition_coefficient < 1)
    (hTe : k.eutectic_temperature < k.melting_temperature)
    (hcs : 0 < k.specific_heat_solid) (hcf : 0 < k.specific_heat_fluid)
    (hhf : 0 < k.latent_heat)
    (h1 : h ≤ h_liq k C) (h2 : h_sol k C < h) (h3 : h ≤ h_e k C) :
    liquid_mass_fraction k C h T = (h - h_sol k C) / k.latent_heat ∧
    0 < (h - h_sol k C) / k.latent_heat ∧
    (h - h_sol k C) / k.latent_heat ≤ 1 := by
  have hle := eutectic_excess_le_latent_heat k C h hkp1 hTe hcs hcf hhf h3 h1
  have h0 : ¬ h > h_liq k C := not_lt.mpr h1
  have h4 : ¬ (h_e k C < h ∧ h ≤ h_liq k C) := fun hc => absurd hc.1 (not_lt.mpr h3)
  refine ⟨?_, div_pos (by linarith) hhf, ?_⟩
  · unfold liquid_mass_fraction
    simp only [if_neg h0, if_neg h4, if_pos (And.intro h2 h3)]
  · rw [div_le_one hhf]
    exact hle

/-- C29, witness: default constants, `C = 0.3`, `h = 35` on the eutectic plateau. -/
theorem liquid_mass_fraction_eutectic_witness :
    ((35 : ℚ) ≤ h_liq set_default_constants (3 / 10) ∧
      h_sol set_default_constants (3 / 10) < 35 ∧
      (35 : ℚ) ≤ h_e set_default_constants (3 / 10)) ∧
    liquid_mass_fraction set_default_constants (3 / 10) 35 287
      = (35 - h_sol set_default_constants (3 / 10)) / set_default_constants.latent_heat ∧
    0 < (35 - h_sol set_default_constants (3 / 10)) / set_default_constants.latent_heat ∧
    (35 - h_sol set_default_constants (3 / 10)) / set_default_constants.latent_heat ≤ 1 :=
  have h1 : (35 : ℚ) ≤ h_liq set_default_constants (3 / 10) := by
    rw [thresholds_at_three_tenths.2.2]
    norm_num
  have h2 : h_sol set_default_constants (3 / 10) < 35 := by
    rw [thresholds_at_three_tenths.1]
    norm_num
  have h3 : (35 : ℚ) ≤ h_e set_default_constants (3 / 10) := by
    rw [thresholds_at_three_tenths.2.1]
    norm_num
  ⟨⟨h1, h2, h3⟩,
    liquid_mass_fraction_eutectic set_default_constants (3 / 10) 35 287
      (by norm_num [set_default_constants]) (by norm_num [set_default_constants])
      (by norm_num [set_default_constants]) (by norm_num [set_default_constants])
      (by norm_num [set_default_constants]) (by norm_num [set_default_constants])
      h1 h2 h3⟩

/-- C30: for a point with `‖v‖ > 0`, `mu > 0`, `rho > 0` and Reynolds number
`Re = ‖v‖ * h * rho / (2 * mu)` in `[0, 3]` (the value that the source computes as
`‖v‖ * h / (2 * mu / rho)`), `tau_supg` equals `f * h^2 * rho / (12 * mu)`, in which
the velocity does not occur. -/
theorem tau_supg_low_reynolds (sqrt : ℚ → ℚ) (k : Constants) (v : VectorValue ℚ)
    (rho f h : ℚ)
    (hv : VectorValue.size sqrt v > 0) (hmu : 0 < k.viscosity) (hrho : 0 < rho)
    (hRe0 : 0 ≤ VectorValue.size sqrt v * h * rho / (2 * k.viscosity))
    (hRe3 : VectorValue.size sqrt v * h * rho / (2 * k.viscosity) ≤ 3) :
    VectorValue.size sqrt v * h / (2 * k.viscosity / rho)
      = VectorValue.size sqrt v * h * rho / (2 * k.viscosity) ∧
    tau_supg sqrt k v rho f h = f * h ^ 2 * rho / (12 * k.viscosity) := by
  have hvn : VectorValue.size sqrt v ≠ 0 := ne_of_gt hv
  have hmun : k.viscosity ≠ 0 := ne_of_gt hmu
  have hrn : rho ≠ 0 := ne_of_gt hrho
  have hRe : VectorValue.size sqrt v * h / (2 * k.viscosity / rho)
      = VectorValue.size sqrt v * h * rho / (2 * k.viscosity) := by
    field_simp
  refine ⟨hRe, ?_⟩
  have hcond : VectorValue.size sqrt v * h / (2 * k.viscosity / rho) ≥ 0 ∧
      VectorValue.size sqrt v * h / (2 * k.viscosity / rho) ≤ 3 := by
    rw [hRe]
    exact ⟨hRe0, hRe3⟩
  simp only [tau_supg, if_pos hcond]
  field_simp
  ring

/-- C30, witness: the velocity `(3, 4, 0)` of length `5` (integer square root), the
default viscosity `0.0023`, `rho = 10000`, `f = 1/2` and `h = 10⁻⁷`, for which
`Re = 25 / 23`. -/
theorem tau_supg_low_reynolds_witness :
    (VectorValue.size Rat.sqrt (⟨3, 4, 0⟩ : VectorValue ℚ) > 0 ∧
      0 < set_default_constants.viscosity ∧ (0 : ℚ) < 10000 ∧
      0 ≤ VectorValue.size Rat.sqrt (⟨3, 4, 0⟩ : VectorValue ℚ) * (1 / 10000000) * 10000
        / (2 * set_default_constants.viscosity) ∧
      VectorValue.size Rat.sqrt (⟨3, 4, 0⟩ : VectorValue ℚ) * (1 / 10000000) * 10000
        / (2 * set_default_constants.viscosity) ≤ 3) ∧
    tau_supg Rat.sqrt set_default_constants ⟨3, 4, 0⟩ 10000 (1 / 2) (1 / 10000000)
      = 1 / 2 * (1 / 10000000) ^ 2 * 10000 / (12 * set_default_constants.viscosity) :=
  have hsize : VectorValue.size Rat.sqrt (⟨3, 4, 0⟩ : VectorValue ℚ) = 5 := by
    have h25 : VectorValue.size_sq (⟨3, 4, 0⟩ : VectorValue ℚ) = 5 * 5 := by
      norm_num [VectorValue.size_sq]
    rw [VectorValue.size, h25, Rat.sqrt_eq]
    norm_num
  have h1 : VectorValue.size Rat.sqrt (⟨3, 4, 0⟩ : VectorValue ℚ) > 0 := by
    rw [hsize]
    norm_num
  have h2 : 0 < set_default_constants.viscosity := by norm_num [set_default_constants]
  have h3 : (0 : ℚ) < 10000 := by norm_num
  have h4 : 0 ≤ VectorValue.size Rat.sqrt (⟨3, 4, 0⟩ : VectorValue ℚ) * (1 / 10000000) * 10000
      / (2 * set_default_constants.viscosity) := by
    rw [hsize]
    norm_num [set_default_constants]
  have h5 : VectorValue.size Rat.sqrt (⟨3, 4, 0⟩ : VectorValue ℚ) * (1 / 10000000) * 10000
      / (2 * set_default_constants.viscosity) ≤ 3 := by
    rw [hsize]
    norm_num [set_default_constants]
  ⟨⟨h1, h2, h3, h4, h5⟩,
    (tau_supg_low_reynolds Rat.sqrt set_default_constants ⟨3, 4, 0⟩ 10000 (1 / 2)
      (1 / 10000000) h1 h2 h3 h4 h5).2⟩

end ThermoSystem

namespace EnergySystem

open ThermoSystem

/-! ### The branches of the temperature to enthalpy conversion -/

/-- C27: in `temperature_to_enthalpy` the condition `T_sol < T ∧ T ≤ T_e` of the eutectic
branch never holds, because `T_sol = max (T_m + m / kappa_p * C) T_e ≥ T_e`; every
temperature is converted by the liquid formula (for `T > T_liq`), by the mushy
formula (for `T_e < T ≤ T_liq`) or else by the solid formula `T * c_s`, and control
never passes the last test `T ≤ T_sol`. -/
theorem temperature_to_enthalpy_branches (k : Constants) (C T : ℚ) :
    k.eutectic_temperature ≤ T_sol k C ∧
    ¬ (T_sol k C < T ∧ T ≤ k.eutectic_temperature) ∧
    (T > T_liq k C →
      temperature_to_enthalpy k C T
        = some (1 * ((k.specific_heat_fluid - k.specific_heat_solid)
            * (T - k.eutectic_temperature) + k.latent_heat)
          + k.specific_heat_solid * T)) ∧
    (k.eutectic_temperature < T → T ≤ T_liq k C →
      temperature_to_enthalpy k C T
        = some (lever_rule k C T * ((k.specific_heat_fluid - k.specific_heat_solid)
            * (T - k.eutectic_temperature) + k.latent_heat)
          + k.specific_heat_solid * T)) ∧
    (T ≤ T_liq k C → T ≤ k.eutectic_temperature →
      T ≤ T_sol k C ∧ temperature_to_enthalpy k C T = some (T * k.specific_heat_solid)) ∧
    (∃ h, temperature_to_enthalpy k C T = some h) := by
  have hTs : k.eutectic_temperature ≤ T_sol k C := by
    simp only [T_sol]
    exact le_max_right _ _
  have hne : ¬ (T_sol k C < T ∧ T ≤ k.eutectic_temperature) := by
    rintro ⟨h1, h2⟩
    linarith
  have hliq : T > T_liq k C →
      temperature_to_enthalpy k C T
        = some (1 * ((k.specific_heat_fluid - k.specific_heat_solid)
            * (T - k.eutectic_temperature) + k.latent_heat)
          + k.specific_heat_solid * T) := by
    intro h1
    simp only [temperature_to_enthalpy, if_pos h1]
  have hmush : k.eutectic_temperature < T → T ≤ T_liq k C →
      temperature_to_enthalpy k C T
        = some (lever_rule k C T * ((k.specific_heat_fluid - k.specific_heat_solid)
            * (T - k.eutectic_temperature) + k.latent_heat)
          + k.specific_heat_solid * T) := by
    intro h1 h2
    simp only [temperature_to_enthalpy, if_neg (not_lt.mpr h2), if_pos (And.intro h1 h2)]
  have hsol : T ≤ T_liq k C → T ≤ k.eutectic_temperature →
      T ≤ T_sol k C ∧ temperature_to_enthalpy k C T = some (T * k.specific_heat_solid) := by
    intro h1 h2
    have h3 : T ≤ T_sol k C := le_trans h2 hTs
    have h4 : ¬ (k.eutectic_temperature < T ∧ T ≤ T_liq k C) :=
      fun hc => absurd hc.1 (not_lt.mpr h2)
    refine ⟨h3, ?_⟩
    simp only [temperature_to_enthalpy, if_neg (not_lt.mpr h1), if_neg h4, if_neg hne,
      if_pos h3]
  refine ⟨hTs, hne, hliq, hmush, hsol, ?_⟩
  by_cases h1 : T > T_liq k C
  · exact ⟨_, hliq h1⟩
  · by_cases h2 : k.eutectic_temperature < T
    · exact ⟨_, hmush h2 (not_lt.mp h1)⟩
    · exact ⟨_, (hsol (not_lt.mp h1) (not_lt.mp h2)).2⟩

end EnergySystem

namespace ThermoSystem

/-! ### The regime selection shared by the five evaluators -/

theorem regime_liquid (h hsol he hliq : ℚ) (h1 : h > hliq) :
    regime h hsol he hliq = some Regime.liquid := by
  simp only [regime, if_pos h1]

theorem regime_liquidus (h hsol he hliq : ℚ) (h1 : he < h) (h2 : h ≤ hliq) :
    regime h hsol he hliq = some Regime.liquidus := by
  have h0 : ¬ h > hliq := not_lt.mpr h2
  simp only [regime, if_neg h0, if_pos (And.intro h1 h2)]

theorem regime_eutectic (h hsol he hliq : ℚ) (h1 : hsol < h) (h2 : h ≤ he) (h3 : h ≤ hliq) :
    regime h hsol he hliq = some Regime.eutectic := by
  have h0 : ¬ h > hliq := not_lt.mpr h3
  have h4 : ¬ (he < h ∧ h ≤ hliq) := fun hc => absurd hc.1 (not_lt.mpr h2)
  simp only [regime, if_neg h0, if_neg h4, if_pos (And.intro h1 h2)]

theorem regime_solid (h hsol he hliq : ℚ) (h1 : h ≤ hsol) (h2 : h ≤ he) (h3 : h ≤ hliq) :
    regime h hsol he hliq = some Regime.solid := by
  have h0 : ¬ h > hliq := not_lt.mpr h3
  have h4 : ¬ (he < h ∧ h ≤ hliq) := fun hc => absurd hc.1 (not_lt.mpr h2)
  have h5 : ¬ (hsol < h ∧ h ≤ he) := fun hc => absurd hc.1 (not_lt.mpr h1)
  simp only [regime, if_neg h0, if_neg h4, if_neg h5, if_pos h1]

theorem fluid_concentration_liquid (k : Constants) (C h T : ℚ) (h1 : h > h_liq k C) :
    fluid_concentration k C h T = some C := by
  unfold fluid_concentration
  rw [temperature_liquid k C h T h1, density_liquid k C h T h1]
  simp only [Option.some_bind, if_pos h1]

theorem fluid_concentration_liquidus (k : Constants) (C h T : ℚ)
    (h1 : h_e k C < h) (h2 : h ≤ h_liq k C) :
    fluid_concentration k C h T = (temperature_iterative k C h T).bind fun T1 =>
      some ((T1 - k.melting_temperature) / k.liquidus_slope) := by
  have h0 : ¬ h > h_liq k C := not_lt.mpr h2
  unfold fluid_concentration
  rw [temperature_liquidus k C h T h1 h2, density_liquidus k C h T h1 h2]
  cases temperature_iterative k C h T with
  | none => rfl
  | some T1 => simp only [Option.some_bind, if_neg h0, if_pos (And.intro h1 h2)]

theorem fluid_concentration_eutectic (k : Constants) (C h T : ℚ)
    (h1 : h_sol k C < h) (h2 : h ≤ h_e k C) (h3 : h ≤ h_liq k C) :
    fluid_concentration k C h T
      = some ((k.eutectic_temperature - k.melting_temperature) / k.liquidus_slope) := by
  have h0 : ¬ h > h_liq k C := not_lt.mpr h3
  have h4 : ¬ (h_e k C < h ∧ h ≤ h_liq k C) := fun hc => absurd hc.1 (not_lt.mpr h2)
  unfold fluid_concentration
  rw [temperature_eutectic k C h T h1 h2 h3, density_eutectic k C h T h1 h2 h3]
  simp only [Option.some_bind, if_neg h0, if_neg h4, if_pos (And.intro h1 h2)]

theorem fluid_concentration_solid (k : Constants) (C h T : ℚ)
    (h1 : h ≤ h_sol k C) (h2 : h ≤ h_e k C) (h3 : h ≤ h_liq k C) :
    fluid_concentration k C h T = some 0 := by
  have h0 : ¬ h > h_liq k C := not_lt.mpr h3
  have h4 : ¬ (h_e k C < h ∧ h ≤ h_liq k C) := fun hc => absurd hc.1 (not_lt.mpr h2)
  have h5 : ¬ (h_sol k C < h ∧ h ≤ h_e k C) := fun hc => absurd hc.1 (not_lt.mpr h1)
  unfold fluid_concentration
  rw [temperature_solid k C h T h1 h2 h3, density_solid k C h T h1 h2 h3]
  simp only [Option.some_bind, if_neg h0, if_neg h4, if_neg h5, if_pos h1]

theorem liquid_mass_fraction_liquid (k : Constants) (C h T : ℚ) (h1 : h > h_liq k C) :
    liquid_mass_fraction k C h T = 1 := by
  simp only [liquid_mass_fraction, if_pos h1]

theorem liquid_mass_fraction_liquidus (k : Constants) (C h T : ℚ)
    (h1 : h_e k C < h) (h2 : h ≤ h_liq k C) :
    liquid_mass_fraction k C h T = lever_rule k C T := by
  have h0 : ¬ h > h_liq k C := not_lt.mpr h2
  simp only [liquid_mass_fraction, if_neg h0, if_pos (And.intro h1 h2)]

theorem liquid_mass_fraction_plateau (k : Constants) (C h T : ℚ)
    (h1 : h_sol k C < h) (h2 : h ≤ h_e k C) (h3 : h ≤ h_liq k C) :
    liquid_mass_fraction k C h T = (h - h_sol k C) / k.latent_heat := by
  have h0 : ¬ h > h_liq k C := not_lt.mpr h3
  have h4 : ¬ (h_e k C < h ∧ h ≤ h_liq k C) := fun hc => absurd hc.1 (not_lt.mpr h2)
  simp only [liquid_mass_fraction, if_neg h0, if_neg h4, if_pos (And.intro h1 h2)]

theorem liquid_mass_fraction_solid (k : Constants) (C h T : ℚ)
    (h1 : h ≤ h_sol k C) (h2 : h ≤ h_e k C) (h3 : h ≤ h_liq k C) :
    liquid_mass_fraction k C h T = 0 := by
  have h0 : ¬ h > h_liq k C := not_lt.mpr h3
  have h4 : ¬ (h_e k C < h ∧ h ≤ h_liq k C) := fun hc => absurd hc.1 (not_lt.mpr h2)
  have h5 : ¬ (h_sol k C < h ∧ h ≤ h_e k C) := fun hc => absurd hc.1 (not_lt.mpr h1)
  simp only [liquid_mass_fraction, if_neg h0, if_neg h4, if_neg h5, if_pos h1]

/-- C23: for every enthalpy `h` and arbitrary thresholds (no ordering assumed) the chain
`h > h_liq; h_e < h ≤ h_liq; h_sol < h ≤ h_e; h ≤ h_sol` selects one of the four
regimes, never none, and which one is decided by four conditions that exclude
each other; `temperature`, `density`, `epsilon`, `fluid_concentration` and
`liquid_mass_fraction` all return the value of the branch of that same regime
(`density`, `epsilon` and `fluid_concentration` once the temperature they compute
first is returned).  Hence the "undefined range" branch of `density` is not
reached: `density` returns a value whenever `temperature` does; and the final
`else` of `liquid_mass_fraction` is not reached either. -/
theorem regime_shared_by_evaluators (k : Constants) (C h Ts : ℚ) :
    (∀ hsol he hliq : ℚ, ∃ r, regime h hsol he hliq = some r ∧
      (r = Regime.liquid ↔ h > hliq) ∧
      (r = Regime.liquidus ↔ (h ≤ hliq ∧ he < h)) ∧
      (r = Regime.eutectic ↔ (h ≤ hliq ∧ h ≤ he ∧ hsol < h)) ∧
      (r = Regime.solid ↔ (h ≤ hliq ∧ h ≤ he ∧ h ≤ hsol))) ∧
    (∃ r, regime h (h_sol k C) (h_e k C) (h_liq k C) = some r ∧
      temperature k C h Ts = (match r with
        | Regime.liquid => some ((h - reference_enthalpy k) / k.specific_heat_fluid)
        | Regime.liquidus => temperature_iterative k C h Ts
        | Regime.eutectic => some k.eutectic_temperature
        | Regime.solid => some (h / k.specific_heat_solid)) ∧
      density k C h Ts = ((temperature k C h Ts).bind fun T => match r with
        | Regime.liquid => some k.density_fluid
        | Regime.liquidus =>
            some (density_mixture k.density_fluid k.density_fluid (lever_rule k C T))
        | Regime.eutectic =>
            some (density_mixture k.density_fluid k.density_fluid
              ((h - h_sol k C) / k.latent_heat))
        | Regime.solid => some k.density_fluid) ∧
      epsilon k C h Ts = ((temperature k C h Ts).bind fun T =>
        (density k C h Ts).bind fun rho => match r with
          | Regime.liquid => some 1
          | Regime.liquidus => some (rho * lever_rule k C T / k.density_fluid)
          | Regime.eutectic =>
              some ((rho - k.density_solid) / (k.density_fluid - k.density_solid))
          | Regime.solid => some 0) ∧
      fluid_concentration k C h Ts = ((temperature k C h Ts).bind fun T =>
        (density k C h Ts).bind fun _ => match r with
          | Regime.liquid => some C
          | Regime.liquidus => some ((T - k.melting_temperature) / k.liquidus_slope)
          | Regime.eutectic =>
              some ((k.eutectic_temperature - k.melting_temperature) / k.liquidus_slope)
          | Regime.solid => some 0) ∧
      liquid_mass_fraction k C h Ts = (match r with
        | Regime.liquid => 1
        | Regime.liquidus => lever_rule k C Ts
        | Regime.eutectic => (h - h_sol k C) / k.latent_heat
        | Regime.solid => 0)) ∧
    (∀ T, temperature k C h Ts = some T → ∃ rho, density k C h Ts = some rho) := by
  refine ⟨?_, ?_, ?_⟩
  · intro hsol he hliq
    by_cases h1 : h > hliq
    · refine ⟨Regime.liquid, regime_liquid h hsol he hliq h1, ?_, ?_, ?_, ?_⟩
      · exact ⟨fun _ => h1, fun _ => rfl⟩
      · exact ⟨(fun hc => by cases hc), fun hc => absurd h1 (not_lt.mpr hc.1)⟩
      · exact ⟨(fun hc => by cases hc), fun hc => absurd h1 (not_lt.mpr hc.1)⟩
      · exact ⟨(fun hc => by cases hc), fun hc => absurd h1 (not_lt.mpr hc.1)⟩
    · have h3 := not_lt.mp h1
      by_cases h2 : he < h
      · refine ⟨Regime.liquidus, regime_liquidus h hsol he hliq h2 h3, ?_, ?_, ?_, ?_⟩
        · exact ⟨(fun hc => by cases hc), fun hc => absurd hc h1⟩
        · exact ⟨fun _ => ⟨h3, h2⟩, fun _ => rfl⟩
        · exact ⟨(fun hc => by cases hc), fun hc => absurd h2 (not_lt.mpr hc.2.1)⟩
        · exact ⟨(fun hc => by cases hc), fun hc => absurd h2 (not_lt.mpr hc.2.1)⟩
      · have h6 := not_lt.mp h2
        by_cases h5 : hsol < h
        · refine ⟨Regime.eutectic, regime_eutectic h hsol he hliq h5 h6 h3, ?_, ?_, ?_, ?_⟩
          · exact ⟨(fun hc => by cases hc), fun hc => absurd hc h1⟩
          · exact ⟨(fun hc => by cases hc), fun hc => absurd hc.2 h2⟩
          · exact ⟨fun _ => ⟨h3, h6, h5⟩, fun _ => rfl⟩
          · exact ⟨(fun hc => by cases hc), fun hc => absurd h5 (not_lt.mpr hc.2.2)⟩
        · have h7 := not_lt.mp h5
          refine ⟨Regime.solid, regime_solid h hsol he hliq h7 h6 h3, ?_, ?_, ?_, ?_⟩
          · exact ⟨(fun hc => by cases hc), fun hc => absurd hc h1⟩
          · exact ⟨(fun hc => by cases hc), fun hc => absurd hc.2 h2⟩
          · exact ⟨(fun hc => by cases hc), fun hc => absurd hc.2.2 h5⟩
          · exact ⟨fun _ => ⟨h3, h6, h7⟩, fun _ => rfl⟩
  · by_cases h1 : h > h_liq k C
    · refine ⟨Regime.liquid, regime_liquid _ _ _ _ h1, temperature_liquid k C h Ts h1, ?_, ?_,
        ?_, liquid_mass_fraction_liquid k C h Ts h1⟩
      · rw [density_liquid k C h Ts h1, temperature_liquid k C h Ts h1]
        simp only [Option.some_bind]
      · rw [epsilon_liquid k C h Ts h1, temperature_liquid k C h Ts h1,
          density_liquid k C h Ts h1]
        simp only [Option.some_bind]
      · rw [fluid_concentration_liquid k C h Ts h1, temperature_liquid k C h Ts h1,
          density_liquid k C h Ts h1]
        simp only [Option.some_bind]
    · have h3 := not_lt.mp h1
      by_cases h2 : h_e k C < h
      · refine ⟨Regime.liquidus, regime_liquidus _ _ _ _ h2 h3,
          temperature_liquidus k C h Ts h2 h3, ?_, ?_, ?_,
          liquid_mass_fraction_liquidus k C h Ts h2 h3⟩
        · rw [density_liquidus k C h Ts h2 h3, temperature_liquidus k C h Ts h2 h3]
        · rw [epsilon_liquidus k C h Ts h2 h3, density_liquidus k C h Ts h2 h3,
            temperature_liquidus k C h Ts h2 h3]
          cases temperature_iterative k C h Ts with
          | none => simp only [Option.none_bind]
          | some T1 => simp only [Option.some_bind]
        · rw [fluid_concentration_liquidus k C h Ts h2 h3, density_liquidus k C h Ts h2 h3,
            temperature_liquidus k C h Ts h2 h3]
          cases temperature_iterative k C h Ts with
          | none => simp only [Option.none_bind]
          | some T1 => simp only [Option.some_bind]
      · have h6 := not_lt.mp h2
        by_cases h5 : h_sol k C < h
        · refine ⟨Regime.eutectic, regime_eutectic _ _ _ _ h5 h6 h3,
            temperature_eutectic k C h Ts h5 h6 h3, ?_, ?_, ?_,
            liquid_mass_fraction_plateau k C h Ts h5 h6 h3⟩
          · rw [density_eutectic k C h Ts h5 h6 h3, temperature_eutectic k C h Ts h5 h6 h3]
            simp only [Option.some_bind]
          · rw [epsilon_eutectic k C h Ts h5 h6 h3, density_eutectic k C h Ts h5 h6 h3,
              temperature_eutectic k C h Ts h5 h6 h3]
            simp only [Option.some_bind]
          · rw [fluid_concentration_eutectic k C h Ts h5 h6 h3,
              density_eutectic k C h Ts h5 h6 h3, temperature_eutectic k C h Ts h5 h6 h3]
            simp only [Option.some_bind]
        · have h7 := not_lt.mp h5
          refine ⟨Regime.solid, regime_solid _ _ _ _ h7 h6 h3,
            temperature_solid k C h Ts h7 h6 h3, ?_, ?_, ?_,
            liquid_mass_fraction_solid k C h Ts h7 h6 h3⟩
          · rw [density_solid k C h Ts h7 h6 h3, temperature_solid k C h Ts h7 h6 h3]
            simp only [Option.some_bind]
          · rw [epsilon_solid k C h Ts h7 h6 h3, density_solid k C h Ts h7 h6 h3,
              temperature_solid k C h Ts h7 h6 h3]
            simp only [Option.some_bind]
          · rw [fluid_concentration_solid k C h Ts h7 h6 h3, density_solid k C h Ts h7 h6 h3,
              temperature_solid k C h Ts h7 h6 h3]
            simp only [Option.some_bind]
  · intro T hT
    by_cases h1 : h > h_liq k C
    · exact ⟨_, density_liquid k C h Ts h1⟩
    · have h3 := not_lt.mp h1
      by_cases h2 : h_e k C < h
      · rw [temperature_liquidus k C h Ts h2 h3] at hT
        rw [density_liquidus k C h Ts h2 h3, hT]
        exact ⟨_, rfl⟩
      · have h6 := not_lt.mp h2
        by_cases h5 : h_sol k C < h
        · exact ⟨_, density_eutectic k C h Ts h5 h6 h3⟩
        · exact ⟨_, density_solid k C h Ts (not_lt.mp h5) h6 h3⟩

end ThermoSystem

/-! ### Arithmetic of `ExtendedNumber` on finite values -/

namespace ExtendedNumber

theorem finite_add (x y : ℚ) : finite x + finite y = finite (x + y) := rfl

theorem finite_sub (x y : ℚ) : finite x - finite y = finite (x - y) := by
  show finite (x + -y) = finite (x - y)
  rw [sub_eq_add_neg]

theorem finite_mul (x y : ℚ) : finite x * finite y = finite (x * y) := rfl

theorem finite_div (x y : ℚ) (hy : y ≠ 0) : finite x / finite y = finite (x / y) := by
  show (if y = 0 then signed_inf true x else finite (x / y)) = finite (x / y)
  rw [if_neg hy]

theorem finite_div_zero (x : ℚ) : finite x / finite 0 = signed_inf true x := by
  show (if (0 : ℚ) = 0 then signed_inf true x else finite (x / 0)) = signed_inf true x
  rw [if_pos rfl]

theorem finite_lt (x y : ℚ) : finite x < finite y ↔ x < y := by
  show decide (x < y) = true ↔ x < y
  exact decide_eq_true_iff

theorem finite_le (x y : ℚ) : finite x ≤ finite y ↔ x ≤ y := by
  show decide (x ≤ y) = true ↔ x ≤ y
  exact decide_eq_true_iff

theorem finite_abs (x : ℚ) : ExtendedNumber.abs (finite x) = finite |x| := rfl

theorem max_finite (x y : ℚ) :
    ExtendedNumber.max (finite x) (finite y) = finite (Max.max x y) := by
  unfold ExtendedNumber.max
  by_cases hxy : x < y
  · rw [if_pos ((finite_lt x y).mpr hxy), max_eq_right (le_of_lt hxy)]
  · rw [if_neg (fun hc => hxy ((finite_lt x y).mp hc)), max_eq_left (not_lt.mp hxy)]

/-- The product or quotient by zero of a value that is not zero is never finite. -/
theorem signed_inf_ne_finite (b : Bool) (x y : ℚ) : signed_inf b x ≠ finite y := by
  unfold signed_inf
  split_ifs <;> exact fun hc => by cases hc

/-- A mixture `1 / (f/p + (1-f)/p)` of a value `f` that is not finite is `NaN`. -/
theorem mixture_of_not_finite (f : ExtendedNumber) (p : ℚ) (hf : ∀ x, f ≠ finite x) :
    finite 1 / (f / finite p + (finite 1 - f) / finite p) = nan := by
  cases f with
  | finite x => exact absurd rfl (hf x)
  | pos_inf =>
    show div (finite 1) (add (div pos_inf (finite p)) (div (add (finite 1) (neg pos_inf))
      (finite p))) = nan
    simp only [neg, add, div]
    split_ifs <;> rfl
  | neg_inf =>
    show div (finite 1) (add (div neg_inf (finite p)) (div (add (finite 1) (neg neg_inf))
      (finite p))) = nan
    simp only [neg, add, div]
    split_ifs <;> rfl
  | nan => rfl

end ExtendedNumber

namespace ThermoSystem

namespace Extended

open ExtendedNumber

/-! ### The extended evaluator on regular inputs -/

theorem reference_enthalpy_eq (k : Constants) :
    reference_enthalpy k = finite (ThermoSystem.reference_enthalpy k) := by
  simp only [reference_enthalpy, ThermoSystem.reference_enthalpy, finite_sub, finite_mul,
    finite_add]

theorem T_liq_eq (k : Constants) (C : ℚ) : T_liq k C = finite (ThermoSystem.T_liq k C) := by
  simp only [T_liq, ThermoSystem.T_liq, finite_mul, finite_add]

theorem T_sol_eq (k : Constants) (C : ℚ) (hkp0 : k.partition_coefficient ≠ 0) :
    T_sol k C = finite (ThermoSystem.T_sol k C) := by
  simp only [T_sol, ThermoSystem.T_sol, finite_div _ _ hkp0, finite_mul, finite_add,
    max_finite]

theorem h_liq_eq (k : Constants) (C : ℚ) : h_liq k C = finite (ThermoSystem.h_liq k C) := by
  simp only [h_liq, ThermoSystem.h_liq, T_liq_eq, reference_enthalpy_eq, finite_mul,
    finite_add]

theorem h_sol_eq (k : Constants) (C : ℚ) (hkp0 : k.partition_coefficient ≠ 0) :
    h_sol k C = finite (ThermoSystem.h_sol k C) := by
  simp only [h_sol, ThermoSystem.h_sol, T_sol_eq k C hkp0, finite_mul]

/-- Away from `T_m` (and for `kappa_p ≠ 1`) the lever rule is the finite value of the
exact model. -/
theorem lever_rule_finite (k : Constants) (C T : ℚ) (hkp1 : k.partition_coefficient ≠ 1)
    (hT : T ≠ k.melting_temperature) :
    lever_rule k C (finite T) = finite (ThermoSystem.lever_rule k C T) := by
  have h1 : 1 - k.partition_coefficient ≠ 0 := fun hc => hkp1 (by linarith)
  have h2 : T - k.melting_temperature ≠ 0 := sub_ne_zero.mpr hT
  simp only [lever_rule, ThermoSystem.lever_rule, T_liq_eq, finite_sub, finite_div _ _ h1,
    finite_mul, finite_div _ _ h2]

theorem h_e_eq (k : Constants) (C : ℚ) (hkp1 : k.partition_coefficient ≠ 1)
    (hTe : k.eutectic_temperature ≠ k.melting_temperature) :
    h_e k C = finite (ThermoSystem.h_e k C) := by
  simp only [h_e, ThermoSystem.h_e, lever_rule_finite k C _ hkp1 hTe, finite_mul, finite_add]

/-- At `T_m`, and at an estimate that is not finite, the lever rule is not finite. -/
theorem lever_rule_not_finite (k : Constants) (C : ℚ) (v : ExtendedNumber)
    (hkp1 : k.partition_coefficient ≠ 1)
    (hv : ∀ T, v = finite T → T = k.melting_temperature) :
    ∀ x, lever_rule k C v ≠ finite x := by
  have h1 : 1 - k.partition_coefficient ≠ 0 := fun hc => hkp1 (by linarith)
  have hc : (1 : ℚ) / (1 - k.partition_coefficient) ≠ 0 := one_div_ne_zero h1
  intro x
  cases v with
  | finite T =>
    rw [hv T rfl]
    simp only [lever_rule, T_liq_eq, finite_sub, finite_div _ _ h1, finite_mul, sub_self,
      finite_div_zero]
    show add (finite 1) (neg (signed_inf true _)) ≠ finite x
    unfold signed_inf
    split_ifs <;> exact fun hc => by cases hc
  | pos_inf =>
    simp only [lever_rule, T_liq_eq, finite_sub, finite_div _ _ h1]
    show add (finite 1) (neg (div (mul (finite _) (add pos_inf (neg (finite _))))
      (add pos_inf (neg (finite _))))) ≠ finite x
    simp only [neg, add, mul, signed_inf, if_neg hc]
    split_ifs <;> exact fun hc => by cases hc
  | neg_inf =>
    simp only [lever_rule, T_liq_eq, finite_sub, finite_div _ _ h1]
    show add (finite 1) (neg (div (mul (finite _) (add neg_inf (neg (finite _))))
      (add neg_inf (neg (finite _))))) ≠ finite x
    simp only [neg, add, mul, signed_inf, if_neg hc]
    split_ifs <;> exact fun hc => by cases hc
  | nan =>
    simp only [lever_rule, T_liq_eq, finite_sub, finite_div _ _ h1]
    show nan ≠ finite x
    exact fun hc => by cases hc

end Extended

end ThermoSystem

namespace ExtendedNumber

/-- The mixture `1 / (f/p + (1-f)/p)` of a finite `f`, for `p ≠ 0`, is `p`. -/
theorem mixture_of_finite (p f : ℚ) (hp : p ≠ 0) :
    finite 1 / (finite f / finite p + (finite 1 - finite f) / finite p) = finite p := by
  have hs : f / p + (1 - f) / p ≠ 0 := by
    have hsum : f / p + (1 - f) / p = 1 / p := by
      field_simp
    rw [hsum]
    exact one_div_ne_zero hp
  rw [finite_div _ _ hp, finite_sub, finite_div _ _ hp, finite_add, finite_div _ _ hs]
  exact congrArg finite (ThermoSystem.density_mixture_self p f hp)

theorem not_nan_gt (a : ExtendedNumber) : ¬ (nan > a) := by
  show ¬ (lt a nan = true)
  cases a <;> exact fun hc => by cases hc

theorem mul_finite_not_finite (f : ExtendedNumber) (q : ℚ) (hf : ∀ x, f ≠ finite x) :
    ∀ x, f * finite q ≠ finite x := by
  intro x
  cases f with
  | finite y => exact absurd rfl (hf y)
  | pos_inf => exact signed_inf_ne_finite true q x
  | neg_inf => exact signed_inf_ne_finite false q x
  | nan => exact fun hc => by cases hc

theorem finite_sub_not_finite (q : ℚ) (f : ExtendedNumber) (hf : ∀ x, f ≠ finite x) :
    ∀ x, finite q - f ≠ finite x := by
  intro x
  cases f with
  | finite y => exact absurd rfl (hf y)
  | pos_inf => exact fun hc => by cases hc
  | neg_inf => exact fun hc => by cases hc
  | nan => exact fun hc => by cases hc

theorem add_not_finite (a b : ExtendedNumber) (ha : ∀ x, a ≠ finite x)
    (hb : ∀ x, b ≠ finite x) : ∀ x, a + b ≠ finite x := by
  intro x
  cases a with
  | finite y => exact absurd rfl (ha y)
  | pos_inf =>
    cases b with
    | finite y => exact absurd rfl (hb y)
    | pos_inf => exact fun hc => by cases hc
    | neg_inf => exact fun hc => by cases hc
    | nan => exact fun hc => by cases hc
  | neg_inf =>
    cases b with
    | finite y => exact absurd rfl (hb y)
    | pos_inf => exact fun hc => by cases hc
    | neg_inf => exact fun hc => by cases hc
    | nan => exact fun hc => by cases hc
  | nan => exact fun hc => by cases hc

theorem div_not_finite (a b : ExtendedNumber) (ha : ∀ x, a ≠ finite x)
    (hb : ∀ x, b ≠ finite x) : a / b = nan := by
  cases a with
  | finite y => exact absurd rfl (ha y)
  | pos_inf =>
    cases b with
    | finite y => exact absurd rfl (hb y)
    | pos_inf => rfl
    | neg_inf => rfl
    | nan => rfl
  | neg_inf =>
    cases b with
    | finite y => exact absurd rfl (hb y)
    | pos_inf => rfl
    | neg_inf => rfl
    | nan => rfl
  | nan => rfl

end ExtendedNumber

namespace ThermoSystem

namespace Extended

open ExtendedNumber

/-! ### The iteration over `ExtendedNumber` -/

theorem extended_loop_succ (k : Constants) (C h : ℚ) (fuel : ℕ) (T err : ExtendedNumber)
    (cnt : ℕ) :
    temperature_loop k C h (fuel + 1) T err cnt
      = if err > finite k.temp_min_error then
          if (cnt + 1) % 2 ^ 32 > k.temp_max_iter then
            some (temperature_update k C h T)
          else
            temperature_loop k C h fuel (temperature_update k C h T)
              (ExtendedNumber.abs (temperature_update k C h T - T) / T) ((cnt + 1) % 2 ^ 32)
        else some T := by
  rw [temperature_loop]

/-- With a cap below the largest `unsigned int` the loop stops within
`temp_max_iter + 1 - cnt` further tests. -/
theorem extended_loop_bounded (k : Constants) (C h : ℚ)
    (hmax : k.temp_max_iter + 1 < 2 ^ 32) :
    ∀ (j : ℕ) (T err : ExtendedNumber) (cnt : ℕ), cnt ≤ k.temp_max_iter →
      k.temp_max_iter + 1 - cnt ≤ j →
      ∃ v, ∀ fuel, j ≤ fuel → temperature_loop k C h fuel T err cnt = some v := by
  intro j
  induction j with
  | zero =>
    intro T err cnt hc hj
    omega
  | succ j ih =>
    intro T err cnt hc hj
    have hmod : (cnt + 1) % 2 ^ 32 = cnt + 1 := Nat.mod_eq_of_lt (by omega)
    by_cases herr : err > finite k.temp_min_error
    · by_cases hcnt : (cnt + 1) % 2 ^ 32 > k.temp_max_iter
      · refine ⟨temperature_update k C h T, ?_⟩
        intro fuel hfuel
        obtain ⟨f, rfl⟩ : ∃ f, fuel = f + 1 := ⟨fuel - 1, by omega⟩
        rw [extended_loop_succ, if_pos herr, if_pos hcnt]
      · have hcnt2 : ¬ cnt + 1 > k.temp_max_iter := by
          rw [hmod] at hcnt
          exact hcnt
        obtain ⟨v, hloop⟩ := ih (temperature_update k C h T)
          (ExtendedNumber.abs (temperature_update k C h T - T) / T) (cnt + 1) (by omega)
          (by omega)
        refine ⟨v, ?_⟩
        intro fuel hfuel
        obtain ⟨f, rfl⟩ : ∃ f, fuel = f + 1 := ⟨fuel - 1, by omega⟩
        rw [extended_loop_succ, if_pos herr, if_neg hcnt, hmod, hloop f (by omega)]
    · refine ⟨T, ?_⟩
      intro fuel hfuel
      obtain ⟨f, rfl⟩ : ∃ f, fuel = f + 1 := ⟨fuel - 1, by omega⟩
      rw [extended_loop_succ, if_neg herr]

theorem extended_iterative_isSome (k : Constants) (C h T : ℚ)
    (hmax : k.temp_max_iter + 1 < 2 ^ 32) :
    ∃ v, temperature_iterative k C h T = some v := by
  obtain ⟨v, hv⟩ := extended_loop_bounded k C h hmax (k.temp_max_iter + 1) (finite T)
    (finite 1) 0 (Nat.zero_le _) (by omega)
  exact ⟨v, hv _ (le_refl _)⟩

/-- An update from an estimate whose lever rule is not finite is `NaN`. -/
theorem extended_update_of_not_finite (k : Constants) (C h : ℚ) (T : ExtendedNumber)
    (hf : ∀ x, lever_rule k C T ≠ finite x) : temperature_update k C h T = nan := by
  unfold temperature_update
  rw [reference_enthalpy_eq]
  exact div_not_finite _ _
    (finite_sub_not_finite _ _ (mul_finite_not_finite _ _ hf))
    (add_not_finite _ _ (mul_finite_not_finite _ _ hf)
      (mul_finite_not_finite _ _ (finite_sub_not_finite _ _ hf)))

/-- Once an update is `NaN` the loop returns `NaN`: at once if the cap is reached, at
the next test of `err > err_min` otherwise. -/
theorem extended_loop_of_update_nan (k : Constants) (C h : ℚ) (T err : ExtendedNumber)
    (cnt : ℕ) (hupd : temperature_update k C h T = nan)
    (herr : err > finite k.temp_min_error) :
    (∀ fuel, temperature_loop k C h (fuel + 2) T err cnt = some nan) ∧
    ((cnt + 1) % 2 ^ 32 > k.temp_max_iter →
      temperature_loop k C h 1 T err cnt = some nan) := by
  constructor
  · intro fuel
    rw [extended_loop_succ, if_pos herr, hupd]
    by_cases hcnt : (cnt + 1) % 2 ^ 32 > k.temp_max_iter
    · rw [if_pos hcnt]
    · have herr2 : ExtendedNumber.abs (nan - T) / T = nan := rfl
      rw [if_neg hcnt, extended_loop_succ, herr2, if_neg (not_nan_gt _)]
  · intro hcnt
    rw [extended_loop_succ, if_pos herr, hupd, if_pos hcnt]

/-- Started at the melting temperature (with `kappa_p ≠ 1` and a tolerance below `1`)
`temperature_iterative` returns `NaN`. -/
theorem extended_iterative_at_melting_temperature (k : Constants) (C h : ℚ)
    (hkp1 : k.partition_coefficient ≠ 1) (htol : k.temp_min_error < 1) :
    temperature_iterative k C h k.melting_temperature = some nan := by
  have hupd := extended_update_of_not_finite k C h (finite k.melting_temperature)
    (lever_rule_not_finite k C _ hkp1 (fun T hT => (finite.inj hT).symm))
  have herr : finite 1 > finite k.temp_min_error := (finite_lt _ _).mpr htol
  have hloop := extended_loop_of_update_nan k C h _ _ 0 hupd herr
  unfold temperature_iterative
  by_cases hcap : 1 ≤ k.temp_max_iter
  · obtain ⟨f, hf⟩ : ∃ f, k.temp_max_iter + 1 = f + 2 := ⟨k.temp_max_iter - 1, by omega⟩
    rw [hf]
    exact hloop.1 f
  · have h0 : k.temp_max_iter = 0 := by omega
    rw [h0]
    exact hloop.2 (by rw [h0]; norm_num)

end Extended

end ThermoSystem

namespace ThermoSystem

namespace Extended

open ExtendedNumber

/-! ### The regimes of the extended `temperature` and `density` -/

theorem extended_temperature_liquid (k : Constants) (C h Ts : ℚ)
    (h1 : h > ThermoSystem.h_liq k C) :
    temperature k C h Ts
      = some ((finite h - reference_enthalpy k) / finite k.specific_heat_fluid) := by
  have c1 : finite h > h_liq k C := by
    rw [h_liq_eq]
    exact (finite_lt _ _).mpr h1
  simp only [temperature, if_pos c1]

theorem extended_temperature_liquidus (k : Constants) (C h Ts : ℚ)
    (hkp1 : k.partition_coefficient ≠ 1)
    (hTe : k.eutectic_temperature ≠ k.melting_temperature)
    (h1 : ThermoSystem.h_e k C < h) (h2 : h ≤ ThermoSystem.h_liq k C) :
    temperature k C h Ts = temperature_iterative k C h Ts := by
  have c1 : ¬ finite h > h_liq k C := by
    rw [h_liq_eq]
    exact fun hc => absurd ((finite_lt _ _).mp hc) (not_lt.mpr h2)
  have c2 : h_e k C < finite h ∧ finite h ≤ h_liq k C := by
    rw [h_e_eq k C hkp1 hTe, h_liq_eq]
    exact ⟨(finite_lt _ _).mpr h1, (finite_le _ _).mpr h2⟩
  simp only [temperature, if_neg c1, if_pos c2]

theorem extended_temperature_eutectic (k : Constants) (C h Ts : ℚ)
    (hkp0 : k.partition_coefficient ≠ 0) (hkp1 : k.partition_coefficient ≠ 1)
    (hTe : k.eutectic_temperature ≠ k.melting_temperature)
    (h1 : ThermoSystem.h_sol k C < h) (h2 : h ≤ ThermoSystem.h_e k C)
    (h3 : h ≤ ThermoSystem.h_liq k C) :
    temperature k C h Ts = some (finite k.eutectic_temperature) := by
  have c1 : ¬ finite h > h_liq k C := by
    rw [h_liq_eq]
    exact fun hc => absurd ((finite_lt _ _).mp hc) (not_lt.mpr h3)
  have c2 : ¬ (h_e k C < finite h ∧ finite h ≤ h_liq k C) := by
    rw [h_e_eq k C hkp1 hTe]
    exact fun hc => absurd ((finite_lt _ _).mp hc.1) (not_lt.mpr h2)
  have c3 : h_sol k C < finite h ∧ finite h ≤ h_e k C := by
    rw [h_sol_eq k C hkp0, h_e_eq k C hkp1 hTe]
    exact ⟨(finite_lt _ _).mpr h1, (finite_le _ _).mpr h2⟩
  simp only [temperature, if_neg c1, if_neg c2, if_pos c3]

theorem extended_temperature_solid (k : Constants) (C h Ts : ℚ)
    (hkp0 : k.partition_coefficient ≠ 0) (hkp1 : k.partition_coefficient ≠ 1)
    (hTe : k.eutectic_temperature ≠ k.melting_temperature)
    (h1 : h ≤ ThermoSystem.h_sol k C) (h2 : h ≤ ThermoSystem.h_e k C)
    (h3 : h ≤ ThermoSystem.h_liq k C) :
    temperature k C h Ts = some (finite h / finite k.specific_heat_solid) := by
  have c1 : ¬ finite h > h_liq k C := by
    rw [h_liq_eq]
    exact fun hc => absurd ((finite_lt _ _).mp hc) (not_lt.mpr h3)
  have c2 : ¬ (h_e k C < finite h ∧ finite h ≤ h_liq k C) := by
    rw [h_e_eq k C hkp1 hTe]
    exact fun hc => absurd ((finite_lt _ _).mp hc.1) (not_lt.mpr h2)
  have c3 : ¬ (h_sol k C < finite h ∧ finite h ≤ h_e k C) := by
    rw [h_sol_eq k C hkp0]
    exact fun hc => absurd ((finite_lt _ _).mp hc.1) (not_lt.mpr h1)
  have c4 : finite h ≤ h_sol k C := by
    rw [h_sol_eq k C hkp0]
    exact (finite_le _ _).mpr h1
  simp only [temperature, if_neg c1, if_neg c2, if_neg c3, if_pos c4]

theorem extended_density_liquid (k : Constants) (C h Ts : ℚ)
    (h1 : h > ThermoSystem.h_liq k C) :
    density k C h Ts = some (finite k.density_fluid) := by
  have c1 : finite h > h_liq k C := by
    rw [h_liq_eq]
    exact (finite_lt _ _).mpr h1
  unfold density
  rw [extended_temperature_liquid k C h Ts h1]
  simp only [Option.some_bind, if_pos c1]

theorem extended_density_liquidus (k : Constants) (C h Ts : ℚ)
    (hkp1 : k.partition_coefficient ≠ 1)
    (hTe : k.eutectic_temperature ≠ k.melting_temperature)
    (h1 : ThermoSystem.h_e k C < h) (h2 : h ≤ ThermoSystem.h_liq k C)
    (v : ExtendedNumber) (hv : temperature k C h Ts = some v) :
    density k C h Ts
      = some (finite 1 / (lever_rule k C v / finite k.density_fluid
          + (finite 1 - lever_rule k C v) / finite k.density_fluid)) := by
  have c1 : ¬ finite h > h_liq k C := by
    rw [h_liq_eq]
    exact fun hc => absurd ((finite_lt _ _).mp hc) (not_lt.mpr h2)
  have c2 : h_e k C < finite h ∧ finite h ≤ h_liq k C := by
    rw [h_e_eq k C hkp1 hTe, h_liq_eq]
    exact ⟨(finite_lt _ _).mpr h1, (finite_le _ _).mpr h2⟩
  unfold density
  rw [hv]
  simp only [Option.some_bind, if_neg c1, if_pos c2]

theorem extended_density_eutectic (k : Constants) (C h Ts : ℚ)
    (hpf : k.density_fluid ≠ 0) (hhf : k.latent_heat ≠ 0)
    (hkp0 : k.partition_coefficient ≠ 0) (hkp1 : k.partition_coefficient ≠ 1)
    (hTe : k.eutectic_temperature ≠ k.melting_temperature)
    (h1 : ThermoSystem.h_sol k C < h) (h2 : h ≤ ThermoSystem.h_e k C)
    (h3 : h ≤ ThermoSystem.h_liq k C) :
    density k C h Ts = some (finite k.density_fluid) := by
  have c1 : ¬ finite h > h_liq k C := by
    rw [h_liq_eq]
    exact fun hc => absurd ((finite_lt _ _).mp hc) (not_lt.mpr h3)
  have c2 : ¬ (h_e k C < finite h ∧ finite h ≤ h_liq k C) := by
    rw [h_e_eq k C hkp1 hTe]
    exact fun hc => absurd ((finite_lt _ _).mp hc.1) (not_lt.mpr h2)
  have c3 : h_sol k C < finite h ∧ finite h ≤ h_e k C := by
    rw [h_sol_eq k C hkp0, h_e_eq k C hkp1 hTe]
    exact ⟨(finite_lt _ _).mpr h1, (finite_le _ _).mpr h2⟩
  unfold density
  rw [extended_temperature_eutectic k C h Ts hkp0 hkp1 hTe h1 h2 h3]
  simp only [Option.some_bind, if_neg c1, if_neg c2, if_pos c3]
  rw [h_sol_eq k C hkp0, finite_sub, finite_div _ _ hhf, mixture_of_finite _ _ hpf]

theorem extended_density_solid (k : Constants) (C h Ts : ℚ)
    (hkp0 : k.partition_coefficient ≠ 0) (hkp1 : k.partition_coefficient ≠ 1)
    (hTe : k.eutectic_temperature ≠ k.melting_temperature)
    (h1 : h ≤ ThermoSystem.h_sol k C) (h2 : h ≤ ThermoSystem.h_e k C)
    (h3 : h ≤ ThermoSystem.h_liq k C) :
    density k C h Ts = some (finite k.density_fluid) := by
  have c1 : ¬ finite h > h_liq k C := by
    rw [h_liq_eq]
    exact fun hc => absurd ((finite_lt _ _).mp hc) (not_lt.mpr h3)
  have c2 : ¬ (h_e k C < finite h ∧ finite h ≤ h_liq k C) := by
    rw [h_e_eq k C hkp1 hTe]
    exact fun hc => absurd ((finite_lt _ _).mp hc.1) (not_lt.mpr h2)
  have c3 : ¬ (h_sol k C < finite h ∧ finite h ≤ h_e k C) := by
    rw [h_sol_eq k C hkp0]
    exact fun hc => absurd ((finite_lt _ _).mp hc.1) (not_lt.mpr h1)
  have c4 : finite h ≤ h_sol k C := by
    rw [h_sol_eq k C hkp0]
    exact (finite_le _ _).mpr h1
  unfold density
  rw [extended_temperature_solid k C h Ts hkp0 hkp1 hTe h1 h2 h3]
  simp only [Option.some_bind, if_neg c1, if_neg c2, if_neg c3, if_pos c4]

end Extended

end ThermoSystem

namespace ThermoSystem

namespace Extended

open ExtendedNumber

/-! ### The density over `ExtendedNumber` -/

/-- Away from `T_m`, with `kappa_p ≠ 1` and a divisor `f*cf + (1-f)*cs` that is not zero,
the update is the finite value of the exact model. -/
theorem extended_update_finite (k : Constants) (C h T : ℚ)
    (hkp1 : k.partition_coefficient ≠ 1) (hT : T ≠ k.melting_temperature)
    (hden : ThermoSystem.lever_rule k C T * k.specific_heat_fluid
      + (1 - ThermoSystem.lever_rule k C T) * k.specific_heat_solid ≠ 0) :
    temperature_update k C h (finite T) = finite (ThermoSystem.temperature_update k C h T) := by
  simp only [temperature_update, ThermoSystem.temperature_update,
    lever_rule_finite k C T hkp1 hT, reference_enthalpy_eq, finite_mul, finite_sub,
    finite_add, finite_div _ _ hden]

/-- In the liquidus regime `lever_rule` at `T_m` is `-inf` (`kappa_p < 1`, `m*C < 0`). -/
theorem lever_rule_at_melting_temperature (k : Constants) (C : ℚ)
    (hkp1 : k.partition_coefficient < 1) (hmC : k.liquidus_slope * C < 0) :
    lever_rule k C (finite k.melting_temperature) = neg_inf := by
  have h1 : 1 - k.partition_coefficient ≠ 0 := by linarith
  have hpos : 0 < 1 / (1 - k.partition_coefficient)
      * (k.melting_temperature - ThermoSystem.T_liq k C) := by
    apply mul_pos
    · exact one_div_pos.mpr (by linarith)
    · simp only [ThermoSystem.T_liq]
      linarith
  simp only [lever_rule, T_liq_eq, finite_sub, finite_div _ _ h1, finite_mul, sub_self,
    finite_div_zero]
  have hs : signed_inf true (1 / (1 - k.partition_coefficient)
      * (k.melting_temperature - ThermoSystem.T_liq k C)) = pos_inf := by
    unfold signed_inf
    rw [if_neg (ne_of_gt hpos), if_pos (decide_eq_true hpos)]
  rw [hs]
  rfl

/-- For `C = 0.3`, `h = 50` and stored temperature `287` the extended solver returns the
finite value of the exact model, `318.15...`. -/
theorem extended_iterative_from_287 :
    temperature_iterative set_default_constants (3 / 10) 50 287
      = some (finite (98774281188710216 / 310461795021527)) := by
  have hkp1 : set_default_constants.partition_coefficient ≠ 1 := by
    norm_num [set_default_constants]
  have hmax : set_default_constants.temp_max_iter + 1 = 99 + 1 + 1 := rfl
  have hcap : set_default_constants.temp_max_iter = 100 := rfl
  have htol : set_default_constants.temp_min_error = 1 / 1000 := rfl
  have hu1 : temperature_update set_default_constants (3 / 10) 50 (finite 287)
      = finite (-1486544391 / 8946538) := by
    rw [extended_update_finite _ _ _ _ hkp1 (by norm_num [set_default_constants])
      (by norm_num [ThermoSystem.lever_rule, ThermoSystem.T_liq, set_default_constants]),
      temperature_update_from_287.1]
  have hu2 : temperature_update set_default_constants (3 / 10) 50
      (finite (-1486544391 / 8946538))
      = finite (98774281188710216 / 310461795021527) := by
    rw [extended_update_finite _ _ _ _ hkp1 (by norm_num [set_default_constants])
      (by norm_num [ThermoSystem.lever_rule, ThermoSystem.T_liq, set_default_constants]),
      temperature_update_from_287.2]
  have he1 : finite 1 > finite set_default_constants.temp_min_error := by
    rw [htol]
    exact (finite_lt _ _).mpr (by norm_num)
  have he2 : ExtendedNumber.abs (finite (-1486544391 / 8946538) - finite 287) / finite 287
      > finite set_default_constants.temp_min_error := by
    rw [htol, finite_sub, finite_abs, finite_div _ _ (by norm_num)]
    exact (finite_lt _ _).mpr (by norm_num [abs_of_neg])
  have he3 : ¬ (ExtendedNumber.abs (finite (98774281188710216 / 310461795021527)
      - finite (-1486544391 / 8946538)) / finite (-1486544391 / 8946538)
      > finite set_default_constants.temp_min_error) := by
    rw [htol, finite_sub, finite_abs, finite_div _ _ (by norm_num)]
    exact fun hc => absurd ((finite_lt _ _).mp hc) (by norm_num [abs_of_pos])
  unfold temperature_iterative
  rw [hmax, extended_loop_succ, if_pos he1, if_neg (by rw [hcap]; norm_num), hu1,
    extended_loop_succ, if_pos he2, if_neg (by rw [hcap]; norm_num), hu2,
    extended_loop_succ, if_neg he3]

/-- C25: with constants such that `rho_f ≠ 0`, `kappa_p` is neither `0` nor `1` and
`T_e ≠ T_m` (so that the thresholds are finite), and for every enthalpy `h`,
concentration `C` and stored temperature `Ts`: `density` returns `rho_f` in the
liquid regime, on the eutectic plateau (for `h_f ≠ 0`) and in the solid regime;
in the liquidus regime it returns `rho_f` whenever the temperature that it
computes first is a finite value other than `T_m`, and `NaN` whenever that
temperature is not finite or is `T_m`, as it is when the stored temperature is
`T_m` (tolerance below `1`).  With an iteration cap below `2 ^ 32 - 1` the
temperature is always returned.  Both densities are read from
`"density_fluid"`, and the mixture formula collapses to `rho_f` for every finite
`f`. -/
theorem density_eq_density_fluid_of_regular_temperature (k : Constants) (C h Ts : ℚ)
    (hpf : k.density_fluid ≠ 0)
    (hkp0 : k.partition_coefficient ≠ 0) (hkp1 : k.partition_coefficient ≠ 1)
    (hTe : k.eutectic_temperature ≠ k.melting_temperature) :
    (h > ThermoSystem.h_liq k C → density k C h Ts = some (finite k.density_fluid)) ∧
    (k.latent_heat ≠ 0 → ThermoSystem.h_sol k C < h → h ≤ ThermoSystem.h_e k C →
      h ≤ ThermoSystem.h_liq k C → density k C h Ts = some (finite k.density_fluid)) ∧
    (h ≤ ThermoSystem.h_sol k C → h ≤ ThermoSystem.h_e k C → h ≤ ThermoSystem.h_liq k C →
      density k C h Ts = some (finite k.density_fluid)) ∧
    (ThermoSystem.h_e k C < h → h ≤ ThermoSystem.h_liq k C →
      (∀ T, temperature k C h Ts = some (finite T) → T ≠ k.melting_temperature →
        density k C h Ts = some (finite k.density_fluid)) ∧
      (∀ v, temperature k C h Ts = some v → (∀ T, v = finite T → T = k.melting_temperature) →
        density k C h Ts = some nan) ∧
      (Ts = k.melting_temperature → k.temp_min_error < 1 → density k C h Ts = some nan) ∧
      (k.temp_max_iter < 2 ^ 32 - 1 → ∃ v, temperature k C h Ts = some v)) ∧
    (∀ f : ℚ, finite 1 / (finite f / finite k.density_fluid
      + (finite 1 - finite f) / finite k.density_fluid) = finite k.density_fluid) := by
  refine ⟨extended_density_liquid k C h Ts, ?_, ?_, ?_, ?_⟩
  · intro hhf h1 h2 h3
    exact extended_density_eutectic k C h Ts hpf hhf hkp0 hkp1 hTe h1 h2 h3
  · intro h1 h2 h3
    exact extended_density_solid k C h Ts hkp0 hkp1 hTe h1 h2 h3
  · intro h1 h2
    have hnan : ∀ v, temperature k C h Ts = some v →
        (∀ T, v = finite T → T = k.melting_temperature) →
        density k C h Ts = some nan := by
      intro v hv hnot
      rw [extended_density_liquidus k C h Ts hkp1 hTe h1 h2 v hv,
        mixture_of_not_finite _ _ (lever_rule_not_finite k C v hkp1 hnot)]
    refine ⟨?_, hnan, ?_, ?_⟩
    · intro T hT hne
      rw [extended_density_liquidus k C h Ts hkp1 hTe h1 h2 _ hT,
        lever_rule_finite k C T hkp1 hne, mixture_of_finite _ _ hpf]
    · intro hTs htol
      refine hnan nan ?_ (fun T hT => by cases hT)
      rw [extended_temperature_liquidus k C h Ts hkp1 hTe h1 h2, hTs]
      exact extended_iterative_at_melting_temperature k C h hkp1 htol
    · intro hmax
      rw [extended_temperature_liquidus k C h Ts hkp1 hTe h1 h2]
      exact extended_iterative_isSome k C h Ts (by omega)
  · intro f
    exact mixture_of_finite _ f hpf

/-- C25, witness: default constants, `C = 0.3`, `h = 50` in the liquidus regime, stored
temperature `287`: the temperature computed first is `318.15...`, not `T_m = 327`,
and `density` returns `10000`. -/
theorem density_eq_density_fluid_of_regular_temperature_witness :
    (set_default_constants.density_fluid ≠ 0 ∧
      set_default_constants.partition_coefficient ≠ 0 ∧
      set_default_constants.partition_coefficient ≠ 1 ∧
      set_default_constants.eutectic_temperature
        ≠ set_default_constants.melting_temperature) ∧
    (ThermoSystem.h_e set_default_constants (3 / 10) < 50 ∧
      (50 : ℚ) ≤ ThermoSystem.h_liq set_default_constants (3 / 10) ∧
      temperature set_default_constants (3 / 10) 50 287
        = some (finite (98774281188710216 / 310461795021527)) ∧
      (98774281188710216 / 310461795021527 : ℚ)
        ≠ set_default_constants.melting_temperature) ∧
    density set_default_constants (3 / 10) 50 287 = some (finite 10000) :=
  have h1 : set_default_constants.density_fluid ≠ 0 := by norm_num [set_default_constants]
  have h2 : set_default_constants.partition_coefficient ≠ 0 := by
    norm_num [set_default_constants]
  have h3 : set_default_constants.partition_coefficient ≠ 1 := by
    norm_num [set_default_constants]
  have h4 : set_default_constants.eutectic_temperature
      ≠ set_default_constants.melting_temperature := by norm_num [set_default_constants]
  have h5 : ThermoSystem.h_e set_default_constants (3 / 10) < 50 := by
    rw [thresholds_at_three_tenths.2.1]
    norm_num
  have h6 : (50 : ℚ) ≤ ThermoSystem.h_liq set_default_constants (3 / 10) := by
    rw [thresholds_at_three_tenths.2.2]
    norm_num
  have h7 : temperature set_default_constants (3 / 10) 50 287
      = some (finite (98774281188710216 / 310461795021527)) := by
    rw [extended_temperature_liquidus _ _ _ _ h3 h4 h5 h6]
    exact extended_iterative_from_287
  have h8 : (98774281188710216 / 310461795021527 : ℚ)
      ≠ set_default_constants.melting_temperature := by norm_num [set_default_constants]
  ⟨⟨h1, h2, h3, h4⟩, ⟨h5, h6, h7, h8⟩,
    ((density_eq_density_fluid_of_regular_temperature set_default_constants (3 / 10) 50 287
      h1 h2 h3 h4).2.2.2.1 h5 h6).1 _ h7 h8⟩

/-- C25, counterexample: default constants, `C = 0.3`, `h = 50` (liquidus regime,
`h_e = 40.19 < 50 ≤ h_liq = 74.198`), stored temperature `327 = T_m`.  The first
`lever_rule` divides by `T - T_m = 0` and is `-inf`, the update is `inf / NaN`,
`temperature` returns `NaN`, and `density` returns `NaN`, not `rho_f = 10000`. -/
theorem density_nan_at_melting_temperature :
    ThermoSystem.h_e set_default_constants (3 / 10) < 50 ∧
    (50 : ℚ) ≤ ThermoSystem.h_liq set_default_constants (3 / 10) ∧
    lever_rule set_default_constants (3 / 10) (finite 327) = neg_inf ∧
    temperature_update set_default_constants (3 / 10) 50 (finite 327) = nan ∧
    temperature set_default_constants (3 / 10) 50 327 = some nan ∧
    density set_default_constants (3 / 10) 50 327 = some nan ∧
    density set_default_constants (3 / 10) 50 327
      ≠ some (finite set_default_constants.density_fluid) := by
  have hkp1 : set_default_constants.partition_coefficient ≠ 1 := by
    norm_num [set_default_constants]
  have hTe : set_default_constants.eutectic_temperature
      ≠ set_default_constants.melting_temperature := by norm_num [set_default_constants]
  have htol : set_default_constants.temp_min_error < 1 := by norm_num [set_default_constants]
  have hTm : (327 : ℚ) = set_default_constants.melting_temperature := rfl
  have h5 : ThermoSystem.h_e set_default_constants (3 / 10) < 50 := by
    rw [thresholds_at_three_tenths.2.1]
    norm_num
  have h6 : (50 : ℚ) ≤ ThermoSystem.h_liq set_default_constants (3 / 10) := by
    rw [thresholds_at_three_tenths.2.2]
    norm_num
  have hnot : ∀ x, lever_rule set_default_constants (3 / 10) (finite 327) ≠ finite x :=
    lever_rule_not_finite _ _ _ hkp1 (fun T hT => (finite.inj hT).symm.trans hTm)
  have hT : temperature set_default_constants (3 / 10) 50 327 = some nan := by
    rw [extended_temperature_liquidus _ _ _ _ hkp1 hTe h5 h6, hTm]
    exact extended_iterative_at_melting_temperature _ _ _ hkp1 htol
  have hd : density set_default_constants (3 / 10) 50 327 = some nan := by
    rw [extended_density_liquidus _ _ _ _ hkp1 hTe h5 h6 nan hT,
      mixture_of_not_finite _ _
        (lever_rule_not_finite _ _ nan hkp1 (fun T hc => by cases hc))]
  refine ⟨h5, h6, ?_, extended_update_of_not_finite _ _ _ _ hnot, hT, hd, ?_⟩
  · rw [hTm]
    exact lever_rule_at_melting_temperature _ _ (by norm_num [set_default_constants])
      (by norm_num [set_default_constants])
  · rw [hd]
    exact fun hc => by cases hc

end Extended

end ThermoSystem

end SlaughterFEM


/-! # Properties of `FileParts` -/

namespace SlaughterCommon

namespace FileParts

/-- The character at a position that `rfind` returns inside the string is the needle. -/
theorem rfind_getElem (s : List Char) (c : Char) (hlen : s.length < 2 ^ 64)
    (h1 : rfind s c < s.length) :
    s[rfind s c]? = some c := by
  unfold rfind at h1 ⊢
  by_cases hr : s.reverse.indexOf c < s.length
  · simp only [if_pos hr] at h1 ⊢
    have hr2 : s.reverse.indexOf c < s.reverse.length := by
      rw [List.length_reverse]
      exact hr
    have hg := List.indexOf_get hr2
    rw [List.get_eq_getElem, List.getElem_reverse] at hg
    rw [List.getElem?_eq_getElem h1]
    exact congrArg some hg
  · simp only [if_neg hr] at h1
    simp only [npos] at h1
    omega

/-- A search for `.` that starts at a position holding another character finds a later
position, or nothing. -/
theorem find_after (s : List Char) (pos : ℕ) (c d : Char) (hcd : d ≠ c)
    (hpos : s[pos]? = some d) :
    find s c pos = npos ∨ (pos < find s c pos ∧ find s c pos < s.length ∧
      find s c pos = pos + 1 + (s.drop (pos + 1)).indexOf c) := by
  have hlt : pos < s.length := by
    by_contra hge
    rw [List.getElem?_eq_none (not_lt.mp hge)] at hpos
    cases hpos
  have hd : s[pos] = d := by
    rw [List.getElem?_eq_getElem hlt] at hpos
    exact Option.some.inj hpos
  have hdrop : s.drop pos = d :: s.drop (pos + 1) := by
    rw [List.drop_eq_getElem_cons hlt, hd]
  unfold find
  simp only [hdrop, List.indexOf_cons_ne _ hcd, List.length_cons, List.length_drop]
  by_cases hi : (List.indexOf c (s.drop (pos + 1))).succ < s.length - (pos + 1) + 1
  · right
    simp only [if_pos hi]
    refine ⟨by omega, by omega, by omega⟩
  · left
    simp only [if_neg hi]

/-- Where `init` does decompose the file name: for every string of fewer than `2 ^ 64`
characters whose last `/` is not its first character, a freshly constructed
object has `full = s`, `path ++ name ++ ext = s`, `update` leaves `full`
unchanged, and `path` is the string up to and including the last `/`. -/
theorem init_lossless_of_directory (file_exists : List Char → Bool) (exist : Bool)
    (s : List Char) (hlen : s.length < 2 ^ 64)
    (h0 : 0 < rfind s '/') (h1 : rfind s '/' < s.length) :
    (construct file_exists exist s).full = s ∧
    (construct file_exists exist s).path ++ (construct file_exists exist s).name
      ++ (construct file_exists exist s).ext = s ∧
    (update (construct file_exists exist s)).full = s ∧
    (construct file_exists exist s).path = s.take (rfind s '/' + 1) := by
  have hmod : (rfind s '/' + 1) % 2 ^ 64 = rfind s '/' + 1 := Nat.mod_eq_of_lt (by omega)
  have hsl : 0 < rfind s '/' ∧ rfind s '/' < s.length := ⟨h0, h1⟩
  have hfind := find_after s (rfind s '/') '.' '/' (by decide) (rfind_getElem s '/' hlen h1)
  have key : (construct file_exists exist s).path ++ (construct file_exists exist s).name
      ++ (construct file_exists exist s).ext = s ∧
      (construct file_exists exist s).path = s.take (rfind s '/' + 1) := by
    rcases hfind with hnp | ⟨hd1, hd2, hd3⟩
    · have hdot : ¬ (find s '.' (rfind s '/') > 0 ∧ find s '.' (rfind s '/') < s.length) := by
        rw [hnp]
        simp only [npos]
        omega
      have hcnt : (npos + 2 ^ 64 - rfind s '/' - 1) % 2 ^ 64 = 2 ^ 64 - 2 - rfind s '/' := by
        simp only [npos]
        omega
      simp only [construct, init, fresh, if_neg hdot, if_pos hsl, hmod, substr,
        List.drop_zero, List.append_nil]
      refine ⟨?_, trivial⟩
      rw [hnp, hcnt, List.take_of_length_le (l := s.drop (rfind s '/' + 1))
        (by rw [List.length_drop]; omega)]
      exact List.take_append_drop _ _
    · have hdot : find s '.' (rfind s '/') > 0 ∧ find s '.' (rfind s '/') < s.length :=
        ⟨by omega, hd2⟩
      have hcnt : (find s '.' (rfind s '/') + 2 ^ 64 - rfind s '/' - 1) % 2 ^ 64
          = find s '.' (rfind s '/') - (rfind s '/' + 1) := by
        omega
      simp only [construct, init, fresh, if_pos hdot, if_pos hsl, hmod, hcnt, substr,
        List.drop_zero]
      refine ⟨?_, trivial⟩
      rw [List.take_of_length_le (l := s.drop (find s '.' (rfind s '/')))
        (by rw [List.length_drop]; simp only [npos]; omega)]
      have hsplit : s.drop (find s '.' (rfind s '/'))
          = (s.drop (rfind s '/' + 1)).drop (find s '.' (rfind s '/') - (rfind s '/' + 1)) := by
        rw [List.drop_drop]
        congr 1
        omega
      rw [hsplit, List.append_assoc, List.take_append_drop, List.take_append_drop]
  have hfull : (construct file_exists exist s).full = s := by
    simp only [construct, init]
    split_ifs <;> rfl
  refine ⟨hfull, key.1, ?_, key.2⟩
  exact key.1

/-- C21: `init` does not decompose every file name.  The path of the test,
`./this/is/a/test/dir/and/file/test.tar.gz`, is split into the path
`./this/is/a/test/dir/and/file/`, the name `test` and the extension `.tar.gz`,
and `update` leaves `full` as it is.  But for `file.txt`, which has no `/`, a
freshly constructed object has `full = file.txt` with `path`, `name` and `ext`
all empty, so that `path ++ name ++ ext` is not the input and `update` sets
`full` to the empty string; and for `/file.txt`, whose last `/` is at position
`0`, `path` and `name` are empty and only `ext = .txt` is set.  This holds
whatever the file system says about the existence of the file. -/
theorem init_drops_name_without_directory (file_exists : List Char → Bool) (exist : Bool) :
    (construct file_exists exist ("./this/is/a/test/dir/and/file/test.tar.gz".toList)
        = ⟨"./this/is/a/test/dir/and/file/test.tar.gz".toList,
            "./this/is/a/test/dir/and/file/".toList, "test".toList, ".tar.gz".toList,
            file_exists ("./this/is/a/test/dir/and/file/test.tar.gz".toList)⟩ ∧
      (update (construct file_exists exist
          ("./this/is/a/test/dir/and/file/test.tar.gz".toList))).full
        = "./this/is/a/test/dir/and/file/test.tar.gz".toList) ∧
    (construct file_exists exist ("file.txt".toList)
        = ⟨"file.txt".toList, [], [], [], file_exists ("file.txt".toList)⟩ ∧
      assign file_exists (fresh exist) ("file.txt".toList)
        = ⟨"file.txt".toList, [], [], [], file_exists ("file.txt".toList)⟩ ∧
      (construct file_exists exist ("file.txt".toList)).path
          ++ (construct file_exists exist ("file.txt".toList)).name
          ++ (construct file_exists exist ("file.txt".toList)).ext ≠ "file.txt".toList ∧
      (update (construct file_exists exist ("file.txt".toList))).full = [] ∧
      (update (construct file_exists exist ("file.txt".toList))).full
        ≠ (construct file_exists exist ("file.txt".toList)).full) ∧
    (construct file_exists exist ("/file.txt".toList)
        = ⟨"/file.txt".toList, [], [], ".txt".toList, file_exists ("/file.txt".toList)⟩ ∧
      (update (construct file_exists exist ("/file.txt".toList))).full = ".txt".toList) := by
  refine ⟨⟨rfl, rfl⟩, ⟨rfl, rfl, ?_, rfl, ?_⟩, ⟨rfl, rfl⟩⟩
  · intro hc
    have hnil : ([] : List Char) = "file.txt".toList := hc
    exact absurd hnil (by decide)
  · intro hc
    have hnil : ([] : List Char) = "file.txt".toList := hc
    exact absurd hnil (by decide)

/-- The text that the stream holds for a step that is not negative is the spec's
left-padded decimal representation. -/
theorem stream_insert_eq_digits_spec (tstep pad : ℤ) (ht : 0 ≤ tstep) :
    stream_insert pad '0' tstep = digits_spec tstep.toNat pad.toNat := by
  have hn : ¬ tstep < 0 := not_lt.mpr ht
  have hnat : tstep.natAbs = tstep.toNat := by omega
  simp only [stream_insert, digits_spec, List.leftpad, if_neg hn, hnat]

/-- C22: for every object, every `tstep ≥ 0`, `pad ≥ 0` and prefix, `add_tstep` returns
`path ++ name ++ prfx ++ digits ++ ext`, where `digits` is the decimal
representation of `tstep` after as many `0` as are needed to reach `pad`
characters (none if it is already as long: it ends with the whole decimal
representation and has `max pad (number of digits)` characters), and the object
is unchanged.  For `path/to/a/file.txt` the call `add_tstep(222, 4, "_")` returns
`path/to/a/file_0222.txt`, and for `this/is/a/time/series/filename.dat` the call
`add_tstep(234, 5, "_")` returns `this/is/a/time/series/filename_00234.dat`. -/
theorem add_tstep_eq_spec :
    (∀ (fp : FileParts) (tstep pad : ℤ) (prfx : List Char), 0 ≤ tstep → 0 ≤ pad →
      (add_tstep fp tstep pad prfx).1
        = fp.path ++ fp.name ++ prfx ++ digits_spec tstep.toNat pad.toNat ++ fp.ext ∧
      (add_tstep fp tstep pad prfx).2 = fp ∧
      digits_spec tstep.toNat pad.toNat
        = List.replicate (pad.toNat - (Nat.toDigits 10 tstep.toNat).length) '0'
          ++ Nat.toDigits 10 tstep.toNat ∧
      (digits_spec tstep.toNat pad.toNat).length
        = max pad.toNat (Nat.toDigits 10 tstep.toNat).length) ∧
    (∀ (file_exists : List Char → Bool) (exist : Bool),
      (add_tstep (assign file_exists (fresh exist) ("path/to/a/file.txt".toList))
          222 4 ("_".toList)).1 = "path/to/a/file_0222.txt".toList) ∧
    (∀ (file_exists : List Char → Bool) (exist : Bool),
      (add_tstep (construct file_exists exist ("this/is/a/time/series/filename.dat".toList))
          234 5 ("_".toList)).1 = "this/is/a/time/series/filename_00234.dat".toList) := by
  refine ⟨?_, fun _ _ => rfl, fun _ _ => rfl⟩
  intro fp tstep pad prfx ht _
  refine ⟨?_, rfl, rfl, ?_⟩
  · simp only [add_tstep, stream_insert_eq_digits_spec tstep pad ht, List.nil_append]
  · simp only [digits_spec, List.leftpad_length]

/-- C22, witness: the object of `a/b.c`, step `7`, padding `3` and prefix `_`: the
returned string is `a/b_007.c`. -/
theorem add_tstep_eq_spec_witness :
    ((0 : ℤ) ≤ 7 ∧ (0 : ℤ) ≤ 3) ∧
    (add_tstep (construct (fun _ => false) false ("a/b.c".toList)) 7 3 ("_".toList)).1
      = "a/b_007.c".toList :=
  ⟨⟨by decide, by decide⟩,
    ((add_tstep_eq_spec.1 (construct (fun _ => false) false ("a/b.c".toList)) 7 3
      ("_".toList) (by decide) (by decide)).1).trans (by decide)⟩

end FileParts

end SlaughterCommon
